import Mathlib

/-!
# Log analyser: KMP matcher, chained hash table, log list, analyser

A shallow embedding of `kmp.h`, `hash_table.h`, `log_list.h` and `core.cpp`,
and of the C implementation `log_analyzer.c`, whose functions keep their C
names (`KMP_search`, `HashTable_insert`, `LogAnalyzer_addLog`, ...).

Conventions of the embedding.

* A C string (`const char*`) is held as the list of the `char` values that
  stand before its NUL terminator (`CStr`); the terminator itself is not in
  the list. A null pointer is `none` of `Option CStr`.
* Index variables (`i`, `j`, the lengths) are `int` in the source; they are
  never decremented below zero, so they are held in `Nat`. The counters the
  program reports (`count`, `matchCount`, `totalEntries`, `size`) are held in
  `Int`.
* The width of `int` comes in two layers. The first definitions keep lengths
  and counters unbounded; they agree with the program while every length and
  counter stays below `2^31`. The definitions named `Int32.` after that repeat
  the functions with every `int` kept to 32 bits: a `strlen` result stored in
  an `int` and every `int` increment are reduced modulo `2^32` into the range
  of `int`, and `new` with a negative size fails. The contracts of
  `KMP::search`, of the counts of the hash table and of `searchKeyword`, which
  depend on the width, are stated on the `Int32.` layer; the lemmas
  `int32_search_eq`, `run_eq_wrapTable` and `analyzer_run_eq_wrapAnalyzer`
  relate the two layers.
* Heap arrays of `int` are lists of optional cells: a cell is `none` until it
  is written, a read of an unwritten or out-of-range cell fails.
* A `while` loop whose bound is not syntactic takes fuel; running out of fuel
  is the failure `none`. A `for` loop over a fixed range recurses on the
  number of iterations that remain.
* The caller's `positions` buffer of `KMP::searchAll` is a list of optional
  cells as well; a write outside it fails.
* The memory accesses of the matcher are recorded by instrumented copies of
  its functions (`searchTrace`, ...), which erase to the plain functions.
* Singly linked chains are lists, head first.
* What a display function writes to the standard output is held as the list
  of the items written, in order.
-/

namespace LogAnalyser

/-! ## C strings -/

/-- The content of a NUL-terminated character buffer, terminator excluded. -/
abbrev CStr := List Int

/-- The libc `strlen`. -/
def strlen (s : CStr) : Nat := s.length

/-- The read `s[i]`: a character of the content, the terminator `0` at index
`strlen s`, and a failure beyond the buffer. -/
def charAt (s : CStr) (i : Nat) : Option Int :=
  match s.get? i with
  | some c => some c
  | none => if i = s.length then some 0 else none

/-- The value of a `char` converted to `unsigned char`. -/
def toUChar (c : Int) : Int := c % 256

/-- The libc `strcmp`, up to the sign of its result: the strings are compared
character by character as `unsigned char`, the terminator being smaller than
any character of the content. -/
def strcmp : CStr → CStr → Int
  | [], [] => 0
  | [], _ :: _ => -1
  | _ :: _, [] => 1
  | a :: as, b :: bs =>
    if a = b then strcmp as bs else if toUChar a < toUChar b then -1 else 1

/-- The libc `tolower` in the "C" locale, the only locale the program runs in. -/
def tolower (c : Int) : Int := if 65 ≤ c ∧ c ≤ 90 then c + 32 else c

/-! ## Heap arrays of `int` -/

/-- An `int*` buffer obtained from `new int[n]`. -/
abbrev IntArray := List (Option Nat)

/-- The allocation `new int[n]`: `n` cells, none of them written. -/
def IntArray.alloc (n : Nat) : IntArray := List.replicate n none

/-- The read `a[i]`. -/
def IntArray.read (a : IntArray) (i : Nat) : Option Nat := (a.get? i).join

/-- The write `a[i] = v`. -/
def IntArray.write (a : IntArray) (i : Nat) (v : Nat) : Option IntArray :=
  if i < a.length then some (a.set i (some v)) else none

/-! ## `kmp.h` -/

/-- The inner loop of both KMP passes,
`while (j > 0 && src[i] != pattern[j]) j = failure[j - 1];`,
returning the final `j`. -/
def fallback (src : CStr) (i : Nat) (pattern : CStr) (failure : IntArray) :
    Nat → Nat → Option Nat
  | 0, _ => none
  | fuel + 1, j =>
    if j > 0 then do
      let a ← charAt src i
      let b ← charAt pattern j
      if a ≠ b then do
        let j' ← failure.read (j - 1)
        fallback src i pattern failure fuel j'
      else pure j
    else pure j

/-- The `for (i = ...; i < patternLen; i++)` loop of `buildFailureFunction`,
with `n` iterations left to run from index `i`. -/
def buildLoop (fuel : Nat) (pattern : CStr) :
    Nat → Nat → Nat → IntArray → Option IntArray
  | 0, _, _, failure => some failure
  | n + 1, i, j, failure => do
    let j ← fallback pattern i pattern failure fuel j
    let a ← charAt pattern i
    let b ← charAt pattern j
    let j := if a = b then j + 1 else j
    let failure ← failure.write i j
    buildLoop fuel pattern n (i + 1) j failure

/-- `KMP::buildFailureFunction(pattern, failure, patternLen)`; the result is
the `failure` buffer after the call. -/
def buildFailureFunction (fuel : Nat) (pattern : CStr) (failure : IntArray)
    (patternLen : Nat) : Option IntArray := do
  let failure ← failure.write 0 0
  buildLoop fuel pattern (patternLen - 1) 1 0 failure

/-- The `for (i = ...; i < textLen; i++)` loop of `KMP::search`, with `n`
iterations left to run from index `i`. -/
def searchLoop (fuel : Nat) (text pattern : CStr) (failure : IntArray)
    (patternLen : Nat) : Nat → Nat → Nat → Int → Option Int
  | 0, _, _, count => some count
  | n + 1, i, j, count => do
    let j ← fallback text i pattern failure fuel j
    let a ← charAt text i
    let b ← charAt pattern j
    let j := if a = b then j + 1 else j
    if j = patternLen then do
      let j' ← failure.read (j - 1)
      searchLoop fuel text pattern failure patternLen n (i + 1) j' (count + 1)
    else
      searchLoop fuel text pattern failure patternLen n (i + 1) j count

/-- `KMP::search(text, pattern)`, the two lengths held unbounded; `Int32.search`
holds them in `int`. -/
def search (fuel : Nat) (text pattern : CStr) : Option Int :=
  let textLen := strlen text
  let patternLen := strlen pattern
  if patternLen = 0 then some 0
  else if patternLen > textLen then some 0
  else do
    let failure ← buildFailureFunction fuel pattern (IntArray.alloc patternLen) patternLen
    searchLoop fuel text pattern failure patternLen textLen 0 0 0

/-- `KMP::searchCaseInsensitive(text, pattern)`: the two lowercase copies are
built character by character and handed to `search`. -/
def searchCaseInsensitive (fuel : Nat) (text pattern : CStr) : Option Int :=
  let textLen := strlen text
  let patternLen := strlen pattern
  if patternLen = 0 then some 0
  else if patternLen > textLen then some 0
  else
    let lowerText := text.map tolower
    let lowerPattern := pattern.map tolower
    search fuel lowerText lowerPattern

/-! ## `hash_table.h` -/

/-- `HashTable::TABLE_SIZE`. -/
def TABLE_SIZE : Nat := 101

/-- A node of a bucket chain: `key` and `count`; the `next` pointer is the
tail of the list the node stands in. -/
structure HashNode where
  key : CStr
  count : Int
  deriving DecidableEq, Repr

/-- The table: the `TABLE_SIZE` bucket chains and `totalEntries`. -/
structure HashTable where
  buckets : List (List HashNode)
  size_eq : buckets.length = TABLE_SIZE
  totalEntries : Int

/-- The loop of `HashTable::hashFunction` over the characters up to the
terminator; `hash` is an `unsigned long` of 64 bits and every operation wraps.
The character is first held in the `int c`, then converted to `unsigned long`
for the sum. -/
def hashLoop : Nat → CStr → Nat
  | hash, [] => hash
  | hash, c :: rest =>
    hashLoop ((((hash * 2 ^ 5) % 2 ^ 64 + hash) % 2 ^ 64 + (c % 2 ^ 64).toNat) % 2 ^ 64) rest

/-- `HashTable::hashFunction(key)`. -/
def hashFunction (key : CStr) : Nat := hashLoop 5381 key % TABLE_SIZE

/-- The constructor `HashTable()`: every bucket is `nullptr`, no entry. -/
def HashTable.empty : HashTable :=
  ⟨List.replicate TABLE_SIZE [], List.length_replicate _ _, 0⟩

/-- The chain walk of `HashTable::insert`: the chain with the count of the
first node that holds `key` incremented, or `none` when the walk reaches the
end of the chain without finding the key. The count is held unbounded;
`Int32.bumpChain` holds it in `int`. -/
def bumpChain (key : CStr) : List HashNode → Option (List HashNode)
  | [] => none
  | current :: next =>
    if strcmp current.key key = 0 then some (⟨current.key, current.count + 1⟩ :: next)
    else (bumpChain key next).map (fun next' => current :: next')

/-- `HashTable::insert(key)`. -/
def HashTable.insert (t : HashTable) (key : CStr) : HashTable :=
  let index := hashFunction key
  match bumpChain key (t.buckets.getD index []) with
  | some chain =>
    ⟨t.buckets.set index chain, (List.length_set _ _ _).trans t.size_eq, t.totalEntries⟩
  | none =>
    ⟨t.buckets.set index (⟨key, 1⟩ :: t.buckets.getD index []),
      (List.length_set _ _ _).trans t.size_eq, t.totalEntries + 1⟩

/-- The chain walk of `HashTable::getCount`. -/
def chainCount (key : CStr) : List HashNode → Int
  | [] => 0
  | current :: next => if strcmp current.key key = 0 then current.count else chainCount key next

/-- `HashTable::getCount(key)`. -/
def HashTable.getCount (t : HashTable) (key : CStr) : Int :=
  chainCount key (t.buckets.getD (hashFunction key) [])

/-- `HashTable::clear()`. -/
def HashTable.clear (_t : HashTable) : HashTable :=
  ⟨List.replicate TABLE_SIZE [], List.length_replicate _ _, 0⟩

/-- `HashTable::getTotalEntries()`. -/
def HashTable.getTotalEntries (t : HashTable) : Int := t.totalEntries

/-- Every chain node of the table: buckets in ascending index, each chain from
its head (the order in which `displayAll` walks them). -/
def HashTable.allNodes (t : HashTable) : List HashNode := t.buckets.flatten

/-- A call on a `HashTable` that changes it. -/
inductive TableOp where
  | insert (key : CStr)
  | clear
  deriving DecidableEq, Repr

/-- One call applied to a table. -/
def HashTable.apply (t : HashTable) : TableOp → HashTable
  | .insert key => t.insert key
  | .clear => t.clear

/-- The table reached from construction by a sequence of calls. -/
def HashTable.run (ops : List TableOp) : HashTable := ops.foldl HashTable.apply HashTable.empty

/-- The keys passed to `insert` since construction or the last `clear`, in
call order. -/
def keysSinceClear (ops : List TableOp) : List CStr :=
  ops.foldl (fun acc op => match op with
    | .insert key => acc ++ [key]
    | .clear => []) []

/-- The effect of `current->count++` on the node that holds `key`. -/
def bumpNode (key : CStr) (n : HashNode) : HashNode :=
  if n.key = key then ⟨n.key, n.count + 1⟩ else n

/-- The representation invariant of the table: every node stands in the bucket
of its key's hash, no two nodes hold the same key, every count is at least 1,
and `totalEntries` is the number of nodes. -/
def HashTable.Inv (t : HashTable) : Prop :=
  (∀ i, ∀ n ∈ t.buckets.getD i [], hashFunction n.key = i) ∧
  (t.allNodes.map HashNode.key).Nodup ∧
  (∀ n ∈ t.allNodes, 1 ≤ n.count) ∧
  t.totalEntries = (t.allNodes.length : Nat)

/-- A record of the log list; the `next` pointer is the tail of the list the
record stands in. -/
structure LogEntry where
  timestamp : CStr
  log_level : CStr
  message : CStr
  deriving DecidableEq, Repr

/-- The list: the chain from `head`, and `size`. -/
structure LogList where
  head : List LogEntry
  size : Int
  deriving DecidableEq, Repr

/-- The constructor `LogList()`. -/
def LogList.empty : LogList := ⟨[], 0⟩

/-- `LogList::addEntry(timestamp, log_level, message)`. -/
def LogList.addEntry (l : LogList) (timestamp log_level message : CStr) : LogList :=
  ⟨⟨timestamp, log_level, message⟩ :: l.head, l.size + 1⟩

/-- `LogList::getHead()`: the chain of records from the head. -/
def LogList.getHead (l : LogList) : List LogEntry := l.head

/-- `LogList::getSize()`. -/
def LogList.getSize (l : LogList) : Int := l.size

/-- `LogList::clear()`. -/
def LogList.clear (_l : LogList) : LogList := ⟨[], 0⟩

/-- A call on a `LogList` that changes it. -/
inductive ListOp where
  | addEntry (timestamp log_level message : CStr)
  | clear
  deriving DecidableEq, Repr

/-- One call applied to a list. -/
def LogList.apply (l : LogList) : ListOp → LogList
  | .addEntry ts level msg => l.addEntry ts level msg
  | .clear => l.clear

/-- The list reached from construction by a sequence of calls. -/
def LogList.run (ops : List ListOp) : LogList := ops.foldl LogList.apply LogList.empty

/-- The records passed to `addEntry` since construction or the last `clear`,
in call order. -/
def entriesSinceClear (ops : List ListOp) : List LogEntry :=
  ops.foldl (fun acc op => match op with
    | .addEntry ts level msg => acc ++ [⟨ts, level, msg⟩]
    | .clear => []) []

/-! ## `core.cpp` -/

/-- The string literal "ERROR". -/
def ERROR_UPPER : CStr := [69, 82, 82, 79, 82]

/-- The string literal "error". -/
def ERROR_LOWER : CStr := [101, 114, 114, 111, 114]

/-- The analyser: its log list and its error table (the matcher has no state). -/
structure LogAnalyzer where
  logList : LogList
  errorTable : HashTable

/-- The constructor `LogAnalyzer()`. -/
def LogAnalyzer.empty : LogAnalyzer := ⟨LogList.empty, HashTable.empty⟩

/-- `LogAnalyzer::isErrorLevel(level)`. -/
def isErrorLevel (level : CStr) : Bool :=
  strcmp level ERROR_UPPER == 0 || strcmp level ERROR_LOWER == 0

/-- `LogAnalyzer::addLog(timestamp, log_level, message)`. -/
def LogAnalyzer.addLog (a : LogAnalyzer) (timestamp log_level message : CStr) : LogAnalyzer :=
  let logList := a.logList.addEntry timestamp log_level message
  if isErrorLevel log_level then ⟨logList, a.errorTable.insert message⟩
  else ⟨logList, a.errorTable⟩

/-- The `while (current != nullptr)` loop of `LogAnalyzer::searchKeyword`, the
sum held unbounded; `Int32.searchKeywordLoop` holds it in `int`. -/
def searchKeywordLoop (fuel : Nat) (keyword : CStr) (caseSensitive : Bool) :
    List LogEntry → Int → Option Int
  | [], matchCount => some matchCount
  | current :: next, matchCount => do
    let count ←
      if caseSensitive then search fuel current.message keyword
      else searchCaseInsensitive fuel current.message keyword
    searchKeywordLoop fuel keyword caseSensitive next (matchCount + count)

/-- `LogAnalyzer::searchKeyword(keyword, caseSensitive)`; a null `keyword` is
`none`. -/
def LogAnalyzer.searchKeyword (fuel : Nat) (a : LogAnalyzer) (keyword : Option CStr)
    (caseSensitive : Bool) : Option Int :=
  match keyword with
  | none => some 0
  | some keyword =>
    if strlen keyword = 0 then some 0
    else searchKeywordLoop fuel keyword caseSensitive a.logList.getHead 0

/-- `LogAnalyzer::getTotalLogs()`. -/
def LogAnalyzer.getTotalLogs (a : LogAnalyzer) : Int := a.logList.getSize

/-- `LogAnalyzer::getErrorCount()`. -/
def LogAnalyzer.getErrorCount (a : LogAnalyzer) : Int := a.errorTable.getTotalEntries

/-- `LogAnalyzer::clearAll()`. -/
def LogAnalyzer.clearAll (a : LogAnalyzer) : LogAnalyzer :=
  ⟨a.logList.clear, a.errorTable.clear⟩

/-- A call on a `LogAnalyzer` that changes it. -/
inductive AnalyzerOp where
  | addLog (timestamp log_level message : CStr)
  | clearAll
  deriving DecidableEq, Repr

/-- One call applied to an analyser. -/
def LogAnalyzer.apply (a : LogAnalyzer) : AnalyzerOp → LogAnalyzer
  | .addLog ts level msg => a.addLog ts level msg
  | .clearAll => a.clearAll

/-- The analyser reached from construction by a sequence of calls. -/
def LogAnalyzer.run (ops : List AnalyzerOp) : LogAnalyzer :=
  ops.foldl LogAnalyzer.apply LogAnalyzer.empty

/-- The matcher that `searchKeyword` applies to one message. -/
def matchCount (fuel : Nat) (caseSensitive : Bool) (message keyword : CStr) : Option Int :=
  if caseSensitive then search fuel message keyword
  else searchCaseInsensitive fuel message keyword

/-- The sum of the matcher's results over a list of messages; a failing
matcher call fails the sum. -/
def sumMatchCounts (fuel : Nat) (caseSensitive : Bool) (keyword : CStr) :
    List CStr → Option Int
  | [] => some 0
  | message :: rest => do
    let count ← matchCount fuel caseSensitive message keyword
    let sum ← sumMatchCounts fuel caseSensitive keyword rest
    pure (count + sum)

/-! ## Reference notions for the matcher -/

/-- The pattern stands in the text at start index `i`:
`text[i .. i + |pattern|)` lies inside the text and equals the pattern. -/
def occursAt (text pattern : CStr) (i : Nat) : Prop :=
  i + pattern.length ≤ text.length ∧ (text.drop i).take pattern.length = pattern

instance (text pattern : CStr) (i : Nat) : Decidable (occursAt text pattern i) :=
  inferInstanceAs (Decidable (_ ∧ _))

/-- The number of start indices at which the pattern stands in the text. -/
def occurrences (text pattern : CStr) : Nat :=
  ((List.range (text.length + 1)).filter (fun i => decide (occursAt text pattern i))).length

/-- The prefix of `p` of length `k` is a suffix of `s`. -/
def Bord (p s : CStr) (k : Nat) : Prop := k ≤ p.length ∧ p.take k <:+ s

/-- The number `k` is the largest one with the property `P`. -/
def Longest (P : Nat → Prop) (k : Nat) : Prop := P k ∧ ∀ k', P k' → k' ≤ k

/-- The prefix of `p` of length `k` is a proper suffix of `p[0..t]`. -/
def properBorder (p : CStr) (t k : Nat) : Prop := k ≤ t ∧ Bord p (p.take (t + 1)) k

/-- The first `n` cells of `f` are written and hold the prefix function of `p`. -/
def FailOK (p : CStr) (f : IntArray) (n : Nat) : Prop :=
  ∀ t, t < n → ∃ v, f.read t = some v ∧ Longest (properBorder p t) v

/-! ## What the display functions write -/

/-- One item of what `LogAnalyzer::displayLogsWithKeyword` writes to the
standard output; `record index entry` is the line
`[index] timestamp [level] message`. -/
inductive KeywordItem where
  | invalidKeyword
  | header (keyword : CStr)
  | record (index : Int) (entry : LogEntry)
  | noLogsFound
  | totalMatching (foundCount : Int)
  deriving DecidableEq, Repr

/-- The `while (current != nullptr)` loop of
`LogAnalyzer::displayLogsWithKeyword`, from the chain `current`, with the
values of `foundCount` and `index` on entry: the lines written and the final
`foundCount`. -/
def displayKeywordLoop (fuel : Nat) (keyword : CStr) (caseSensitive : Bool) :
    List LogEntry → Int → Int → Option (List KeywordItem × Int)
  | [], foundCount, _ => some ([], foundCount)
  | current :: next, foundCount, index => do
    let count ←
      if caseSensitive then search fuel current.message keyword
      else searchCaseInsensitive fuel current.message keyword
    if count > 0 then do
      let rest ← displayKeywordLoop fuel keyword caseSensitive next (foundCount + 1) (index + 1)
      pure (KeywordItem.record index current :: rest.1, rest.2)
    else
      displayKeywordLoop fuel keyword caseSensitive next foundCount (index + 1)

/-- `LogAnalyzer::displayLogsWithKeyword(keyword, caseSensitive)`: the items it
writes, in order; a null `keyword` is `none`. -/
def LogAnalyzer.displayLogsWithKeyword (fuel : Nat) (a : LogAnalyzer) (keyword : Option CStr)
    (caseSensitive : Bool) : Option (List KeywordItem) :=
  match keyword with
  | none => some [KeywordItem.invalidKeyword]
  | some keyword =>
    if strlen keyword = 0 then some [KeywordItem.invalidKeyword]
    else do
      let walk ← displayKeywordLoop fuel keyword caseSensitive a.logList.getHead 0 1
      pure ([KeywordItem.header keyword] ++ walk.1 ++
        (if walk.2 = 0 then [KeywordItem.noLogsFound] else [KeywordItem.totalMatching walk.2]))

/-- The records among the items written by `displayLogsWithKeyword`. -/
def printedRecords : List KeywordItem → List LogEntry
  | [] => []
  | KeywordItem.record _ entry :: rest => entry :: printedRecords rest
  | _ :: rest => printedRecords rest

/-- The totals reported among the items written by `displayLogsWithKeyword`. -/
def reportedTotals : List KeywordItem → List Int
  | [] => []
  | KeywordItem.totalMatching n :: rest => n :: reportedTotals rest
  | _ :: rest => reportedTotals rest

/-! ## The analyser as a client of its two containers -/

/-- The calls on the error table that one call on the analyser makes. -/
def AnalyzerOp.tableOps : AnalyzerOp → List TableOp
  | .addLog _ level message => if isErrorLevel level then [TableOp.insert message] else []
  | .clearAll => [TableOp.clear]

/-- The calls on the error table that a sequence of calls on the analyser makes. -/
def tableOpsOf (ops : List AnalyzerOp) : List TableOp := ops.flatMap AnalyzerOp.tableOps

/-- The call on the log list that one call on the analyser makes. -/
def AnalyzerOp.listOp : AnalyzerOp → ListOp
  | .addLog ts level message => ListOp.addEntry ts level message
  | .clearAll => ListOp.clear

/-- The messages of the `addLog` calls whose level is "ERROR" or "error", made
since construction or the last `clearAll`, in call order. -/
def errorMessagesSinceClear (ops : List AnalyzerOp) : List CStr :=
  ops.foldl (fun acc op => match op with
    | .addLog _ level message =>
      if level = ERROR_UPPER ∨ level = ERROR_LOWER then acc ++ [message] else acc
    | .clearAll => []) []

/-! ## The strings of the test scenarios -/

/-- The string literal "aaa". -/
def STR_AAA : CStr := [97, 97, 97]

/-- The string literal "aa". -/
def STR_AA : CStr := [97, 97]

/-- The string literal "Failed to connect". -/
def STR_FAILED_TO_CONNECT : CStr :=
  [70, 97, 105, 108, 101, 100, 32, 116, 111, 32, 99, 111, 110, 110, 101, 99, 116]

/-- The string literal "FAILED". -/
def STR_FAILED_UPPER : CStr := [70, 65, 73, 76, 69, 68]

/-- The string literal "Failed". -/
def STR_FAILED : CStr := [70, 97, 105, 108, 101, 100]

/-- The string literal "Failed to connect to database". -/
def STR_FAILED_DATABASE : CStr :=
  [70, 97, 105, 108, 101, 100, 32, 116, 111, 32, 99, 111, 110, 110, 101, 99, 116] ++
  [32, 116, 111, 32, 100, 97, 116, 97, 98, 97, 115, 101]

/-- The string literal "File not found: config.xml". -/
def STR_FILE_NOT_FOUND : CStr :=
  [70, 105, 108, 101, 32, 110, 111, 116, 32, 102, 111, 117, 110, 100] ++
  [58, 32, 99, 111, 110, 102, 105, 103, 46, 120, 109, 108]

/-- The string literal "INFO". -/
def STR_INFO : CStr := [73, 78, 70, 79]

/-! ## The matcher with its cost counted

The same code as `fallback`, `buildLoop`, `buildFailureFunction`, `searchLoop`
and `search`, with two ghost counters: the number of executions of the body of
the inner `while` loops, and the indices at which the scan reads the text, in
the order of the reads. -/

/-- The loop `fallback` with its cost: the final `j`, the number of executions
of the loop body, and the number of reads of `src[i]`. -/
def fallbackCost (src : CStr) (i : Nat) (pattern : CStr) (failure : IntArray) :
    Nat → Nat → Option (Nat × Nat × Nat)
  | 0, _ => none
  | fuel + 1, j =>
    if j > 0 then do
      let a ← charAt src i
      let b ← charAt pattern j
      if a ≠ b then do
        let j' ← failure.read (j - 1)
        let rest ← fallbackCost src i pattern failure fuel j'
        pure (rest.1, rest.2.1 + 1, rest.2.2 + 1)
      else pure (j, 0, 1)
    else pure (j, 0, 0)

/-- The loop `buildLoop` with its cost: the buffer, and the number of
executions of the body of the inner loop. -/
def buildLoopCost (fuel : Nat) (pattern : CStr) :
    Nat → Nat → Nat → IntArray → Option (IntArray × Nat)
  | 0, _, _, failure => some (failure, 0)
  | n + 1, i, j, failure => do
    let fb ← fallbackCost pattern i pattern failure fuel j
    let j := fb.1
    let a ← charAt pattern i
    let b ← charAt pattern j
    let j := if a = b then j + 1 else j
    let failure ← failure.write i j
    let rest ← buildLoopCost fuel pattern n (i + 1) j failure
    pure (rest.1, fb.2.1 + rest.2)

/-- The function `buildFailureFunction` with its cost. -/
def buildFailureFunctionCost (fuel : Nat) (pattern : CStr) (failure : IntArray)
    (patternLen : Nat) : Option (IntArray × Nat) := do
  let failure ← failure.write 0 0
  buildLoopCost fuel pattern (patternLen - 1) 1 0 failure

/-- The loop `searchLoop` with its cost: the count, the number of executions
of the body of the inner loop, and the text indices read, in order (the reads
of `text[i]` by the inner loop's test, then the read by the `if`). -/
def searchLoopCost (fuel : Nat) (text pattern : CStr) (failure : IntArray)
    (patternLen : Nat) : Nat → Nat → Nat → Int → Option (Int × Nat × List Nat)
  | 0, _, _, count => some (count, 0, [])
  | n + 1, i, j, count => do
    let fb ← fallbackCost text i pattern failure fuel j
    let j := fb.1
    let a ← charAt text i
    let b ← charAt pattern j
    let j := if a = b then j + 1 else j
    if j = patternLen then do
      let j' ← failure.read (j - 1)
      let rest ← searchLoopCost fuel text pattern failure patternLen n (i + 1) j' (count + 1)
      pure (rest.1, fb.2.1 + rest.2.1, List.replicate (fb.2.2 + 1) i ++ rest.2.2)
    else do
      let rest ← searchLoopCost fuel text pattern failure patternLen n (i + 1) j count
      pure (rest.1, fb.2.1 + rest.2.1, List.replicate (fb.2.2 + 1) i ++ rest.2.2)

/-- The function `search` with its cost: the result, the number of executions
of the body of the two inner loops together, and the text indices read by the
scan, in order. -/
def searchCost (fuel : Nat) (text pattern : CStr) : Option (Int × Nat × List Nat) :=
  let textLen := strlen text
  let patternLen := strlen pattern
  if patternLen = 0 then some (0, 0, [])
  else if patternLen > textLen then some (0, 0, [])
  else do
    let built ← buildFailureFunctionCost fuel pattern (IntArray.alloc patternLen) patternLen
    let scan ← searchLoopCost fuel text pattern built.1 patternLen textLen 0 0 0
    pure (scan.1, built.2 + scan.2.1, scan.2.2)

/-! ## Reference notions for the analyser -/

/-- The record's message yields a match count greater than 0. -/
def matchesKeyword (fuel : Nat) (caseSensitive : Bool) (keyword : CStr) (r : LogEntry) : Bool :=
  match matchCount fuel caseSensitive r.message keyword with
  | some count => decide (count > 0)
  | none => false

/-- One `addLog` call per record of the list, in the order of the list. -/
def addLogOps (recs : List LogEntry) : List AnalyzerOp :=
  recs.map (fun r => AnalyzerOp.addLog r.timestamp r.log_level r.message)

/-- The hash the specification describes: start from 5381 and, for each byte
`c` of the key in order, set `h := (33 * h + c) mod 2^64`. -/
def djb2 (key : CStr) : Nat :=
  key.foldl (fun h c => (33 * h + c.toNat) % 2 ^ 64) 5381

/-! ## What `LogList::displayAll` writes -/

/-- The arguments (timestamp, level, message) of the fifteen `addLog` calls of
`LogAnalyzer::loadSampleData`, in the order of the calls. -/
def sampleCalls : List LogEntry :=
   -- 2024-01-15 08:00:00 | INFO | Server started successfully
  [⟨[50, 48, 50, 52, 45, 48, 49, 45, 49, 53, 32, 48, 56, 58, 48, 48, 58, 48, 48], [73, 78, 70, 79],
      [83, 101, 114, 118, 101, 114, 32, 115, 116, 97, 114, 116, 101, 100, 32, 115, 117, 99, 99,
      101, 115, 115, 102, 117, 108, 108, 121]⟩,
   -- 2024-01-15 08:05:23 | WARNING | High memory usage detected
   ⟨[50, 48, 50, 52, 45, 48, 49, 45, 49, 53, 32, 48, 56, 58, 48, 53, 58, 50, 51], [87, 65, 82, 78, 73, 78, 71],
      [72, 105, 103, 104, 32, 109, 101, 109, 111, 114, 121, 32, 117, 115, 97, 103, 101, 32, 100,
      101, 116, 101, 99, 116, 101, 100]⟩,
   -- 2024-01-15 08:10:45 | ERROR | Failed to connect to database
   ⟨[50, 48, 50, 52, 45, 48, 49, 45, 49, 53, 32, 48, 56, 58, 49, 48, 58, 52, 53], [69, 82, 82, 79, 82],
      [70, 97, 105, 108, 101, 100, 32, 116, 111, 32, 99, 111, 110, 110, 101, 99, 116, 32, 116,
      111, 32, 100, 97, 116, 97, 98, 97, 115, 101]⟩,
   -- 2024-01-15 08:15:12 | INFO | User authentication successful
   ⟨[50, 48, 50, 52, 45, 48, 49, 45, 49, 53, 32, 48, 56, 58, 49, 53, 58, 49, 50], [73, 78, 70, 79],
      [85, 115, 101, 114, 32, 97, 117, 116, 104, 101, 110, 116, 105, 99, 97, 116, 105, 111, 110,
      32, 115, 117, 99, 99, 101, 115, 115, 102, 117, 108]⟩,
   -- 2024-01-15 08:20:30 | ERROR | Failed to connect to database
   ⟨[50, 48, 50, 52, 45, 48, 49, 45, 49, 53, 32, 48, 56, 58, 50, 48, 58, 51, 48], [69, 82, 82, 79, 82],
      [70, 97, 105, 108, 101, 100, 32, 116, 111, 32, 99, 111, 110, 110, 101, 99, 116, 32, 116,
      111, 32, 100, 97, 116, 97, 98, 97, 115, 101]⟩,
   -- 2024-01-15 08:25:00 | DEBUG | Processing request ID 12345
   ⟨[50, 48, 50, 52, 45, 48, 49, 45, 49, 53, 32, 48, 56, 58, 50, 53, 58, 48, 48], [68, 69, 66, 85, 71],
      [80, 114, 111, 99, 101, 115, 115, 105, 110, 103, 32, 114, 101, 113, 117, 101, 115, 116, 32,
      73, 68, 32, 49, 50, 51, 52, 53]⟩,
   -- 2024-01-15 08:30:15 | ERROR | File not found: config.xml
   ⟨[50, 48, 50, 52, 45, 48, 49, 45, 49, 53, 32, 48, 56, 58, 51, 48, 58, 49, 53], [69, 82, 82, 79, 82],
      [70, 105, 108, 101, 32, 110, 111, 116, 32, 102, 111, 117, 110, 100, 58, 32, 99, 111, 110,
      102, 105, 103, 46, 120, 109, 108]⟩,
   -- 2024-01-15 08:35:40 | INFO | Cache cleared successfully
   ⟨[50, 48, 50, 52, 45, 48, 49, 45, 49, 53, 32, 48, 56, 58, 51, 53, 58, 52, 48], [73, 78, 70, 79],
      [67, 97, 99, 104, 101, 32, 99, 108, 101, 97, 114, 101, 100, 32, 115, 117, 99, 99, 101, 115,
      115, 102, 117, 108, 108, 121]⟩,
   -- 2024-01-15 08:40:22 | WARNING | Disk space below 10%
   ⟨[50, 48, 50, 52, 45, 48, 49, 45, 49, 53, 32, 48, 56, 58, 52, 48, 58, 50, 50], [87, 65, 82, 78, 73, 78, 71],
      [68, 105, 115, 107, 32, 115, 112, 97, 99, 101, 32, 98, 101, 108, 111, 119, 32, 49, 48, 37]⟩,
   -- 2024-01-15 08:45:55 | ERROR | Failed to connect to database
   ⟨[50, 48, 50, 52, 45, 48, 49, 45, 49, 53, 32, 48, 56, 58, 52, 53, 58, 53, 53], [69, 82, 82, 79, 82],
      [70, 97, 105, 108, 101, 100, 32, 116, 111, 32, 99, 111, 110, 110, 101, 99, 116, 32, 116,
      111, 32, 100, 97, 116, 97, 98, 97, 115, 101]⟩,
   -- 2024-01-15 09:00:00 | INFO | Database connection restored
   ⟨[50, 48, 50, 52, 45, 48, 49, 45, 49, 53, 32, 48, 57, 58, 48, 48, 58, 48, 48], [73, 78, 70, 79],
      [68, 97, 116, 97, 98, 97, 115, 101, 32, 99, 111, 110, 110, 101, 99, 116, 105, 111, 110, 32,
      114, 101, 115, 116, 111, 114, 101, 100]⟩,
   -- 2024-01-15 09:05:12 | ERROR | File not found: config.xml
   ⟨[50, 48, 50, 52, 45, 48, 49, 45, 49, 53, 32, 48, 57, 58, 48, 53, 58, 49, 50], [69, 82, 82, 79, 82],
      [70, 105, 108, 101, 32, 110, 111, 116, 32, 102, 111, 117, 110, 100, 58, 32, 99, 111, 110,
      102, 105, 103, 46, 120, 109, 108]⟩,
   -- 2024-01-15 09:10:30 | INFO | User login successful
   ⟨[50, 48, 50, 52, 45, 48, 49, 45, 49, 53, 32, 48, 57, 58, 49, 48, 58, 51, 48], [73, 78, 70, 79],
      [85, 115, 101, 114, 32, 108, 111, 103, 105, 110, 32, 115, 117, 99, 99, 101, 115, 115, 102,
      117, 108]⟩,
   -- 2024-01-15 09:15:45 | WARNING | Slow query detected
   ⟨[50, 48, 50, 52, 45, 48, 49, 45, 49, 53, 32, 48, 57, 58, 49, 53, 58, 52, 53], [87, 65, 82, 78, 73, 78, 71],
      [83, 108, 111, 119, 32, 113, 117, 101, 114, 121, 32, 100, 101, 116, 101, 99, 116, 101, 100]⟩,
   -- 2024-01-15 09:20:00 | ERROR | Failed to connect to database
   ⟨[50, 48, 50, 52, 45, 48, 49, 45, 49, 53, 32, 48, 57, 58, 50, 48, 58, 48, 48], [69, 82, 82, 79, 82],
      [70, 97, 105, 108, 101, 100, 32, 116, 111, 32, 99, 111, 110, 110, 101, 99, 116, 32, 116,
      111, 32, 100, 97, 116, 97, 98, 97, 115, 101]⟩]

/-- `LogAnalyzer::loadSampleData()`, as far as the state goes: `clearAll()`, then
the fifteen `addLog` calls (the three lines it writes to the standard output
are left out). -/
def LogAnalyzer.loadSampleData (a : LogAnalyzer) : LogAnalyzer :=
  sampleCalls.foldl (fun a r => a.addLog r.timestamp r.log_level r.message) a.clearAll

/-! ## `log_analyzer.c`

The C implementation. Its structures `LogEntry`, `LogList`, `HashNode`,
`HashTable` and `LogAnalyzer` have the fields of the C++ classes of the same
names and are held in the same Lean structures; its functions are translated
one by one from the C source, under their C names. -/

/-- `LogList_addEntry(list, timestamp, log_level, message)`. -/
def LogList_addEntry (list : LogList) (timestamp log_level message : CStr) : LogList :=
  ⟨⟨timestamp, log_level, message⟩ :: list.head, list.size + 1⟩

/-- `LogList_clear(list)`. -/
def LogList_clear (_list : LogList) : LogList := ⟨[], 0⟩

/-- The loop of `HashTable_hashFunction` over the characters up to the
terminator, on an `unsigned long` of 64 bits. -/
def HashTable_hashLoop : Nat → CStr → Nat
  | hash, [] => hash
  | hash, c :: rest =>
    HashTable_hashLoop
      ((((hash * 2 ^ 5) % 2 ^ 64 + hash) % 2 ^ 64 + (c % 2 ^ 64).toNat) % 2 ^ 64) rest

/-- `HashTable_hashFunction(key)`. -/
def HashTable_hashFunction (key : CStr) : Nat := HashTable_hashLoop 5381 key % TABLE_SIZE

/-- The chain walk of `HashTable_insert`: the chain with the count of the first
node that holds `key` incremented, or `none` when the key is not found. -/
def HashTable_insertWalk (key : CStr) : List HashNode → Option (List HashNode)
  | [] => none
  | current :: next =>
    if strcmp current.key key = 0 then some (⟨current.key, current.count + 1⟩ :: next)
    else (HashTable_insertWalk key next).map (fun next' => current :: next')

/-- `HashTable_insert(table, key)`. -/
def HashTable_insert (table : HashTable) (key : CStr) : HashTable :=
  let index := HashTable_hashFunction key
  match HashTable_insertWalk key (table.buckets.getD index []) with
  | some chain =>
    ⟨table.buckets.set index chain, (List.length_set _ _ _).trans table.size_eq,
      table.totalEntries⟩
  | none =>
    ⟨table.buckets.set index (⟨key, 1⟩ :: table.buckets.getD index []),
      (List.length_set _ _ _).trans table.size_eq, table.totalEntries + 1⟩

/-- `HashTable_clear(table)`. -/
def HashTable_clear (_table : HashTable) : HashTable :=
  ⟨List.replicate TABLE_SIZE [], List.length_replicate _ _, 0⟩

/-- `HashTable_getTotalEntries(table)`. -/
def HashTable_getTotalEntries (table : HashTable) : Int := table.totalEntries

/-- The inner loop of the two passes of the C matcher,
`while (j > 0 && src[i] != pattern[j]) j = failure[j - 1];`. -/
def KMP_fallback (src : CStr) (i : Nat) (pattern : CStr) (failure : IntArray) :
    Nat → Nat → Option Nat
  | 0, _ => none
  | fuel + 1, j =>
    if j > 0 then do
      let a ← charAt src i
      let b ← charAt pattern j
      if a ≠ b then do
        let j' ← failure.read (j - 1)
        KMP_fallback src i pattern failure fuel j'
      else pure j
    else pure j

/-- The `for` loop of `KMP_buildFailureFunction`, with `n` iterations left to
run from index `i`. -/
def KMP_buildLoop (fuel : Nat) (pattern : CStr) :
    Nat → Nat → Nat → IntArray → Option IntArray
  | 0, _, _, failure => some failure
  | n + 1, i, j, failure => do
    let j ← KMP_fallback pattern i pattern failure fuel j
    let a ← charAt pattern i
    let b ← charAt pattern j
    let j := if a = b then j + 1 else j
    let failure ← failure.write i j
    KMP_buildLoop fuel pattern n (i + 1) j failure

/-- `KMP_buildFailureFunction(pattern, failure, patternLen)`. -/
def KMP_buildFailureFunction (fuel : Nat) (pattern : CStr) (failure : IntArray)
    (patternLen : Nat) : Option IntArray := do
  let failure ← failure.write 0 0
  KMP_buildLoop fuel pattern (patternLen - 1) 1 0 failure

/-- The `for` loop of `KMP_search`, with `n` iterations left to run from index
`i`. -/
def KMP_searchLoop (fuel : Nat) (text pattern : CStr) (failure : IntArray)
    (patternLen : Nat) : Nat → Nat → Nat → Int → Option Int
  | 0, _, _, count => some count
  | n + 1, i, j, count => do
    let j ← KMP_fallback text i pattern failure fuel j
    let a ← charAt text i
    let b ← charAt pattern j
    let j := if a = b then j + 1 else j
    if j = patternLen then do
      let j' ← failure.read (j - 1)
      KMP_searchLoop fuel text pattern failure patternLen n (i + 1) j' (count + 1)
    else
      KMP_searchLoop fuel text pattern failure patternLen n (i + 1) j count

/-- `KMP_search(text, pattern)`. -/
def KMP_search (fuel : Nat) (text pattern : CStr) : Option Int :=
  let textLen := strlen text
  let patternLen := strlen pattern
  if patternLen = 0 ∨ patternLen > textLen then some 0
  else do
    let failure ← KMP_buildFailureFunction fuel pattern (IntArray.alloc patternLen) patternLen
    KMP_searchLoop fuel text pattern failure patternLen textLen 0 0 0

/-- `KMP_searchCaseInsensitive(text, pattern)`. -/
def KMP_searchCaseInsensitive (fuel : Nat) (text pattern : CStr) : Option Int :=
  let textLen := strlen text
  let patternLen := strlen pattern
  if patternLen = 0 ∨ patternLen > textLen then some 0
  else
    let lowerText := text.map tolower
    let lowerPattern := pattern.map tolower
    KMP_search fuel lowerText lowerPattern

/-- `LogAnalyzer_create()`. -/
def LogAnalyzer_create : LogAnalyzer :=
  ⟨⟨[], 0⟩, ⟨List.replicate TABLE_SIZE [], List.length_replicate _ _, 0⟩⟩

/-- `LogAnalyzer_isErrorLevel(level)`: the `int` value of the disjunction. -/
def LogAnalyzer_isErrorLevel (level : CStr) : Int :=
  if strcmp level ERROR_UPPER = 0 ∨ strcmp level ERROR_LOWER = 0 then 1 else 0

/-- `LogAnalyzer_addLog(analyzer, timestamp, log_level, message)`. -/
def LogAnalyzer_addLog (analyzer : LogAnalyzer) (timestamp log_level message : CStr) :
    LogAnalyzer :=
  let logList := LogList_addEntry analyzer.logList timestamp log_level message
  if LogAnalyzer_isErrorLevel log_level ≠ 0 then
    ⟨logList, HashTable_insert analyzer.errorTable message⟩
  else ⟨logList, analyzer.errorTable⟩

/-- The `while (current != NULL)` loop of `LogAnalyzer_searchKeyword`. -/
def LogAnalyzer_searchKeywordLoop (fuel : Nat) (keyword : CStr) (caseSensitive : Int) :
    List LogEntry → Int → Option Int
  | [], matchCount => some matchCount
  | current :: next, matchCount => do
    let count ←
      if caseSensitive ≠ 0 then KMP_search fuel current.message keyword
      else KMP_searchCaseInsensitive fuel current.message keyword
    LogAnalyzer_searchKeywordLoop fuel keyword caseSensitive next (matchCount + count)

/-- `LogAnalyzer_searchKeyword(analyzer, keyword, caseSensitive)`; a null
`keyword` is `none`, the flag is the C `int`. -/
def LogAnalyzer_searchKeyword (fuel : Nat) (analyzer : LogAnalyzer) (keyword : Option CStr)
    (caseSensitive : Int) : Option Int :=
  match keyword with
  | none => some 0
  | some keyword =>
    if strlen keyword = 0 then some 0
    else LogAnalyzer_searchKeywordLoop fuel keyword caseSensitive analyzer.logList.head 0

/-- `LogAnalyzer_getTotalLogs(analyzer)`. -/
def LogAnalyzer_getTotalLogs (analyzer : LogAnalyzer) : Int := analyzer.logList.size

/-- `LogAnalyzer_getErrorCount(analyzer)`. -/
def LogAnalyzer_getErrorCount (analyzer : LogAnalyzer) : Int := analyzer.errorTable.totalEntries

/-- `LogAnalyzer_clearAll(analyzer)`. -/
def LogAnalyzer_clearAll (analyzer : LogAnalyzer) : LogAnalyzer :=
  ⟨LogList_clear analyzer.logList, HashTable_clear analyzer.errorTable⟩

/-- One call applied to an analyser of the C implementation. -/
def LogAnalyzer_apply (analyzer : LogAnalyzer) : AnalyzerOp → LogAnalyzer
  | .addLog ts level msg => LogAnalyzer_addLog analyzer ts level msg
  | .clearAll => LogAnalyzer_clearAll analyzer

/-- The analyser of the C implementation reached from `LogAnalyzer_create()` by
a sequence of calls. -/
def LogAnalyzer_run (ops : List AnalyzerOp) : LogAnalyzer :=
  ops.foldl LogAnalyzer_apply LogAnalyzer_create

/-- The arguments (timestamp, level, message) of the fifteen `LogAnalyzer_addLog`
calls of `LogAnalyzer_loadSampleData`, in the order of the calls. -/
def LogAnalyzer_sampleCalls : List LogEntry :=
   -- 2024-01-15 08:00:00 | INFO | Server started successfully
  [⟨[50, 48, 50, 52, 45, 48, 49, 45, 49, 53, 32, 48, 56, 58, 48, 48, 58, 48, 48], [73, 78, 70, 79],
      [83, 101, 114, 118, 101, 114, 32, 115, 116, 97, 114, 116, 101, 100, 32, 115, 117, 99, 99,
      101, 115, 115, 102, 117, 108, 108, 121]⟩,
   -- 2024-01-15 08:05:23 | WARNING | High memory usage detected
   ⟨[50, 48, 50, 52, 45, 48, 49, 45, 49, 53, 32, 48, 56, 58, 48, 53, 58, 50, 51], [87, 65, 82, 78, 73, 78, 71],
      [72, 105, 103, 104, 32, 109, 101, 109, 111, 114, 121, 32, 117, 115, 97, 103, 101, 32, 100,
      101, 116, 101, 99, 116, 101, 100]⟩,
   -- 2024-01-15 08:10:45 | ERROR | Failed to connect to database
   ⟨[50, 48, 50, 52, 45, 48, 49, 45, 49, 53, 32, 48, 56, 58, 49, 48, 58, 52, 53], [69, 82, 82, 79, 82],
      [70, 97, 105, 108, 101, 100, 32, 116, 111, 32, 99, 111, 110, 110, 101, 99, 116, 32, 116,
      111, 32, 100, 97, 116, 97, 98, 97, 115, 101]⟩,
   -- 2024-01-15 08:15:12 | INFO | User authentication successful
   ⟨[50, 48, 50, 52, 45, 48, 49, 45, 49, 53, 32, 48, 56, 58, 49, 53, 58, 49, 50], [73, 78, 70, 79],
      [85, 115, 101, 114, 32, 97, 117, 116, 104, 101, 110, 116, 105, 99, 97, 116, 105, 111, 110,
      32, 115, 117, 99, 99, 101, 115, 115, 102, 117, 108]⟩,
   -- 2024-01-15 08:20:30 | ERROR | Failed to connect to database
   ⟨[50, 48, 50, 52, 45, 48, 49, 45, 49, 53, 32, 48, 56, 58, 50, 48, 58, 51, 48], [69, 82, 82, 79, 82],
      [70, 97, 105, 108, 101, 100, 32, 116, 111, 32, 99, 111, 110, 110, 101, 99, 116, 32, 116,
      111, 32, 100, 97, 116, 97, 98, 97, 115, 101]⟩,
   -- 2024-01-15 08:25:00 | DEBUG | Processing request ID 12345
   ⟨[50, 48, 50, 52, 45, 48, 49, 45, 49, 53, 32, 48, 56, 58, 50, 53, 58, 48, 48], [68, 69, 66, 85, 71],
      [80, 114, 111, 99, 101, 115, 115, 105, 110, 103, 32, 114, 101, 113, 117, 101, 115, 116, 32,
      73, 68, 32, 49, 50, 51, 52, 53]⟩,
   -- 2024-01-15 08:30:15 | ERROR | File not found: config.xml
   ⟨[50, 48, 50, 52, 45, 48, 49, 45, 49, 53, 32, 48, 56, 58, 51, 48, 58, 49, 53], [69, 82, 82, 79, 82],
      [70, 105, 108, 101, 32, 110, 111, 116, 32, 102, 111, 117, 110, 100, 58, 32, 99, 111, 110,
      102, 105, 103, 46, 120, 109, 108]⟩,
   -- 2024-01-15 08:35:40 | INFO | Cache cleared successfully
   ⟨[50, 48, 50, 52, 45, 48, 49, 45, 49, 53, 32, 48, 56, 58, 51, 53, 58, 52, 48], [73, 78, 70, 79],
      [67, 97, 99, 104, 101, 32, 99, 108, 101, 97, 114, 101, 100, 32, 115, 117, 99, 99, 101, 115,
      115, 102, 117, 108, 108, 121]⟩,
   -- 2024-01-15 08:40:22 | WARNING | Disk space below 10%%
   ⟨[50, 48, 50, 52, 45, 48, 49, 45, 49, 53, 32, 48, 56, 58, 52, 48, 58, 50, 50], [87, 65, 82, 78, 73, 78, 71],
      [68, 105, 115, 107, 32, 115, 112, 97, 99, 101, 32, 98, 101, 108, 111, 119, 32, 49, 48, 37,
      37]⟩,
   -- 2024-01-15 08:45:55 | ERROR | Failed to connect to database
   ⟨[50, 48, 50, 52, 45, 48, 49, 45, 49, 53, 32, 48, 56, 58, 52, 53, 58, 53, 53], [69, 82, 82, 79, 82],
      [70, 97, 105, 108, 101, 100, 32, 116, 111, 32, 99, 111, 110, 110, 101, 99, 116, 32, 116,
      111, 32, 100, 97, 116, 97, 98, 97, 115, 101]⟩,
   -- 2024-01-15 09:00:00 | INFO | Database connection restored
   ⟨[50, 48, 50, 52, 45, 48, 49, 45, 49, 53, 32, 48, 57, 58, 48, 48, 58, 48, 48], [73, 78, 70, 79],
      [68, 97, 116, 97, 98, 97, 115, 101, 32, 99, 111, 110, 110, 101, 99, 116, 105, 111, 110, 32,
      114, 101, 115, 116, 111, 114, 101, 100]⟩,
   -- 2024-01-15 09:05:12 | ERROR | File not found: config.xml
   ⟨[50, 48, 50, 52, 45, 48, 49, 45, 49, 53, 32, 48, 57, 58, 48, 53, 58, 49, 50], [69, 82, 82, 79, 82],
      [70, 105, 108, 101, 32, 110, 111, 116, 32, 102, 111, 117, 110, 100, 58, 32, 99, 111, 110,
      102, 105, 103, 46, 120, 109, 108]⟩,
   -- 2024-01-15 09:10:30 | INFO | User login successful
   ⟨[50, 48, 50, 52, 45, 48, 49, 45, 49, 53, 32, 48, 57, 58, 49, 48, 58, 51, 48], [73, 78, 70, 79],
      [85, 115, 101, 114, 32, 108, 111, 103, 105, 110, 32, 115, 117, 99, 99, 101, 115, 115, 102,
      117, 108]⟩,
   -- 2024-01-15 09:15:45 | WARNING | Slow query detected
   ⟨[50, 48, 50, 52, 45, 48, 49, 45, 49, 53, 32, 48, 57, 58, 49, 53, 58, 52, 53], [87, 65, 82, 78, 73, 78, 71],
      [83, 108, 111, 119, 32, 113, 117, 101, 114, 121, 32, 100, 101, 116, 101, 99, 116, 101, 100]⟩,
   -- 2024-01-15 09:20:00 | ERROR | Failed to connect to database
   ⟨[50, 48, 50, 52, 45, 48, 49, 45, 49, 53, 32, 48, 57, 58, 50, 48, 58, 48, 48], [69, 82, 82, 79, 82],
      [70, 97, 105, 108, 101, 100, 32, 116, 111, 32, 99, 111, 110, 110, 101, 99, 116, 32, 116,
      111, 32, 100, 97, 116, 97, 98, 97, 115, 101]⟩]

/-- `LogAnalyzer_loadSampleData(analyzer)`, as far as the state goes:
`LogAnalyzer_clearAll`, then the fifteen `LogAnalyzer_addLog` calls (the three
lines it writes to the standard output are left out). -/
def LogAnalyzer_loadSampleData (analyzer : LogAnalyzer) : LogAnalyzer :=
  LogAnalyzer_sampleCalls.foldl
    (fun a r => LogAnalyzer_addLog a r.timestamp r.log_level r.message)
    (LogAnalyzer_clearAll analyzer)

/-! ## The matcher with its array accesses recorded

The same code as `fallback`, `buildLoop`, `buildFailureFunction`, `searchLoop`
and `search`, with a ghost list of the array accesses made, in order. -/

/-- One array access of the matcher: a read of `text[i]`, a read of
`pattern[j]`, a read of `failure[k]`, a write of `failure[k]`. -/
inductive Access where
  | text (i : Nat)
  | pattern (j : Nat)
  | failureRead (k : Nat)
  | failureWrite (k : Nat)
  deriving DecidableEq, Repr

/-- The access lies inside its array: below `textLen` for the text, below
`patternLen` for the pattern and for the `failure` buffer of `patternLen` cells. -/
def Access.inRange (textLen patternLen : Nat) : Access → Prop
  | .text i => i < textLen
  | .pattern j => j < patternLen
  | .failureRead k => k < patternLen
  | .failureWrite k => k < patternLen

/-- The loop `fallback` with its accesses; `srcAccess` names the read of
`src[i]` (a text read in the scan, a pattern read in the table construction). -/
def fallbackTrace (srcAccess : Access) (src : CStr) (i : Nat) (pattern : CStr)
    (failure : IntArray) : Nat → Nat → Option (Nat × List Access)
  | 0, _ => none
  | fuel + 1, j =>
    if j > 0 then do
      let a ← charAt src i
      let b ← charAt pattern j
      if a ≠ b then do
        let j' ← failure.read (j - 1)
        let rest ← fallbackTrace srcAccess src i pattern failure fuel j'
        pure (rest.1, [srcAccess, Access.pattern j, Access.failureRead (j - 1)] ++ rest.2)
      else pure (j, [srcAccess, Access.pattern j])
    else pure (j, [])

/-- The loop `buildLoop` with its accesses. -/
def buildLoopTrace (fuel : Nat) (pattern : CStr) :
    Nat → Nat → Nat → IntArray → Option (IntArray × List Access)
  | 0, _, _, failure => some (failure, [])
  | n + 1, i, j, failure => do
    let fb ← fallbackTrace (Access.pattern i) pattern i pattern failure fuel j
    let j := fb.1
    let a ← charAt pattern i
    let b ← charAt pattern j
    let j' := if a = b then j + 1 else j
    let failure ← failure.write i j'
    let rest ← buildLoopTrace fuel pattern n (i + 1) j' failure
    pure (rest.1, fb.2 ++ [Access.pattern i, Access.pattern j, Access.failureWrite i] ++ rest.2)

/-- The function `buildFailureFunction` with its accesses. -/
def buildFailureFunctionTrace (fuel : Nat) (pattern : CStr) (failure : IntArray)
    (patternLen : Nat) : Option (IntArray × List Access) := do
  let failure ← failure.write 0 0
  let rest ← buildLoopTrace fuel pattern (patternLen - 1) 1 0 failure
  pure (rest.1, Access.failureWrite 0 :: rest.2)

/-- The loop `searchLoop` with its accesses. -/
def searchLoopTrace (fuel : Nat) (text pattern : CStr) (failure : IntArray)
    (patternLen : Nat) : Nat → Nat → Nat → Int → Option (Int × List Access)
  | 0, _, _, count => some (count, [])
  | n + 1, i, j, count => do
    let fb ← fallbackTrace (Access.text i) text i pattern failure fuel j
    let j := fb.1
    let a ← charAt text i
    let b ← charAt pattern j
    let j' := if a = b then j + 1 else j
    if j' = patternLen then do
      let j'' ← failure.read (j' - 1)
      let rest ← searchLoopTrace fuel text pattern failure patternLen n (i + 1) j'' (count + 1)
      pure (rest.1,
        fb.2 ++ [Access.text i, Access.pattern j, Access.failureRead (j' - 1)] ++ rest.2)
    else do
      let rest ← searchLoopTrace fuel text pattern failure patternLen n (i + 1) j' count
      pure (rest.1, fb.2 ++ [Access.text i, Access.pattern j] ++ rest.2)

/-- The function `search` with its accesses. -/
def searchTrace (fuel : Nat) (text pattern : CStr) : Option (Int × List Access) :=
  let textLen := strlen text
  let patternLen := strlen pattern
  if patternLen = 0 then some (0, [])
  else if patternLen > textLen then some (0, [])
  else do
    let built ← buildFailureFunctionTrace fuel pattern (IntArray.alloc patternLen) patternLen
    let scan ← searchLoopTrace fuel text pattern built.1 patternLen textLen 0 0 0
    pure (scan.1, built.2 ++ scan.2)

/-! ## `KMP::searchAll` -/

/-- The caller's `int* positions` buffer: a cell holds what the caller left in
it, or `none` when it was never written. -/
abbrev PosArray := List (Option Int)

/-- The write `positions[i] = v`, the index being an `int`: it fails outside
the buffer. -/
def PosArray.write (a : PosArray) (i : Int) (v : Int) : Option PosArray :=
  if 0 ≤ i ∧ i.toNat < a.length then some (a.set i.toNat (some v)) else none

/-- `INT_MAX` of a 32-bit `int`. -/
def INT_MAX : Int := 2147483647

/-- The value an `int` holds when the mathematical result of a conversion or
of an arithmetic step is `x`: `x` reduced modulo `2^32` into the range from
`-2^31` to `2^31 - 1` (two's complement). -/
def wrapInt (x : Int) : Int := (x + 2147483648) % 4294967296 - 2147483648

/-- `KMP::search(text, pattern)` with `int textLen = strlen(text)` and
`int patternLen = strlen(pattern)`. A negative `patternLen` that passes both
early returns reaches `new int[patternLen]`, which throws: the result is
`none`. Past that point `0 < patternLen ≤ textLen`, the indices `i`, `j` and
the counter `count` stay at or below `textLen`, and the loops are `searchLoop`
and `buildFailureFunction` on the two `int` lengths. -/
def Int32.search (fuel : Nat) (text pattern : CStr) : Option Int :=
  let textLen : Int := wrapInt (strlen text)
  let patternLen : Int := wrapInt (strlen pattern)
  if patternLen = 0 then some 0
  else if patternLen > textLen then some 0
  else if patternLen < 0 then none
  else do
    let failure ←
      buildFailureFunction fuel pattern (IntArray.alloc patternLen.toNat) patternLen.toNat
    searchLoop fuel text pattern failure patternLen.toNat textLen.toNat 0 0 0

/-- `KMP::searchCaseInsensitive(text, pattern)` with the two `int` lengths.
`new char[textLen + 1]` and `new char[patternLen + 1]` throw on a negative
size, and with a length of `-1` the terminator is written before the start of
an empty buffer: these cases are `none`. Otherwise the lowercase copies hold the
first `textLen` and `patternLen` characters. -/
def Int32.searchCaseInsensitive (fuel : Nat) (text pattern : CStr) : Option Int :=
  let textLen : Int := wrapInt (strlen text)
  let patternLen : Int := wrapInt (strlen pattern)
  if patternLen = 0 then some 0
  else if patternLen > textLen then some 0
  else if wrapInt (textLen + 1) < 0 then none
  else if wrapInt (patternLen + 1) < 0 then none
  else if textLen < 0 then none
  else if patternLen < 0 then none
  else
    let lowerText := (text.take textLen.toNat).map tolower
    let lowerPattern := (pattern.take patternLen.toNat).map tolower
    Int32.search fuel lowerText lowerPattern

/-- The chain walk of `HashTable::insert` with the `int count` of the node:
`current->count++` wraps. -/
def Int32.bumpChain (key : CStr) : List HashNode → Option (List HashNode)
  | [] => none
  | current :: next =>
    if strcmp current.key key = 0 then
      some (⟨current.key, wrapInt (current.count + 1)⟩ :: next)
    else (Int32.bumpChain key next).map (fun next' => current :: next')

/-- `HashTable::insert(key)` with the `int` counters `count` and
`totalEntries`. -/
def Int32.HashTable.insert (t : HashTable) (key : CStr) : HashTable :=
  let index := hashFunction key
  match Int32.bumpChain key (t.buckets.getD index []) with
  | some chain =>
    ⟨t.buckets.set index chain, (List.length_set _ _ _).trans t.size_eq, t.totalEntries⟩
  | none =>
    ⟨t.buckets.set index (⟨key, 1⟩ :: t.buckets.getD index []),
      (List.length_set _ _ _).trans t.size_eq, wrapInt (t.totalEntries + 1)⟩

/-- One call applied to a table, with the `int` counters. -/
def Int32.HashTable.apply (t : HashTable) : TableOp → HashTable
  | .insert key => Int32.HashTable.insert t key
  | .clear => t.clear

/-- The table reached from construction by a sequence of calls, with the `int`
counters. -/
def Int32.HashTable.run (ops : List TableOp) : HashTable :=
  ops.foldl Int32.HashTable.apply HashTable.empty

/-- `LogList::addEntry(timestamp, log_level, message)` with the `int size`. -/
def Int32.LogList.addEntry (l : LogList) (timestamp log_level message : CStr) : LogList :=
  ⟨⟨timestamp, log_level, message⟩ :: l.head, wrapInt (l.size + 1)⟩

/-- `LogAnalyzer::addLog(timestamp, log_level, message)` with the `int`
counters of the list and of the table. -/
def Int32.LogAnalyzer.addLog (a : LogAnalyzer) (timestamp log_level message : CStr) :
    LogAnalyzer :=
  let logList := Int32.LogList.addEntry a.logList timestamp log_level message
  if isErrorLevel log_level then ⟨logList, Int32.HashTable.insert a.errorTable message⟩
  else ⟨logList, a.errorTable⟩

/-- One call applied to an analyser, with the `int` counters. -/
def Int32.LogAnalyzer.apply (a : LogAnalyzer) : AnalyzerOp → LogAnalyzer
  | .addLog ts level msg => Int32.LogAnalyzer.addLog a ts level msg
  | .clearAll => a.clearAll

/-- The analyser reached from construction by a sequence of calls, with the
`int` counters. -/
def Int32.LogAnalyzer.run (ops : List AnalyzerOp) : LogAnalyzer :=
  ops.foldl Int32.LogAnalyzer.apply LogAnalyzer.empty

/-- The matcher that `searchKeyword` applies to one message, with the `int`
lengths. -/
def Int32.matchCount (fuel : Nat) (caseSensitive : Bool) (message keyword : CStr) :
    Option Int :=
  if caseSensitive then Int32.search fuel message keyword
  else Int32.searchCaseInsensitive fuel message keyword

/-- The `while (current != nullptr)` loop of `LogAnalyzer::searchKeyword` with
the `int matchCount`: `matchCount += count` wraps. -/
def Int32.searchKeywordLoop (fuel : Nat) (keyword : CStr) (caseSensitive : Bool) :
    List LogEntry → Int → Option Int
  | [], matchCount => some matchCount
  | current :: next, matchCount => do
    let count ←
      if caseSensitive then Int32.search fuel current.message keyword
      else Int32.searchCaseInsensitive fuel current.message keyword
    Int32.searchKeywordLoop fuel keyword caseSensitive next (wrapInt (matchCount + count))

/-- `LogAnalyzer::searchKeyword(keyword, caseSensitive)` with the `int`
lengths and the `int matchCount`; a null `keyword` is `none`. The test
`strlen(keyword) == 0` compares the `size_t` itself. -/
def Int32.LogAnalyzer.searchKeyword (fuel : Nat) (a : LogAnalyzer) (keyword : Option CStr)
    (caseSensitive : Bool) : Option Int :=
  match keyword with
  | none => some 0
  | some keyword =>
    if strlen keyword = 0 then some 0
    else Int32.searchKeywordLoop fuel keyword caseSensitive a.logList.getHead 0

/-- A node with its count reduced into the range of `int`. -/
def wrapNode (n : HashNode) : HashNode := ⟨n.key, wrapInt n.count⟩

/-- A table with every count and `totalEntries` reduced into the range of
`int`. -/
def wrapTable (t : HashTable) : HashTable :=
  ⟨t.buckets.map (fun chain => chain.map wrapNode),
    (List.length_map _ _).trans t.size_eq, wrapInt t.totalEntries⟩

/-- An analyser with every counter reduced into the range of `int`. -/
def wrapAnalyzer (a : LogAnalyzer) : LogAnalyzer :=
  ⟨⟨a.logList.head, wrapInt a.logList.size⟩, wrapTable a.errorTable⟩

/-! ## The matcher: proofs -/

theorem charAt_lt {s : CStr} {i : Nat} (h : i < s.length) : charAt s i = some s[i] := by
  simp [charAt, List.get?_eq_getElem?, List.getElem?_eq_getElem h]

theorem bord_zero (p s : CStr) : Bord p s 0 := by
  simp [Bord]

theorem bord_snoc {p s : CStr} {c : Int} {k : Nat} (hk : k < p.length) :
    Bord p (s ++ [c]) (k + 1) ↔ Bord p s k ∧ p[k] = c := by
  have ht : p.take (k + 1) = p.take k ++ [p[k]] := by
    rw [← List.take_concat_get p k hk, List.concat_eq_append]
  unfold Bord
  rw [ht, List.suffix_concat_iff]
  constructor
  · rintro ⟨_, h⟩
    rcases h with h | ⟨t, h1, h2⟩
    · exact absurd (List.append_eq_nil.1 h).2 (List.cons_ne_nil _ _)
    · have := List.append_inj' h1 rfl
      obtain ⟨e1, e2⟩ := this
      simp at e2
      exact ⟨⟨by omega, e1 ▸ h2⟩, e2⟩
  · rintro ⟨⟨_, h⟩, e⟩
    exact ⟨by omega, Or.inr ⟨p.take k, by rw [e], h⟩⟩

theorem bord_chain {p s : CStr} {j k : Nat} (hj : Bord p s j) (hkj : k ≤ j) :
    Bord p s k ↔ Bord p (p.take j) k := by
  obtain ⟨hjl, hjs⟩ := hj
  constructor
  · rintro ⟨hkl, hks⟩
    refine ⟨hkl, List.suffix_of_suffix_length_le hks hjs ?_⟩
    simp [List.length_take]
    omega
  · rintro ⟨hkl, hks⟩
    exact ⟨hkl, hks.trans hjs⟩

theorem bord_le_length {p s : CStr} {k : Nat} (h : Bord p s k) : k ≤ s.length := by
  have := h.2.length_le
  simp [List.length_take] at this
  have := h.1
  omega

theorem FailOK.mono {p : CStr} {f : IntArray} {n n' : Nat} (h : FailOK p f n) (hn : n' ≤ n) :
    FailOK p f n' := fun t ht => h t (by omega)

theorem fallback_spec (p s src : CStr) (i : Nat) (c : Int) (f : IntArray)
    (hc : charAt src i = some c) :
    ∀ fuel j, j < fuel → j < p.length → FailOK p f j → Bord p s j →
      (∀ k, j < k → ∀ hk : k < p.length, Bord p s k → p[k] ≠ c) →
      ∃ r, fallback src i p f fuel j = some r ∧ r ≤ j ∧ Bord p s r ∧
        (∀ k, r < k → ∀ hk : k < p.length, Bord p s k → p[k] ≠ c) ∧
        (r = 0 ∨ ∃ hr : r < p.length, p[r] = c) := by
  intro fuel
  induction fuel with
  | zero => intro j h; omega
  | succ fuel ih =>
    intro j hfuel hj hf hb hbig
    by_cases hj0 : j = 0
    · subst hj0
      exact ⟨0, by simp [fallback], le_refl _, hb, hbig, Or.inl rfl⟩
    · have hpos : j > 0 := Nat.pos_of_ne_zero hj0
      by_cases hcj : p[j] = c
      · refine ⟨j, ?_, le_refl _, hb, hbig, Or.inr ⟨hj, hcj⟩⟩
        simp [fallback, hpos, hc, charAt_lt hj, hcj]
      · obtain ⟨v, hv, ⟨hvle, hvb⟩, hvmax⟩ := hf (j - 1) (by omega)
        have hj1 : j - 1 + 1 = j := by omega
        rw [hj1] at hvb
        have hvs : Bord p s v := (bord_chain hb (by omega)).2 hvb
        obtain ⟨r, hr, hrv, hrb, hrbig, hr0⟩ :=
          ih v (by omega) (by omega) (hf.mono (by omega)) hvs (by
            intro k hvk hk hbk
            rcases Nat.lt_trichotomy k j with hlt | heq | hgt
            · exfalso
              have hpk : properBorder p (j - 1) k := by
                refine ⟨by omega, ?_⟩
                rw [hj1]
                exact (bord_chain hb (by omega)).1 hbk
              have := hvmax k hpk
              omega
            · subst heq
              exact hcj
            · exact hbig k hgt hk hbk)
        refine ⟨r, ?_, by omega, hrb, hrbig, hr0⟩
        have hne : ¬ c = p[j] := fun h => hcj h.symm
        simp [fallback, hpos, hc, charAt_lt hj, hne, hv, hr]

theorem step_spec (p s src : CStr) (i : Nat) (c : Int) (f : IntArray) (fuel j : Nat)
    (hc : charAt src i = some c) (hfuel : p.length ≤ fuel)
    (hj : Longest (fun k => k < p.length ∧ Bord p s k) j) (hf : FailOK p f j) :
    ∃ r b, fallback src i p f fuel j = some r ∧ charAt p r = some b ∧
      Longest (Bord p (s ++ [c])) (if c = b then r + 1 else r) := by
  obtain ⟨⟨hjm, hjb⟩, hjmax⟩ := hj
  obtain ⟨r, hr, hrj, hrb, hrbig, hr0⟩ :=
    fallback_spec p s src i c f hc fuel j (by omega) hjm hf hjb (by
      intro k hjk hk hbk
      have := hjmax k ⟨hk, hbk⟩
      omega)
  have hrm : r < p.length := by omega
  refine ⟨r, p[r], hr, charAt_lt hrm, ?_⟩
  by_cases hcr : c = p[r]
  · rw [if_pos hcr]
    refine ⟨(bord_snoc hrm).2 ⟨hrb, hcr.symm⟩, ?_⟩
    intro k' hk'
    cases k' with
    | zero => omega
    | succ k =>
      have hk : k < p.length := by have := hk'.1; omega
      obtain ⟨hbk, hck⟩ := (bord_snoc hk).1 hk'
      by_contra hlt
      exact hrbig k (by omega) hk hbk hck
  · rw [if_neg hcr]
    have hr00 : r = 0 := by
      rcases hr0 with h | ⟨_, h⟩
      · exact h
      · exact absurd h.symm hcr
    subst hr00
    refine ⟨bord_zero _ _, ?_⟩
    intro k' hk'
    cases k' with
    | zero => omega
    | succ k =>
      have hk : k < p.length := by have := hk'.1; omega
      obtain ⟨hbk, hck⟩ := (bord_snoc hk).1 hk'
      exfalso
      cases k with
      | zero => exact hcr hck.symm
      | succ k => exact hrbig (k + 1) (by omega) hk hbk hck

/-! ### The heap array -/

theorem IntArray.write_spec {a a' : IntArray} {i v : Nat} (h : a.write i v = some a') :
    a'.length = a.length ∧ a'.read i = some v ∧ ∀ t, t ≠ i → a'.read t = a.read t := by
  unfold IntArray.write at h
  split at h
  · rename_i hi
    cases h
    refine ⟨by simp, ?_, ?_⟩
    · simp [IntArray.read, List.get?_eq_getElem?, List.getElem?_set, hi]
    · intro t ht
      have : ¬ i = t := fun e => ht e.symm
      simp [IntArray.read, List.get?_eq_getElem?, List.getElem?_set, this]
  · cases h

theorem IntArray.write_lt {a : IntArray} {i : Nat} (v : Nat) (h : i < a.length) :
    ∃ a', a.write i v = some a' := by
  simp [IntArray.write, h]

/-! ### The failure table -/

theorem suffix_drop_one {X Y : CStr} (hX : X ≠ []) :
    (Y <:+ X ∧ Y.length < X.length) ↔ Y <:+ X.drop 1 := by
  have hlen : (X.drop 1).length = X.length - 1 := by simp
  have hpos : 0 < X.length := List.length_pos.2 hX
  constructor
  · rintro ⟨h1, h2⟩
    exact List.suffix_of_suffix_length_le h1 (List.drop_suffix 1 X) (by omega)
  · intro h
    refine ⟨h.trans (List.drop_suffix 1 X), ?_⟩
    have := h.length_le
    omega

theorem properBorder_iff {p : CStr} {t k : Nat} (ht : t < p.length) :
    properBorder p t k ↔ Bord p ((p.take (t + 1)).drop 1) k := by
  have hX : p.take (t + 1) ≠ [] := by
    intro h
    have := congrArg List.length h
    rw [List.length_take, List.length_nil] at this
    omega
  have hXl : (p.take (t + 1)).length = t + 1 := by rw [List.length_take]; omega
  unfold properBorder Bord
  rw [← suffix_drop_one hX, hXl]
  constructor
  · rintro ⟨h1, h2, h3⟩
    refine ⟨h2, h3, ?_⟩
    simp [List.length_take]
    omega
  · rintro ⟨h1, h2, h3⟩
    refine ⟨?_, h1, h2⟩
    rw [List.length_take] at h3
    omega

theorem take_drop_one_snoc {p : CStr} {i : Nat} (hi : i < p.length) (h1 : 1 ≤ i) :
    (p.take (i + 1)).drop 1 = (p.take i).drop 1 ++ [p[i]] := by
  rw [← List.take_concat_get p i hi, List.concat_eq_append, List.drop_append_of_le_length]
  simp [List.length_take]
  omega

theorem Longest.congr {P Q : Nat → Prop} {k : Nat} (h : ∀ k, P k ↔ Q k) (hP : Longest P k) :
    Longest Q k :=
  ⟨(h k).1 hP.1, fun k' hk' => hP.2 k' ((h k').2 hk')⟩

theorem length_take_drop_one {p : CStr} {i : Nat} (hi : i ≤ p.length) :
    ((p.take i).drop 1).length = i - 1 := by
  rw [List.length_drop, List.length_take]
  omega

theorem buildLoop_spec (p : CStr) (fuel : Nat) (hfuel : p.length ≤ fuel) :
    ∀ n i j f, 1 ≤ i → i + n = p.length → List.length f = p.length → FailOK p f i →
      Longest (fun k => k < p.length ∧ Bord p ((p.take i).drop 1) k) j →
      ∃ f', buildLoop fuel p n i j f = some f' ∧ List.length f' = p.length ∧
        FailOK p f' p.length := by
  intro n
  induction n with
  | zero =>
    intro i j f _ hin hlen hf _
    have : i = p.length := by omega
    subst this
    exact ⟨f, rfl, hlen, hf⟩
  | succ n ih =>
    intro i j f h1 hin hlen hf hj
    have hi : i < p.length := by omega
    have hjle : j ≤ i - 1 := by
      have := bord_le_length hj.1.2
      rw [length_take_drop_one (by omega)] at this
      exact this
    obtain ⟨r, b, hr, hb, hL⟩ :=
      step_spec p ((p.take i).drop 1) p i p[i] f fuel j (charAt_lt hi) hfuel hj
        (hf.mono (by omega))
    obtain ⟨f', hw⟩ := IntArray.write_lt (if p[i] = b then r + 1 else r) (hlen ▸ hi : i < List.length f)
    obtain ⟨hlen', hri, hrest⟩ := IntArray.write_spec hw
    rw [← take_drop_one_snoc hi h1] at hL
    have hjle' : (if p[i] = b then r + 1 else r) ≤ i := by
      have := bord_le_length hL.1
      rw [length_take_drop_one (by omega)] at this
      omega
    have hf' : FailOK p f' (i + 1) := by
      intro t ht
      by_cases hti : t = i
      · subst hti
        exact ⟨_, hri, hL.congr (fun k => (properBorder_iff hi).symm)⟩
      · rw [hrest t hti]
        exact hf t (by omega)
    have hj' : Longest (fun k => k < p.length ∧ Bord p ((p.take (i + 1)).drop 1) k)
        (if p[i] = b then r + 1 else r) := by
      refine ⟨⟨by omega, hL.1⟩, fun k' hk' => hL.2 k' hk'.2⟩
    obtain ⟨g, hg, hgl, hgf⟩ := ih (i + 1) _ f' (by omega) (by omega) (hlen'.trans hlen) hf' hj'
    refine ⟨g, ?_, hgl, hgf⟩
    simp only [buildLoop, hr, charAt_lt hi, hb, Option.bind_eq_bind, Option.some_bind, hw]
    exact hg

theorem buildFailureFunction_spec (p : CStr) (fuel : Nat) (hp : p ≠ []) (hfuel : p.length ≤ fuel) :
    ∃ f, buildFailureFunction fuel p (IntArray.alloc p.length) p.length = some f ∧
      List.length f = p.length ∧ FailOK p f p.length := by
  have hpos : 0 < p.length := List.length_pos.2 hp
  have hal : List.length (IntArray.alloc p.length) = p.length := by simp [IntArray.alloc]
  obtain ⟨f0, hw⟩ := IntArray.write_lt (a := IntArray.alloc p.length) (i := 0) 0 (by omega)
  obtain ⟨hlen0, hr0, _⟩ := IntArray.write_spec hw
  have hf0 : FailOK p f0 1 := by
    intro t ht
    have : t = 0 := by omega
    subst this
    refine ⟨0, hr0, ⟨Nat.le_refl _, bord_zero _ _⟩, fun k' hk' => hk'.1⟩
  have hj0 : Longest (fun k => k < p.length ∧ Bord p ((p.take 1).drop 1) k) 0 := by
    refine ⟨⟨hpos, bord_zero _ _⟩, fun k' hk' => ?_⟩
    have := bord_le_length hk'.2
    rw [length_take_drop_one (by omega)] at this
    omega
  obtain ⟨g, hg, hgl, hgf⟩ :=
    buildLoop_spec p fuel hfuel (p.length - 1) 1 0 f0 (le_refl _) (by omega) (hlen0.trans hal) hf0 hj0
  refine ⟨g, ?_, hgl, hgf⟩
  simp only [buildFailureFunction, hw, Option.bind_eq_bind, Option.some_bind]
  exact hg

/-! ### Counting occurrences -/

theorem occursAt_iff_isPrefix {text p : CStr} {i : Nat} (hp : p ≠ []) :
    occursAt text p i ↔ p <+: text.drop i := by
  have hpos : 0 < p.length := List.length_pos.2 hp
  unfold occursAt
  constructor
  · rintro ⟨_, h⟩
    exact List.prefix_iff_eq_take.2 h.symm
  · intro h
    have hl := h.length_le
    rw [List.length_drop] at hl
    exact ⟨by omega, (List.prefix_iff_eq_take.1 h).symm⟩

theorem occursAt_cons_succ (a : Int) (t p : CStr) (i : Nat) :
    occursAt (a :: t) p (i + 1) ↔ occursAt t p i := by
  simp [occursAt]
  intro _
  omega

theorem occurrences_cons (a : Int) (t p : CStr) (hp : p ≠ []) :
    occurrences (a :: t) p = (if p <+: a :: t then 1 else 0) + occurrences t p := by
  unfold occurrences
  rw [List.length_cons, List.range_succ_eq_map, List.filter_cons, List.filter_map]
  have h0 : decide (occursAt (a :: t) p 0) = decide (p <+: a :: t) :=
    decide_eq_decide.2 (occursAt_iff_isPrefix hp)
  have hs : ((fun i => decide (occursAt (a :: t) p i)) ∘ Nat.succ) =
      (fun i => decide (occursAt t p i)) := by
    funext i
    simp only [Function.comp, Nat.succ_eq_add_one, occursAt_cons_succ]
  rw [h0, hs]
  by_cases h : p <+: a :: t
  · simp [h]
    omega
  · simp [h]

theorem occurrences_nil (p : CStr) (hp : p ≠ []) : occurrences [] p = 0 := by
  have : ¬ occursAt [] p 0 := by
    rw [occursAt_iff_isPrefix hp]
    simpa using hp
  simp [occurrences, List.range_succ, this]

theorem prefix_iff_suffix_of_length_le {p X : CStr} (h : X.length ≤ p.length) :
    p <+: X ↔ p <:+ X := by
  constructor
  · intro hp
    have := hp.eq_of_length (Nat.le_antisymm hp.length_le h)
    rw [this]
  · intro hp
    have := hp.eq_of_length (Nat.le_antisymm hp.length_le h)
    rw [this]

theorem occurrences_snoc (s p : CStr) (c : Int) (hp : p ≠ []) :
    occurrences (s ++ [c]) p = occurrences s p + (if p <:+ s ++ [c] then 1 else 0) := by
  have hpos : 0 < p.length := List.length_pos.2 hp
  induction s with
  | nil =>
    rw [List.nil_append, occurrences_cons _ _ _ hp, occurrences_nil _ hp]
    have := prefix_iff_suffix_of_length_le (p := p) (X := [c]) (by simpa using hpos)
    simp only [this]
    omega
  | cons a t ih =>
    rw [List.cons_append, occurrences_cons _ _ _ hp, occurrences_cons _ _ _ hp, ih]
    by_cases hl : p.length ≤ t.length + 1
    · have hA : p <+: a :: (t ++ [c]) ↔ p <+: a :: t := by
        constructor
        · intro h
          exact List.prefix_of_prefix_length_le h
            (by rw [← List.cons_append]; exact List.prefix_append _ _) (by simpa using hl)
        · intro h
          exact h.trans (by rw [← List.cons_append]; exact List.prefix_append _ _)
      have hD : p <:+ a :: (t ++ [c]) ↔ p <:+ t ++ [c] := by
        rw [List.suffix_cons_iff]
        constructor
        · rintro (h | h)
          · have := congrArg List.length h
            simp at this
            omega
          · exact h
        · exact Or.inr
      simp only [hA, hD]
      omega
    · have hC : ¬ p <+: a :: t := by
        intro h
        have := h.length_le
        simp at this
        omega
      have hB : ¬ p <:+ t ++ [c] := by
        intro h
        have := h.length_le
        simp at this
        omega
      have hAD := prefix_iff_suffix_of_length_le (p := p) (X := a :: (t ++ [c]))
        (by simp; omega)
      simp only [hAD, hC, hB, if_false]
      omega

theorem occurrences_of_length_lt (text p : CStr) (h : text.length < p.length) :
    occurrences text p = 0 := by
  unfold occurrences
  rw [List.length_eq_zero, List.filter_eq_nil_iff]
  intro i _
  simp only [decide_eq_true_eq, occursAt]
  omega

theorem bord_length_iff (p s : CStr) : Bord p s p.length ↔ p <:+ s := by
  simp [Bord]

/-! ### The scan of the text -/

theorem searchLoop_spec (text p : CStr) (f : IntArray) (fuel : Nat) (hp : p ≠ [])
    (hfuel : p.length ≤ fuel) (hf : FailOK p f p.length) :
    ∀ n i j, i + n = text.length →
      Longest (fun k => k < p.length ∧ Bord p (text.take i) k) j →
      searchLoop fuel text p f p.length n i j ((occurrences (text.take i) p : Nat) : Int) =
        some ((occurrences text p : Nat) : Int) := by
  have hpos : 0 < p.length := List.length_pos.2 hp
  intro n
  induction n with
  | zero =>
    intro i j hin _
    have : i = text.length := by omega
    subst this
    simp [searchLoop]
  | succ n ih =>
    intro i j hin hj
    have hi : i < text.length := by omega
    obtain ⟨r, b, hr, hb, hL⟩ :=
      step_spec p (text.take i) text i text[i] f fuel j (charAt_lt hi) hfuel hj
        (hf.mono (by have := hj.1.1; omega))
    have htake : text.take (i + 1) = text.take i ++ [text[i]] := by
      rw [← List.take_concat_get text i hi, List.concat_eq_append]
    rw [← htake] at hL
    have hocc := occurrences_snoc (text.take i) p text[i] hp
    rw [← htake] at hocc
    simp only [searchLoop, hr, charAt_lt hi, hb, Option.bind_eq_bind, Option.some_bind]
    by_cases hm : (if text[i] = b then r + 1 else r) = p.length
    · rw [if_pos hm, hm]
      rw [hm] at hL
      obtain ⟨v, hv, ⟨hvle, hvb⟩, hvmax⟩ := hf (p.length - 1) (by omega)
      have hm1 : p.length - 1 + 1 = p.length := by omega
      rw [hm1] at hvb
      have hsuf : p <:+ text.take (i + 1) := (bord_length_iff _ _).1 hL.1
      have hnew : Longest (fun k => k < p.length ∧ Bord p (text.take (i + 1)) k) v := by
        refine ⟨⟨by omega, (bord_chain hL.1 (by omega)).2 hvb⟩, ?_⟩
        rintro k' ⟨hk', hbk'⟩
        apply hvmax
        refine ⟨by omega, ?_⟩
        rw [hm1]
        exact (bord_chain hL.1 (by omega)).1 hbk'
      have hcount : ((occurrences (text.take i) p : Nat) : Int) + 1 =
          ((occurrences (text.take (i + 1)) p : Nat) : Int) := by
        rw [hocc, if_pos hsuf]
        push_cast
        rfl
      simp only [hv, Option.some_bind, hcount]
      exact ih (i + 1) v (by omega) hnew
    · rw [if_neg hm]
      have hle : (if text[i] = b then r + 1 else r) ≤ p.length := hL.1.1
      have hnsuf : ¬ p <:+ text.take (i + 1) := by
        intro h
        have := hL.2 p.length ((bord_length_iff _ _).2 h)
        omega
      have hnew : Longest (fun k => k < p.length ∧ Bord p (text.take (i + 1)) k)
          (if text[i] = b then r + 1 else r) :=
        ⟨⟨by omega, hL.1⟩, fun k' hk' => hL.2 k' hk'.2⟩
      have hcount : ((occurrences (text.take i) p : Nat) : Int) =
          ((occurrences (text.take (i + 1)) p : Nat) : Int) := by
        rw [hocc, if_neg hnsuf]
        rfl
      rw [hcount]
      exact ih (i + 1) _ (by omega) hnew

theorem search_spec (fuel : Nat) (text p : CStr) (hp : p ≠ []) (hfuel : p.length ≤ fuel) :
    search fuel text p = some ((occurrences text p : Nat) : Int) := by
  have hpos : 0 < p.length := List.length_pos.2 hp
  unfold search
  simp only [strlen]
  rw [if_neg (by omega)]
  by_cases hlt : p.length > text.length
  · rw [if_pos hlt, occurrences_of_length_lt text p hlt]
    rfl
  · rw [if_neg hlt]
    obtain ⟨f, hf, _, hfok⟩ := buildFailureFunction_spec p fuel hp hfuel
    simp only [hf, Option.bind_eq_bind, Option.some_bind]
    have hj0 : Longest (fun k => k < p.length ∧ Bord p (text.take 0) k) 0 := by
      refine ⟨⟨hpos, bord_zero _ _⟩, fun k' hk' => ?_⟩
      have := bord_le_length hk'.2
      simpa using this
    have := searchLoop_spec text p f fuel hp hfuel hfok text.length 0 0 (by omega) hj0
    rw [List.take_zero, occurrences_nil p hp] at this
    exact this

/-! ## The hash table: proofs -/

theorem strcmp_eq_zero_iff (a b : CStr) : strcmp a b = 0 ↔ a = b := by
  induction a generalizing b with
  | nil => cases b <;> simp [strcmp]
  | cons x xs ih =>
    cases b with
    | nil => simp [strcmp]
    | cons y ys =>
      by_cases hxy : x = y
      · simp [strcmp, hxy, ih]
      · by_cases hlt : toUChar x < toUChar y <;> simp [strcmp, hxy, hlt]

theorem hashFunction_lt (key : CStr) : hashFunction key < TABLE_SIZE :=
  Nat.mod_lt _ (by decide)

theorem bumpChain_eq_none_iff (key : CStr) (c : List HashNode) :
    bumpChain key c = none ↔ key ∉ c.map HashNode.key := by
  induction c with
  | nil => simp [bumpChain]
  | cons n rest ih =>
    by_cases h : n.key = key
    · simp [bumpChain, strcmp_eq_zero_iff, h]
    · have h' : ¬ key = n.key := fun e => h e.symm
      simp [bumpChain, strcmp_eq_zero_iff, h, h', ih]

theorem chainCount_of_not_mem (key : CStr) (c : List HashNode)
    (h : key ∉ c.map HashNode.key) : chainCount key c = 0 := by
  induction c with
  | nil => rfl
  | cons n rest ih =>
    simp only [List.map_cons, List.mem_cons, not_or] at h
    have h1 : ¬ n.key = key := fun e => h.1 e.symm
    simp [chainCount, strcmp_eq_zero_iff, h1, ih h.2]

theorem chainCount_bump_self (key : CStr) (c c' : List HashNode)
    (h : bumpChain key c = some c') : chainCount key c' = chainCount key c + 1 := by
  induction c generalizing c' with
  | nil => simp [bumpChain] at h
  | cons n rest ih =>
    by_cases hk : n.key = key
    · simp [bumpChain, strcmp_eq_zero_iff, hk] at h
      subst h
      simp [chainCount, strcmp_eq_zero_iff, hk]
    · simp [bumpChain, strcmp_eq_zero_iff, hk] at h
      obtain ⟨r, hr, rfl⟩ := h
      simp [chainCount, strcmp_eq_zero_iff, hk, ih r hr]

theorem chainCount_bump_other (key other : CStr) (c c' : List HashNode) (hne : other ≠ key)
    (h : bumpChain key c = some c') : chainCount other c' = chainCount other c := by
  induction c generalizing c' with
  | nil => simp [bumpChain] at h
  | cons n rest ih =>
    by_cases hk : n.key = key
    · simp [bumpChain, strcmp_eq_zero_iff, hk] at h
      subst h
      have : ¬ key = other := fun e => hne e.symm
      simp [chainCount, strcmp_eq_zero_iff, hk, this]
    · simp [bumpChain, strcmp_eq_zero_iff, hk] at h
      obtain ⟨r, hr, rfl⟩ := h
      simp [chainCount, ih r hr]

theorem getD_set_chain (l : List (List HashNode)) (i j : Nat) (v : List HashNode)
    (hi : i < l.length) :
    (l.set i v).getD j [] = if i = j then v else l.getD j [] := by
  simp only [List.getD_eq_getElem?_getD, List.getElem?_set, hi, if_true]
  by_cases h : i = j <;> simp [h]

theorem getD_replicate_nil (n i : Nat) :
    (List.replicate n ([] : List HashNode)).getD i [] = [] := by
  simp only [List.getD_eq_getElem?_getD, List.getElem?_replicate]
  by_cases h : i < n <;> simp [h]

theorem insert_of_none (t : HashTable) (key : CStr)
    (h : bumpChain key (t.buckets.getD (hashFunction key) []) = none) :
    (t.insert key).buckets =
        t.buckets.set (hashFunction key) (⟨key, 1⟩ :: t.buckets.getD (hashFunction key) []) ∧
      (t.insert key).totalEntries = t.totalEntries + 1 := by
  simp only [HashTable.insert, h, and_self]

theorem insert_of_some (t : HashTable) (key : CStr) (c : List HashNode)
    (h : bumpChain key (t.buckets.getD (hashFunction key) []) = some c) :
    (t.insert key).buckets = t.buckets.set (hashFunction key) c ∧
      (t.insert key).totalEntries = t.totalEntries := by
  simp only [HashTable.insert, h, and_self]

theorem getCount_insert (t : HashTable) (key other : CStr) :
    (t.insert key).getCount other = t.getCount other + (if other = key then 1 else 0) := by
  have hidx : hashFunction key < t.buckets.length := t.size_eq ▸ hashFunction_lt key
  unfold HashTable.getCount
  cases hb : bumpChain key (t.buckets.getD (hashFunction key) []) with
  | none =>
    rw [(insert_of_none t key hb).1, getD_set_chain _ _ _ _ hidx]
    by_cases hk : other = key
    · subst hk
      have := (bumpChain_eq_none_iff _ _).1 hb
      rw [if_pos rfl, if_pos rfl, chainCount_of_not_mem _ _ this]
      simp [chainCount, strcmp_eq_zero_iff]
    · have hk' : ¬ key = other := fun e => hk e.symm
      rw [if_neg hk, add_zero]
      by_cases hh : hashFunction key = hashFunction other
      · rw [if_pos hh, ← hh]
        simp [chainCount, strcmp_eq_zero_iff, hk']
      · rw [if_neg hh]
  | some c' =>
    rw [(insert_of_some t key c' hb).1, getD_set_chain _ _ _ _ hidx]
    by_cases hk : other = key
    · subst hk
      rw [if_pos rfl, if_pos rfl]
      exact chainCount_bump_self _ _ _ hb
    · rw [if_neg hk, add_zero]
      by_cases hh : hashFunction key = hashFunction other
      · rw [if_pos hh, ← hh]
        exact chainCount_bump_other _ _ _ _ hk hb
      · rw [if_neg hh]

theorem getCount_clear (t : HashTable) (key : CStr) : t.clear.getCount key = 0 := by
  simp [HashTable.clear, HashTable.getCount, getD_replicate_nil, chainCount]

theorem getCount_empty (key : CStr) : HashTable.empty.getCount key = 0 := by
  simp [HashTable.empty, HashTable.getCount, getD_replicate_nil, chainCount]

theorem run_snoc (ops : List TableOp) (op : TableOp) :
    HashTable.run (ops ++ [op]) = (HashTable.run ops).apply op := by
  simp [HashTable.run, List.foldl_append]

theorem keysSinceClear_snoc_insert (ops : List TableOp) (key : CStr) :
    keysSinceClear (ops ++ [.insert key]) = keysSinceClear ops ++ [key] := by
  simp [keysSinceClear, List.foldl_append]

theorem keysSinceClear_snoc_clear (ops : List TableOp) :
    keysSinceClear (ops ++ [.clear]) = [] := by
  simp [keysSinceClear, List.foldl_append]

theorem getCount_run (ops : List TableOp) (key : CStr) :
    (HashTable.run ops).getCount key = ((keysSinceClear ops).count key : Nat) := by
  induction ops using List.reverseRecOn with
  | nil => simp [HashTable.run, keysSinceClear, getCount_empty]
  | append_singleton ops op ih =>
    rw [run_snoc]
    cases op with
    | insert k =>
      rw [keysSinceClear_snoc_insert, HashTable.apply, getCount_insert, ih, List.count_append]
      by_cases h : key = k
      · subst h
        simp
      · have h' : ¬ k = key := fun e => h e.symm
        simp [h, List.count_cons, h']
    | clear =>
      rw [keysSinceClear_snoc_clear, HashTable.apply, getCount_clear]
      simp

/-! ### The chains as one list -/

theorem buckets_split (l : List (List HashNode)) (i : Nat) (h : i < l.length) :
    l = l.take i ++ l.getD i [] :: l.drop (i + 1) := by
  have hg : l.getD i [] = l[i] := by
    simp [List.getD_eq_getElem?_getD, List.getElem?_eq_getElem h]
  rw [hg, List.getElem_cons_drop l i h, List.take_append_drop]

theorem flatten_split (l : List (List HashNode)) (i : Nat) (h : i < l.length) :
    l.flatten = (l.take i).flatten ++ l.getD i [] ++ (l.drop (i + 1)).flatten := by
  conv_lhs => rw [buckets_split l i h]
  simp [List.flatten_append, List.flatten_cons, List.append_assoc]

theorem flatten_set (l : List (List HashNode)) (i : Nat) (v : List HashNode)
    (h : i < l.length) :
    (l.set i v).flatten = (l.take i).flatten ++ v ++ (l.drop (i + 1)).flatten := by
  rw [List.set_eq_take_cons_drop v h]
  simp [List.flatten_append, List.flatten_cons, List.append_assoc]

theorem mem_allNodes_iff (t : HashTable) (n : HashNode) :
    n ∈ t.allNodes ↔ ∃ i, n ∈ t.buckets.getD i [] := by
  unfold HashTable.allNodes
  rw [List.mem_flatten]
  constructor
  · rintro ⟨c, hc, hn⟩
    obtain ⟨i, hi, rfl⟩ := List.getElem_of_mem hc
    exact ⟨i, by simpa [List.getD_eq_getElem?_getD, List.getElem?_eq_getElem hi] using hn⟩
  · rintro ⟨i, hn⟩
    by_cases hi : i < t.buckets.length
    · refine ⟨t.buckets[i], List.getElem_mem _, ?_⟩
      simpa [List.getD_eq_getElem?_getD, List.getElem?_eq_getElem hi] using hn
    · have : t.buckets.getD i [] = [] := by
        simp [List.getD_eq_getElem?_getD, List.getElem?_eq_none (Nat.le_of_not_lt hi)]
      rw [this] at hn
      cases hn

theorem bumpChain_keys (key : CStr) (c c' : List HashNode) (h : bumpChain key c = some c') :
    c'.map HashNode.key = c.map HashNode.key := by
  induction c generalizing c' with
  | nil => simp [bumpChain] at h
  | cons n rest ih =>
    by_cases hk : n.key = key
    · simp [bumpChain, strcmp_eq_zero_iff, hk] at h
      subst h
      simp [hk]
    · simp [bumpChain, strcmp_eq_zero_iff, hk] at h
      obtain ⟨r, hr, rfl⟩ := h
      simp [ih r hr]

theorem map_bumpNode_of_not_mem (key : CStr) (c : List HashNode)
    (h : key ∉ c.map HashNode.key) : c.map (bumpNode key) = c := by
  induction c with
  | nil => rfl
  | cons n rest ih =>
    simp only [List.map_cons, List.mem_cons, not_or] at h
    have h1 : ¬ n.key = key := fun e => h.1 e.symm
    simp [bumpNode, h1]
    simpa [bumpNode] using ih h.2

theorem bumpChain_eq_map (key : CStr) (c c' : List HashNode)
    (hnd : (c.map HashNode.key).Nodup) (h : bumpChain key c = some c') :
    c' = c.map (bumpNode key) := by
  induction c generalizing c' with
  | nil => simp [bumpChain] at h
  | cons n rest ih =>
    rw [List.map_cons, List.nodup_cons] at hnd
    by_cases hk : n.key = key
    · simp [bumpChain, strcmp_eq_zero_iff, hk] at h
      subst h
      have hrest : key ∉ rest.map HashNode.key := hk ▸ hnd.1
      rw [List.map_cons, map_bumpNode_of_not_mem key rest hrest]
      simp [bumpNode, hk]
    · simp [bumpChain, strcmp_eq_zero_iff, hk] at h
      obtain ⟨r, hr, rfl⟩ := h
      rw [List.map_cons, ← ih r hnd.2 hr]
      simp [bumpNode, hk]

theorem bumpChain_count_pos (key : CStr) (c c' : List HashNode)
    (hpos : ∀ n ∈ c, 1 ≤ n.count) (h : bumpChain key c = some c') :
    ∀ n ∈ c', 1 ≤ n.count := by
  induction c generalizing c' with
  | nil => simp [bumpChain] at h
  | cons n rest ih =>
    by_cases hk : n.key = key
    · simp [bumpChain, strcmp_eq_zero_iff, hk] at h
      subst h
      intro m hm
      rcases List.mem_cons.1 hm with rfl | hm
      · have := hpos n (List.mem_cons_self _ _)
        simp only
        omega
      · exact hpos m (List.mem_cons_of_mem _ hm)
    · simp [bumpChain, strcmp_eq_zero_iff, hk] at h
      obtain ⟨r, hr, rfl⟩ := h
      intro m hm
      rcases List.mem_cons.1 hm with rfl | hm
      · exact hpos m (List.mem_cons_self _ _)
      · exact ih r (fun x hx => hpos x (List.mem_cons_of_mem _ hx)) hr m hm

/-! ### The representation invariant -/

theorem allNodes_split (t : HashTable) (key : CStr) :
    t.allNodes = (t.buckets.take (hashFunction key)).flatten ++
      t.buckets.getD (hashFunction key) [] ++
      (t.buckets.drop (hashFunction key + 1)).flatten :=
  flatten_split _ _ (t.size_eq ▸ hashFunction_lt key)

theorem allNodes_insert_of_none (t : HashTable) (key : CStr)
    (h : bumpChain key (t.buckets.getD (hashFunction key) []) = none) :
    (t.insert key).allNodes = (t.buckets.take (hashFunction key)).flatten ++
      (⟨key, 1⟩ :: t.buckets.getD (hashFunction key) []) ++
      (t.buckets.drop (hashFunction key + 1)).flatten := by
  unfold HashTable.allNodes
  rw [(insert_of_none t key h).1]
  exact flatten_set _ _ _ (t.size_eq ▸ hashFunction_lt key)

theorem allNodes_insert_of_some (t : HashTable) (key : CStr) (c : List HashNode)
    (h : bumpChain key (t.buckets.getD (hashFunction key) []) = some c) :
    (t.insert key).allNodes = (t.buckets.take (hashFunction key)).flatten ++ c ++
      (t.buckets.drop (hashFunction key + 1)).flatten := by
  unfold HashTable.allNodes
  rw [(insert_of_some t key c h).1]
  exact flatten_set _ _ _ (t.size_eq ▸ hashFunction_lt key)

theorem perm_insert_of_none (t : HashTable) (key : CStr)
    (h : bumpChain key (t.buckets.getD (hashFunction key) []) = none) :
    List.Perm (t.insert key).allNodes (⟨key, 1⟩ :: t.allNodes) := by
  rw [allNodes_insert_of_none t key h, allNodes_split t key, List.append_assoc,
    List.append_assoc, List.cons_append]
  exact List.perm_middle

theorem keys_insert_of_some (t : HashTable) (key : CStr) (c : List HashNode)
    (h : bumpChain key (t.buckets.getD (hashFunction key) []) = some c) :
    (t.insert key).allNodes.map HashNode.key = t.allNodes.map HashNode.key := by
  rw [allNodes_insert_of_some t key c h, allNodes_split t key]
  simp only [List.map_append, bumpChain_keys key _ c h]

theorem mem_keys_of_placed (t : HashTable)
    (hpl : ∀ i, ∀ n ∈ t.buckets.getD i [], hashFunction n.key = i) (key : CStr)
    (h : key ∈ t.allNodes.map HashNode.key) :
    key ∈ (t.buckets.getD (hashFunction key) []).map HashNode.key := by
  obtain ⟨n, hn, rfl⟩ := List.mem_map.1 h
  obtain ⟨i, hi⟩ := (mem_allNodes_iff t n).1 hn
  have := hpl i n hi
  subst this
  exact List.mem_map_of_mem _ hi

theorem inv_empty : HashTable.empty.Inv := by
  refine ⟨?_, ?_, ?_, ?_⟩
  · intro i n hn
    simp [HashTable.empty, getD_replicate_nil] at hn
  · simp [HashTable.empty, HashTable.allNodes]
  · simp [HashTable.empty, HashTable.allNodes]
  · simp [HashTable.empty, HashTable.allNodes]

theorem inv_clear (t : HashTable) : t.clear.Inv := inv_empty

theorem inv_insert (t : HashTable) (key : CStr) (h : t.Inv) : (t.insert key).Inv := by
  obtain ⟨hpl, hnd, hpos, htot⟩ := h
  have hidx : hashFunction key < t.buckets.length := t.size_eq ▸ hashFunction_lt key
  cases hb : bumpChain key (t.buckets.getD (hashFunction key) []) with
  | none =>
    have hperm := perm_insert_of_none t key hb
    have hnot : key ∉ t.allNodes.map HashNode.key := fun hmem =>
      (bumpChain_eq_none_iff _ _).1 hb (mem_keys_of_placed t hpl key hmem)
    refine ⟨?_, ?_, ?_, ?_⟩
    · intro i n hn
      rw [(insert_of_none t key hb).1, getD_set_chain _ _ _ _ hidx] at hn
      by_cases hi : hashFunction key = i
      · rw [if_pos hi] at hn
        rcases List.mem_cons.1 hn with rfl | hn
        · exact hi
        · exact hpl i n (hi ▸ hn)
      · rw [if_neg hi] at hn
        exact hpl i n hn
    · rw [(hperm.map HashNode.key).nodup_iff, List.map_cons, List.nodup_cons]
      exact ⟨hnot, hnd⟩
    · intro n hn
      rcases List.mem_cons.1 (hperm.mem_iff.1 hn) with rfl | hn
      · exact le_refl _
      · exact hpos n hn
    · rw [(insert_of_none t key hb).2, htot, hperm.length_eq, List.length_cons]
      push_cast
      rfl
  | some c =>
    have hkeys := keys_insert_of_some t key c hb
    refine ⟨?_, ?_, ?_, ?_⟩
    · intro i n hn
      rw [(insert_of_some t key c hb).1, getD_set_chain _ _ _ _ hidx] at hn
      by_cases hi : hashFunction key = i
      · rw [if_pos hi] at hn
        have hmem : n.key ∈ (t.buckets.getD (hashFunction key) []).map HashNode.key := by
          rw [← bumpChain_keys key _ c hb]
          exact List.mem_map_of_mem _ hn
        obtain ⟨n', hn', hk'⟩ := List.mem_map.1 hmem
        rw [← hk']
        exact hi ▸ hpl _ n' hn'
      · rw [if_neg hi] at hn
        exact hpl i n hn
    · rw [hkeys]
      exact hnd
    · intro n hn
      rw [allNodes_insert_of_some t key c hb] at hn
      have hold : ∀ m ∈ t.buckets.getD (hashFunction key) [], 1 ≤ m.count := fun m hm =>
        hpos m ((mem_allNodes_iff t m).2 ⟨_, hm⟩)
      rcases List.mem_append.1 hn with hn | hn
      · rcases List.mem_append.1 hn with hn | hn
        · apply hpos
          rw [allNodes_split t key]
          exact List.mem_append_left _ (List.mem_append_left _ hn)
        · exact bumpChain_count_pos key _ c hold hb n hn
      · apply hpos
        rw [allNodes_split t key]
        exact List.mem_append_right _ hn
    · rw [(insert_of_some t key c hb).2, htot]
      have := congrArg List.length hkeys
      rw [List.length_map, List.length_map] at this
      rw [this]

theorem inv_run (ops : List TableOp) : (HashTable.run ops).Inv := by
  induction ops using List.reverseRecOn with
  | nil => exact inv_empty
  | append_singleton ops op ih =>
    rw [run_snoc]
    cases op with
    | insert k => exact inv_insert _ k ih
    | clear => exact inv_clear (HashTable.run ops)

theorem mem_keys_insert (t : HashTable) (key k : CStr) :
    k ∈ (t.insert key).allNodes.map HashNode.key ↔ k = key ∨ k ∈ t.allNodes.map HashNode.key := by
  cases hb : bumpChain key (t.buckets.getD (hashFunction key) []) with
  | none =>
    rw [((perm_insert_of_none t key hb).map HashNode.key).mem_iff, List.map_cons, List.mem_cons]
  | some c =>
    rw [keys_insert_of_some t key c hb]
    constructor
    · exact Or.inr
    · rintro (rfl | h)
      · have : bumpChain k (t.buckets.getD (hashFunction k) []) ≠ none := by
          rw [hb]
          exact Option.some_ne_none c
        have hmem := not_not.1 (mt (bumpChain_eq_none_iff _ _).2 this)
        rw [allNodes_split t k]
        simp only [List.map_append, List.mem_append]
        exact Or.inl (Or.inr hmem)
      · exact h

theorem mem_keys_run (ops : List TableOp) (k : CStr) :
    k ∈ (HashTable.run ops).allNodes.map HashNode.key ↔ k ∈ keysSinceClear ops := by
  induction ops using List.reverseRecOn with
  | nil => simp [HashTable.run, keysSinceClear, HashTable.empty, HashTable.allNodes]
  | append_singleton ops op ih =>
    rw [run_snoc]
    cases op with
    | insert key =>
      rw [keysSinceClear_snoc_insert, HashTable.apply, mem_keys_insert, ih]
      simp only [List.mem_append, List.mem_singleton]
      exact or_comm
    | clear =>
      rw [keysSinceClear_snoc_clear, HashTable.apply]
      simp [HashTable.clear, HashTable.allNodes]

/-! ## The hash table: the contracts -/

theorem insert_on_inv (t : HashTable) (key : CStr) (h : t.Inv) :
    (key ∈ t.allNodes.map HashNode.key ∧
      (t.insert key).allNodes = t.allNodes.map (bumpNode key) ∧
      (t.insert key).getTotalEntries = t.getTotalEntries ∧
      (t.insert key).getCount key = t.getCount key + 1) ∨
    (key ∉ t.allNodes.map HashNode.key ∧
      List.Perm (t.insert key).allNodes (⟨key, 1⟩ :: t.allNodes) ∧
      (t.insert key).getTotalEntries = t.getTotalEntries + 1 ∧
      (t.insert key).getCount key = 1) := by
  obtain ⟨hpl, hnd, _, _⟩ := h
  have hcount := getCount_insert t key key
  rw [if_pos rfl] at hcount
  cases hb : bumpChain key (t.buckets.getD (hashFunction key) []) with
  | none =>
    right
    have hnot : key ∉ t.allNodes.map HashNode.key := fun hmem =>
      (bumpChain_eq_none_iff _ _).1 hb (mem_keys_of_placed t hpl key hmem)
    refine ⟨hnot, perm_insert_of_none t key hb, (insert_of_none t key hb).2, ?_⟩
    rw [hcount, HashTable.getCount,
      chainCount_of_not_mem _ _ ((bumpChain_eq_none_iff _ _).1 hb)]
    rfl
  | some c =>
    left
    have hne : bumpChain key (t.buckets.getD (hashFunction key) []) ≠ none := by
      rw [hb]
      exact Option.some_ne_none c
    have hmem := not_not.1 (mt (bumpChain_eq_none_iff _ _).2 hne)
    rw [allNodes_split t key, List.map_append, List.map_append, List.nodup_append,
      List.nodup_append] at hnd
    obtain ⟨⟨_, hndc, hdis1⟩, _, hdis2⟩ := hnd
    have hpre : key ∉ (t.buckets.take (hashFunction key)).flatten.map HashNode.key :=
      fun hin => hdis1 hin hmem
    have hpost : key ∉ (t.buckets.drop (hashFunction key + 1)).flatten.map HashNode.key :=
      fun hin => hdis2 (List.mem_append_right _ hmem) hin
    refine ⟨?_, ?_, (insert_of_some t key c hb).2, hcount⟩
    · rw [allNodes_split t key]
      simp only [List.map_append, List.mem_append]
      exact Or.inl (Or.inr hmem)
    · rw [allNodes_insert_of_some t key c hb, allNodes_split t key, List.map_append,
        List.map_append, map_bumpNode_of_not_mem key _ hpre,
        map_bumpNode_of_not_mem key _ hpost, bumpChain_eq_map key _ c hndc hb]

theorem isErrorLevel_iff (level : CStr) :
    isErrorLevel level = true ↔ level = ERROR_UPPER ∨ level = ERROR_LOWER := by
  simp [isErrorLevel, strcmp_eq_zero_iff]

theorem addLog_logList (a : LogAnalyzer) (ts level msg : CStr) :
    (a.addLog ts level msg).logList = a.logList.addEntry ts level msg := by
  unfold LogAnalyzer.addLog
  by_cases h : isErrorLevel level = true <;> simp [h]

theorem addLog_errorTable (a : LogAnalyzer) (ts level msg : CStr) :
    (a.addLog ts level msg).errorTable =
      if level = ERROR_UPPER ∨ level = ERROR_LOWER then a.errorTable.insert msg
      else a.errorTable := by
  unfold LogAnalyzer.addLog
  by_cases h : isErrorLevel level = true
  · rw [if_pos ((isErrorLevel_iff level).1 h)]
    simp [h]
  · rw [if_neg (fun h' => h ((isErrorLevel_iff level).2 h'))]
    simp [h]

/-- C7: for every timestamp, level and message, `addLog` adds the record at the
head of the log list, and it inserts the message into the error table exactly
when the level is the string "ERROR" or the string "error" (the count of the
message in the table grows by 1 in that case and only in that case); with the
level "Error" the table is left as it was. -/
theorem addLog_inserts_iff_error_level (a : LogAnalyzer) (ts level msg : CStr) :
    (a.addLog ts level msg).logList = a.logList.addEntry ts level msg ∧
    (a.addLog ts level msg).logList.getHead = ⟨ts, level, msg⟩ :: a.logList.getHead ∧
    (a.addLog ts level msg).errorTable =
      (if level = ERROR_UPPER ∨ level = ERROR_LOWER then a.errorTable.insert msg
       else a.errorTable) ∧
    ((a.addLog ts level msg).errorTable.getCount msg = a.errorTable.getCount msg + 1 ↔
      (level = ERROR_UPPER ∨ level = ERROR_LOWER)) ∧
    (a.addLog ts [69, 114, 114, 111, 114] msg).errorTable = a.errorTable := by
  refine ⟨addLog_logList a ts level msg, ?_, addLog_errorTable a ts level msg, ?_, ?_⟩
  · rw [addLog_logList]
    rfl
  · rw [addLog_errorTable]
    by_cases h : level = ERROR_UPPER ∨ level = ERROR_LOWER
    · rw [if_pos h, getCount_insert, if_pos rfl]
      exact iff_of_true rfl h
    · rw [if_neg h]
      refine iff_of_false (fun h' => ?_) h
      omega
  · rw [addLog_errorTable, if_neg (by decide)]

theorem analyzer_run_snoc (ops : List AnalyzerOp) (op : AnalyzerOp) :
    LogAnalyzer.run (ops ++ [op]) = (LogAnalyzer.run ops).apply op := by
  simp [LogAnalyzer.run, List.foldl_append]

theorem logList_run_snoc (ops : List ListOp) (op : ListOp) :
    LogList.run (ops ++ [op]) = (LogList.run ops).apply op := by
  simp [LogList.run, List.foldl_append]

theorem logList_run_spec (ops : List ListOp) :
    (LogList.run ops).getHead = (entriesSinceClear ops).reverse ∧
    (LogList.run ops).getSize = ((entriesSinceClear ops).length : Nat) := by
  induction ops using List.reverseRecOn with
  | nil => exact ⟨rfl, rfl⟩
  | append_singleton ops op ih =>
    rw [logList_run_snoc]
    cases op with
    | addEntry ts level msg =>
      have hn : entriesSinceClear (ops ++ [.addEntry ts level msg]) =
          entriesSinceClear ops ++ [⟨ts, level, msg⟩] := by
        simp [entriesSinceClear, List.foldl_append]
      rw [hn]
      simp only [LogList.getHead, LogList.getSize] at ih
      simp only [LogList.apply, LogList.addEntry, LogList.getHead, LogList.getSize, ih.1, ih.2,
        List.reverse_append, List.reverse_singleton, List.singleton_append, List.length_append,
        List.length_singleton]
      refine ⟨trivial, ?_⟩
      push_cast
      rfl
    | clear =>
      have hn : entriesSinceClear (ops ++ [.clear]) = [] := by
        simp [entriesSinceClear, List.foldl_append]
      rw [hn]
      exact ⟨rfl, rfl⟩

theorem searchCaseInsensitive_spec (fuel : Nat) (text p : CStr) (hp : p ≠ [])
    (hfuel : p.length ≤ fuel) :
    searchCaseInsensitive fuel text p =
      some ((occurrences (text.map tolower) (p.map tolower) : Nat) : Int) := by
  have hpos : 0 < p.length := List.length_pos.2 hp
  have hp' : p.map tolower ≠ [] := by simpa using hp
  unfold searchCaseInsensitive
  simp only [strlen]
  rw [if_neg (by omega)]
  by_cases hlt : p.length > text.length
  · rw [if_pos hlt, occurrences_of_length_lt _ _ (by simpa using hlt)]
    rfl
  · rw [if_neg hlt]
    exact search_spec fuel _ _ hp' (by simpa using hfuel)

theorem searchKeywordLoop_eq (fuel : Nat) (keyword : CStr) (cs : Bool) (l : List LogEntry)
    (acc : Int) :
    searchKeywordLoop fuel keyword cs l acc =
      (sumMatchCounts fuel cs keyword (l.map LogEntry.message)).map (fun sum => acc + sum) := by
  induction l generalizing acc with
  | nil => simp [searchKeywordLoop, sumMatchCounts]
  | cons r rest ih =>
    rw [searchKeywordLoop, List.map_cons, sumMatchCounts]
    cases cs with
    | true =>
      simp only [matchCount, if_true]
      cases search fuel r.message keyword with
      | none => rfl
      | some c =>
        simp only [Option.bind_eq_bind, Option.some_bind, ih]
        cases sumMatchCounts fuel true keyword (rest.map LogEntry.message) with
        | none => rfl
        | some sum =>
          simp only [Option.map_some', Option.some_bind, pure, add_assoc]
    | false =>
      simp only [matchCount, Bool.false_eq_true, if_false]
      cases searchCaseInsensitive fuel r.message keyword with
      | none => rfl
      | some c =>
        simp only [Option.bind_eq_bind, Option.some_bind, ih]
        cases sumMatchCounts fuel false keyword (rest.map LogEntry.message) with
        | none => rfl
        | some sum =>
          simp only [Option.map_some', Option.some_bind, pure, add_assoc]

theorem sumMatchCounts_spec (fuel : Nat) (cs : Bool) (keyword : CStr) (hk : keyword ≠ [])
    (hfuel : keyword.length ≤ fuel) (l : List CStr) :
    sumMatchCounts fuel cs keyword l =
      some ((l.map (fun m =>
        (((if cs then occurrences m keyword
          else occurrences (m.map tolower) (keyword.map tolower)) : Nat) : Int))).sum) := by
  induction l with
  | nil => rfl
  | cons m rest ih =>
    rw [sumMatchCounts, ih, List.map_cons, List.sum_cons]
    cases cs with
    | true =>
      simp only [matchCount, if_true, search_spec fuel _ _ hk hfuel]
      rfl
    | false =>
      simp only [matchCount, Bool.false_eq_true, if_false,
        searchCaseInsensitive_spec fuel _ _ hk hfuel]
      rfl

/-! ## The analyser: degenerate keywords, the error count, clearing -/

/-- C11: whatever the store holds and whatever the flag, `searchKeyword`
returns 0 for the empty keyword, and returns 0 for a null keyword (the null
test comes first, so nothing is read through the pointer); no fuel is needed. -/
theorem searchKeyword_empty_or_null (fuel : Nat) (a : LogAnalyzer) (caseSensitive : Bool) :
    a.searchKeyword fuel (some []) caseSensitive = some 0 ∧
    a.searchKeyword fuel none caseSensitive = some 0 :=
  ⟨rfl, rfl⟩

theorem tableOpsOf_snoc (ops : List AnalyzerOp) (op : AnalyzerOp) :
    tableOpsOf (ops ++ [op]) = tableOpsOf ops ++ op.tableOps := by
  simp [tableOpsOf, List.flatMap_append]

theorem errorTable_run (ops : List AnalyzerOp) :
    (LogAnalyzer.run ops).errorTable = HashTable.run (tableOpsOf ops) := by
  induction ops using List.reverseRecOn with
  | nil => rfl
  | append_singleton ops op ih =>
    rw [analyzer_run_snoc, tableOpsOf_snoc]
    cases op with
    | addLog ts level msg =>
      rw [LogAnalyzer.apply, addLog_errorTable, ih, AnalyzerOp.tableOps]
      by_cases h : level = ERROR_UPPER ∨ level = ERROR_LOWER
      · rw [if_pos h, if_pos ((isErrorLevel_iff level).2 h), run_snoc]
        rfl
      · rw [if_neg h, if_neg (fun h' => h ((isErrorLevel_iff level).1 h')), List.append_nil]
    | clearAll =>
      rw [AnalyzerOp.tableOps, run_snoc, ← ih]
      rfl

theorem keysSinceClear_tableOpsOf (ops : List AnalyzerOp) :
    keysSinceClear (tableOpsOf ops) = errorMessagesSinceClear ops := by
  induction ops using List.reverseRecOn with
  | nil => rfl
  | append_singleton ops op ih =>
    rw [tableOpsOf_snoc]
    cases op with
    | addLog ts level msg =>
      have hn : errorMessagesSinceClear (ops ++ [.addLog ts level msg]) =
          if level = ERROR_UPPER ∨ level = ERROR_LOWER then errorMessagesSinceClear ops ++ [msg]
          else errorMessagesSinceClear ops := by
        simp [errorMessagesSinceClear, List.foldl_append]
      rw [hn, AnalyzerOp.tableOps]
      by_cases h : level = ERROR_UPPER ∨ level = ERROR_LOWER
      · rw [if_pos h, if_pos ((isErrorLevel_iff level).2 h), keysSinceClear_snoc_insert, ih]
      · rw [if_neg h, if_neg (fun h' => h ((isErrorLevel_iff level).1 h')), List.append_nil, ih]
    | clearAll =>
      have hn : errorMessagesSinceClear (ops ++ [.clearAll]) = [] := by
        simp [errorMessagesSinceClear, List.foldl_append]
      rw [hn, AnalyzerOp.tableOps, keysSinceClear_snoc_clear]

theorem errorTable_inv (ops : List AnalyzerOp) : (LogAnalyzer.run ops).errorTable.Inv := by
  rw [errorTable_run]
  exact inv_run _

theorem mem_errorTable_keys (ops : List AnalyzerOp) (k : CStr) :
    k ∈ (LogAnalyzer.run ops).errorTable.allNodes.map HashNode.key ↔
      k ∈ errorMessagesSinceClear ops := by
  rw [errorTable_run, mem_keys_run, keysSinceClear_tableOpsOf]

/-- C13: on every analyser, after `clearAll()` the list and the table are both
empty; `getTotalLogs()`, `getErrorCount()` and every `getCount(k)` are 0;
`searchKeyword` returns 0 for every keyword (null and empty included), flag and
fuel; and `displayLogsWithKeyword` writes no record line: "Invalid keyword."
for a null or empty keyword, the header and "No logs found containing the
keyword." otherwise. -/
theorem clearAll_resets (a : LogAnalyzer) :
    a.clearAll.logList.getHead = [] ∧
    a.clearAll.errorTable.allNodes = [] ∧
    a.clearAll.getTotalLogs = 0 ∧
    a.clearAll.getErrorCount = 0 ∧
    (∀ k, a.clearAll.errorTable.getCount k = 0) ∧
    (∀ fuel keyword cs, a.clearAll.searchKeyword fuel keyword cs = some 0) ∧
    (∀ fuel keyword cs,
      a.clearAll.displayLogsWithKeyword fuel keyword cs =
        some (if keyword = none ∨ keyword = some [] then [KeywordItem.invalidKeyword]
          else [KeywordItem.header (keyword.getD []), KeywordItem.noLogsFound]) ∧
      ∀ items, a.clearAll.displayLogsWithKeyword fuel keyword cs = some items →
        printedRecords items = []) := by
  have hdisp : ∀ fuel keyword cs,
      a.clearAll.displayLogsWithKeyword fuel keyword cs =
        some (if keyword = none ∨ keyword = some [] then [KeywordItem.invalidKeyword]
          else [KeywordItem.header (keyword.getD []), KeywordItem.noLogsFound]) := by
    intro fuel keyword cs
    cases keyword with
    | none => rfl
    | some kw =>
      cases kw with
      | nil => rfl
      | cons c rest => rfl
  refine ⟨rfl, ?_, rfl, rfl, fun k => getCount_clear a.errorTable k, ?_, ?_⟩
  · simp [LogAnalyzer.clearAll, HashTable.clear, HashTable.allNodes]
  · intro fuel keyword cs
    cases keyword with
    | none => rfl
    | some kw =>
      cases kw with
      | nil => rfl
      | cons c rest => rfl
  · intro fuel keyword cs
    refine ⟨hdisp fuel keyword cs, ?_⟩
    intro items hitems
    rw [hdisp] at hitems
    cases keyword with
    | none =>
      cases hitems
      rfl
    | some kw =>
      cases kw with
      | nil =>
        cases hitems
        rfl
      | cons c rest =>
        cases hitems
        rfl

/-! ## The case-insensitive matcher -/

theorem matchCount_spec (fuel : Nat) (cs : Bool) (m keyword : CStr) (hk : keyword ≠ [])
    (hfuel : keyword.length ≤ fuel) :
    matchCount fuel cs m keyword =
      some (((if cs then occurrences m keyword
        else occurrences (m.map tolower) (keyword.map tolower)) : Nat) : Int) := by
  cases cs with
  | true => simp only [matchCount, if_true, search_spec fuel _ _ hk hfuel]
  | false =>
    simp only [matchCount, Bool.false_eq_true, if_false,
      searchCaseInsensitive_spec fuel _ _ hk hfuel]

theorem matchesKeyword_iff (fuel : Nat) (cs : Bool) (keyword : CStr) (hk : keyword ≠ [])
    (hfuel : keyword.length ≤ fuel) (r : LogEntry) :
    matchesKeyword fuel cs keyword r = true ↔
      0 < (if cs then occurrences r.message keyword
        else occurrences (r.message.map tolower) (keyword.map tolower)) := by
  simp only [matchesKeyword, matchCount_spec fuel cs r.message keyword hk hfuel,
    decide_eq_true_eq, gt_iff_lt, Int.natCast_pos]

theorem displayKeywordLoop_step (fuel : Nat) (keyword : CStr) (cs : Bool) (r : LogEntry)
    (rest : List LogEntry) (foundCount index : Int) (c : Int)
    (hc : matchCount fuel cs r.message keyword = some c) :
    displayKeywordLoop fuel keyword cs (r :: rest) foundCount index =
      if c > 0 then
        (displayKeywordLoop fuel keyword cs rest (foundCount + 1) (index + 1)).map
          (fun w => (KeywordItem.record index r :: w.1, w.2))
      else displayKeywordLoop fuel keyword cs rest foundCount (index + 1) := by
  rw [displayKeywordLoop]
  cases cs with
  | true =>
    simp only [matchCount, if_true] at hc
    simp only [if_true, hc, Option.bind_eq_bind, Option.some_bind]
    by_cases hpos : c > 0
    · rw [if_pos hpos, if_pos hpos]
      cases displayKeywordLoop fuel keyword true rest (foundCount + 1) (index + 1) <;> rfl
    · rw [if_neg hpos, if_neg hpos]
  | false =>
    simp only [matchCount, Bool.false_eq_true, if_false] at hc
    simp only [Bool.false_eq_true, if_false, hc, Option.bind_eq_bind, Option.some_bind]
    by_cases hpos : c > 0
    · rw [if_pos hpos, if_pos hpos]
      cases displayKeywordLoop fuel keyword false rest (foundCount + 1) (index + 1) <;> rfl
    · rw [if_neg hpos, if_neg hpos]

theorem displayKeywordLoop_spec (fuel : Nat) (keyword : CStr) (cs : Bool) (hk : keyword ≠ [])
    (hfuel : keyword.length ≤ fuel) (l : List LogEntry) :
    ∀ foundCount index : Int, ∃ items,
      displayKeywordLoop fuel keyword cs l foundCount index =
        some (items, foundCount + ((l.filter (matchesKeyword fuel cs keyword)).length : Nat)) ∧
      printedRecords items = l.filter (matchesKeyword fuel cs keyword) ∧
      reportedTotals items = [] := by
  induction l with
  | nil =>
    intro foundCount index
    exact ⟨[], by simp [displayKeywordLoop], rfl, rfl⟩
  | cons r rest ih =>
    intro foundCount index
    have hc := matchCount_spec fuel cs r.message keyword hk hfuel
    rw [displayKeywordLoop_step fuel keyword cs r rest foundCount index _ hc]
    by_cases hpos : matchesKeyword fuel cs keyword r = true
    · have hpos' := (matchesKeyword_iff fuel cs keyword hk hfuel r).1 hpos
      obtain ⟨items, hitems, hrec, htot⟩ := ih (foundCount + 1) (index + 1)
      refine ⟨KeywordItem.record index r :: items, ?_, ?_, ?_⟩
      · rw [if_pos (by exact_mod_cast hpos'), hitems, List.filter_cons_of_pos hpos]
        simp only [Option.map_some', List.length_cons, Nat.cast_add, Nat.cast_one]
        congr 2
        omega
      · rw [List.filter_cons_of_pos hpos]
        simp only [printedRecords, hrec]
      · simp only [reportedTotals, htot]
    · have hpos' : ¬ 0 < (if cs then occurrences r.message keyword
          else occurrences (r.message.map tolower) (keyword.map tolower)) :=
        fun h => hpos ((matchesKeyword_iff fuel cs keyword hk hfuel r).2 h)
      obtain ⟨items, hitems, hrec, htot⟩ := ih foundCount (index + 1)
      refine ⟨items, ?_, ?_, htot⟩
      · rw [if_neg (by exact_mod_cast hpos'), hitems, List.filter_cons_of_neg hpos]
      · rw [List.filter_cons_of_neg hpos]
        exact hrec

theorem chainCount_of_mem (c : List HashNode) (n : HashNode)
    (hnd : (c.map HashNode.key).Nodup) (hn : n ∈ c) : chainCount n.key c = n.count := by
  induction c with
  | nil => cases hn
  | cons m rest ih =>
    rw [List.map_cons, List.nodup_cons] at hnd
    rcases List.mem_cons.1 hn with rfl | hmem
    · simp [chainCount, strcmp_eq_zero_iff]
    · have hne : ¬ m.key = n.key := fun e => hnd.1 (e ▸ List.mem_map_of_mem _ hmem)
      simp [chainCount, strcmp_eq_zero_iff, hne, ih hnd.2 hmem]

theorem getCount_of_mem (t : HashTable) (h : t.Inv) (n : HashNode) (hn : n ∈ t.allNodes) :
    t.getCount n.key = n.count := by
  obtain ⟨hpl, hnd, _, _⟩ := h
  obtain ⟨i, hi⟩ := (mem_allNodes_iff t n).1 hn
  have hidx := hpl i n hi
  subst hidx
  rw [allNodes_split t n.key, List.map_append, List.map_append, List.nodup_append,
    List.nodup_append] at hnd
  exact chainCount_of_mem _ n hnd.1.2.1 hi

theorem searchKeyword_total (fuel : Nat) (a : LogAnalyzer) (keyword : CStr) (cs : Bool)
    (hk : keyword ≠ []) (hfuel : keyword.length ≤ fuel) :
    a.searchKeyword fuel (some keyword) cs =
      some ((a.logList.getHead.map (fun r =>
        (((if cs then occurrences r.message keyword
          else occurrences (r.message.map tolower) (keyword.map tolower)) : Nat) : Int))).sum) := by
  have hlen : ¬ strlen keyword = 0 := by
    simpa [strlen] using hk
  simp only [LogAnalyzer.searchKeyword, if_neg hlen, searchKeywordLoop_eq,
    sumMatchCounts_spec fuel cs keyword hk hfuel, List.map_map, Option.map_some', zero_add]
  rfl

/-- C17: on a store that holds exactly one record, with the message "aaa"
(whatever its timestamp and level), `searchKeyword("aa", true)` returns 2,
given fuel no smaller than the keyword's length 2. -/
theorem searchKeyword_aa_in_aaa (fuel : Nat) (a : LogAnalyzer) (ts level : CStr)
    (h : a.logList.getHead = [⟨ts, level, STR_AAA⟩]) (hfuel : 2 ≤ fuel) :
    a.searchKeyword fuel (some STR_AA) true = some 2 := by
  rw [searchKeyword_total fuel a STR_AA true (by decide) hfuel, h]
  have : occurrences STR_AAA STR_AA = 2 := by decide
  simp [this]

/-- The store built by one `addLog` of an "INFO" record with message "aaa". -/
theorem searchKeyword_aa_in_aaa_witness :
    (LogAnalyzer.run [.addLog [] STR_INFO STR_AAA]).logList.getHead = [⟨[], STR_INFO, STR_AAA⟩] ∧
      (LogAnalyzer.run [.addLog [] STR_INFO STR_AAA]).searchKeyword 2 (some STR_AA) true =
        some 2 :=
  ⟨by decide,
    searchKeyword_aa_in_aaa 2 (LogAnalyzer.run [.addLog [] STR_INFO STR_AAA]) [] STR_INFO
      (by decide) (by decide)⟩

/-- C18: on a store that holds exactly one record, with the message "Failed to
connect" (whatever its timestamp and level), `searchKeyword("FAILED", false)`
returns 1 and `searchKeyword("FAILED", true)` returns 0, given fuel no smaller
than the keyword's length 6. -/
theorem searchKeyword_failed_case (fuel : Nat) (a : LogAnalyzer) (ts level : CStr)
    (h : a.logList.getHead = [⟨ts, level, STR_FAILED_TO_CONNECT⟩]) (hfuel : 6 ≤ fuel) :
    a.searchKeyword fuel (some STR_FAILED_UPPER) false = some 1 ∧
    a.searchKeyword fuel (some STR_FAILED_UPPER) true = some 0 := by
  rw [searchKeyword_total fuel a STR_FAILED_UPPER false (by decide) hfuel,
    searchKeyword_total fuel a STR_FAILED_UPPER true (by decide) hfuel, h]
  have h1 : occurrences (STR_FAILED_TO_CONNECT.map tolower) (STR_FAILED_UPPER.map tolower) = 1 := by
    decide
  have h2 : occurrences STR_FAILED_TO_CONNECT STR_FAILED_UPPER = 0 := by decide
  simp [h1, h2]

/-- The store built by one `addLog` of an "ERROR" record with message "Failed
to connect". -/
theorem searchKeyword_failed_case_witness :
    (LogAnalyzer.run [.addLog [] ERROR_UPPER STR_FAILED_TO_CONNECT]).logList.getHead =
        [⟨[], ERROR_UPPER, STR_FAILED_TO_CONNECT⟩] ∧
      (LogAnalyzer.run [.addLog [] ERROR_UPPER STR_FAILED_TO_CONNECT]).searchKeyword 6
        (some STR_FAILED_UPPER) false = some 1 ∧
      (LogAnalyzer.run [.addLog [] ERROR_UPPER STR_FAILED_TO_CONNECT]).searchKeyword 6
        (some STR_FAILED_UPPER) true = some 0 :=
  ⟨by decide,
    searchKeyword_failed_case 6 (LogAnalyzer.run [.addLog [] ERROR_UPPER STR_FAILED_TO_CONNECT])
      [] ERROR_UPPER (by decide) (by decide)⟩

theorem analyzer_logList_run (ops : List AnalyzerOp) :
    (LogAnalyzer.run ops).logList = LogList.run (ops.map AnalyzerOp.listOp) := by
  induction ops using List.reverseRecOn with
  | nil => rfl
  | append_singleton ops op ih =>
    rw [analyzer_run_snoc, List.map_append, List.map_singleton, logList_run_snoc, ← ih]
    cases op with
    | addLog ts level msg =>
      rw [LogAnalyzer.apply, addLog_logList]
      rfl
    | clearAll => rfl

theorem addLogOps_snoc (recs : List LogEntry) (r : LogEntry) :
    addLogOps (recs ++ [r]) = addLogOps recs ++ [.addLog r.timestamp r.log_level r.message] := by
  simp [addLogOps]

theorem entriesSinceClear_addLogOps (recs : List LogEntry) :
    entriesSinceClear ((addLogOps recs).map AnalyzerOp.listOp) = recs := by
  induction recs using List.reverseRecOn with
  | nil => rfl
  | append_singleton recs r ih =>
    rw [addLogOps_snoc, List.map_append, List.map_singleton]
    have hn : entriesSinceClear ((addLogOps recs).map AnalyzerOp.listOp ++
        [AnalyzerOp.listOp (.addLog r.timestamp r.log_level r.message)]) =
        entriesSinceClear ((addLogOps recs).map AnalyzerOp.listOp) ++ [r] := by
      simp [entriesSinceClear, List.foldl_append, AnalyzerOp.listOp]
    rw [hn, ih]

theorem errorMessagesSinceClear_addLogOps (recs : List LogEntry) :
    errorMessagesSinceClear (addLogOps recs) =
      (recs.filter (fun r => decide (r.log_level = ERROR_UPPER ∨ r.log_level = ERROR_LOWER))).map
        LogEntry.message := by
  induction recs using List.reverseRecOn with
  | nil => rfl
  | append_singleton recs r ih =>
    rw [addLogOps_snoc]
    have hn : errorMessagesSinceClear (addLogOps recs ++
        [.addLog r.timestamp r.log_level r.message]) =
        if r.log_level = ERROR_UPPER ∨ r.log_level = ERROR_LOWER then
          errorMessagesSinceClear (addLogOps recs) ++ [r.message]
        else errorMessagesSinceClear (addLogOps recs) := by
      simp [errorMessagesSinceClear, List.foldl_append]
    rw [hn, ih, List.filter_append, List.map_append]
    by_cases h : r.log_level = ERROR_UPPER ∨ r.log_level = ERROR_LOWER
    · rw [if_pos h]
      simp [List.filter_cons, h]
    · rw [if_neg h]
      simp [List.filter_cons, h]

theorem totalEntries_run (ops : List TableOp) :
    (HashTable.run ops).totalEntries = (((keysSinceClear ops).dedup.length : Nat) : Int) := by
  obtain ⟨_, hnd, _, htot⟩ := inv_run ops
  have hperm : List.Perm ((HashTable.run ops).allNodes.map HashNode.key)
      (keysSinceClear ops).dedup :=
    (List.perm_ext_iff_of_nodup hnd (List.nodup_dedup _)).2 (fun k => by
      rw [mem_keys_run, List.mem_dedup])
  rw [htot, ← hperm.length_eq, List.length_map]

/-- C19: start from an empty analyser and add, in any order and with any
timestamps, three "ERROR" records with message "Failed to connect to
database", two "ERROR" records with message "File not found: config.xml" and
one "INFO" record whose message does not contain "Failed". Then
`getTotalLogs()` is 6, `getErrorCount()` is 2, the table holds count 3 for the
first message and count 2 for the second, and `searchKeyword("Failed", true)`
returns 3 (fuel no smaller than the keyword's length 6). -/
theorem end_to_end_scenario (recs : List LogEntry) (m : CStr) (fuel : Nat)
    (hperm : List.Perm (recs.map (fun r => (r.log_level, r.message)))
      [(ERROR_UPPER, STR_FAILED_DATABASE), (ERROR_UPPER, STR_FAILED_DATABASE),
        (ERROR_UPPER, STR_FAILED_DATABASE), (ERROR_UPPER, STR_FILE_NOT_FOUND),
        (ERROR_UPPER, STR_FILE_NOT_FOUND), (STR_INFO, m)])
    (hm : occurrences m STR_FAILED = 0) (hfuel : 6 ≤ fuel) :
    (LogAnalyzer.run (addLogOps recs)).getTotalLogs = 6 ∧
    (LogAnalyzer.run (addLogOps recs)).getErrorCount = 2 ∧
    (LogAnalyzer.run (addLogOps recs)).errorTable.getCount STR_FAILED_DATABASE = 3 ∧
    (LogAnalyzer.run (addLogOps recs)).errorTable.getCount STR_FILE_NOT_FOUND = 2 ∧
    (LogAnalyzer.run (addLogOps recs)).searchKeyword fuel (some STR_FAILED) true = some 3 := by
  have hlen : recs.length = 6 := by
    have := hperm.length_eq
    simpa using this
  have hlist := logList_run_spec ((addLogOps recs).map AnalyzerOp.listOp)
  rw [← analyzer_logList_run, entriesSinceClear_addLogOps] at hlist
  have hI : ¬ (STR_INFO = ERROR_UPPER ∨ STR_INFO = ERROR_LOWER) := by decide
  have hkeys : List.Perm (errorMessagesSinceClear (addLogOps recs))
      [STR_FAILED_DATABASE, STR_FAILED_DATABASE, STR_FAILED_DATABASE, STR_FILE_NOT_FOUND,
        STR_FILE_NOT_FOUND] := by
    have h1 := (hperm.filter (fun p => decide (p.1 = ERROR_UPPER ∨ p.1 = ERROR_LOWER))).map
      Prod.snd
    rw [List.filter_map, List.map_map] at h1
    rw [errorMessagesSinceClear_addLogOps]
    refine List.Perm.trans ?_ (h1.trans ?_)
    · exact List.Perm.of_eq rfl
    · refine List.Perm.of_eq ?_
      simp [List.filter_cons, hI]
  have hcount : ∀ k, (LogAnalyzer.run (addLogOps recs)).errorTable.getCount k =
      (([STR_FAILED_DATABASE, STR_FAILED_DATABASE, STR_FAILED_DATABASE, STR_FILE_NOT_FOUND,
        STR_FILE_NOT_FOUND].count k : Nat) : Int) := by
    intro k
    rw [errorTable_run, getCount_run, keysSinceClear_tableOpsOf]
    exact congrArg Nat.cast (hkeys.countP_eq _)
  refine ⟨?_, ?_, ?_, ?_, ?_⟩
  · rw [LogAnalyzer.getTotalLogs, hlist.2, hlen]
    rfl
  · rw [LogAnalyzer.getErrorCount, HashTable.getTotalEntries, errorTable_run, totalEntries_run,
      keysSinceClear_tableOpsOf, hkeys.dedup.length_eq]
    decide
  · rw [hcount]
    decide
  · rw [hcount]
    decide
  · rw [searchKeyword_total fuel _ STR_FAILED true (by decide) (by simpa using hfuel), hlist.1,
      List.map_reverse, List.sum_reverse]
    have h2 := (hperm.map (fun p : CStr × CStr => ((occurrences p.2 STR_FAILED : Nat) : Int))).sum_eq
    rw [List.map_map] at h2
    have hA : occurrences STR_FAILED_DATABASE STR_FAILED = 1 := by decide
    have hB : occurrences STR_FILE_NOT_FOUND STR_FAILED = 0 := by decide
    have h3 : (recs.map (fun r => (((if true = true then occurrences r.message STR_FAILED
        else occurrences (r.message.map tolower) (STR_FAILED.map tolower)) : Nat) : Int))) =
        recs.map ((fun p : CStr × CStr => ((occurrences p.2 STR_FAILED : Nat) : Int)) ∘
          (fun r => (r.log_level, r.message))) := by
      apply List.map_congr_left
      intro r _
      simp
    rw [h3, h2]
    simp [hA, hB, hm]

/-- The six records in the order database, file, INFO ("Server started
successfully"), database, file, database. -/
theorem end_to_end_scenario_witness :
    occurrences [83, 101, 114, 118, 101, 114] STR_FAILED = 0 ∧
      (LogAnalyzer.run (addLogOps [⟨[], ERROR_UPPER, STR_FAILED_DATABASE⟩,
        ⟨[], ERROR_UPPER, STR_FILE_NOT_FOUND⟩, ⟨[], STR_INFO, [83, 101, 114, 118, 101, 114]⟩,
        ⟨[], ERROR_UPPER, STR_FAILED_DATABASE⟩, ⟨[], ERROR_UPPER, STR_FILE_NOT_FOUND⟩,
        ⟨[], ERROR_UPPER, STR_FAILED_DATABASE⟩])).getErrorCount = 2 :=
  ⟨by decide,
    (end_to_end_scenario [⟨[], ERROR_UPPER, STR_FAILED_DATABASE⟩,
        ⟨[], ERROR_UPPER, STR_FILE_NOT_FOUND⟩, ⟨[], STR_INFO, [83, 101, 114, 118, 101, 114]⟩,
        ⟨[], ERROR_UPPER, STR_FAILED_DATABASE⟩, ⟨[], ERROR_UPPER, STR_FILE_NOT_FOUND⟩,
        ⟨[], ERROR_UPPER, STR_FAILED_DATABASE⟩] [83, 101, 114, 118, 101, 114] 6
      (by decide) (by decide) (by decide)).2.1⟩

/-! ## The cost of the matcher -/

theorem fallbackCost_fst (src : CStr) (i : Nat) (p : CStr) (f : IntArray) :
    ∀ fuel j, (fallbackCost src i p f fuel j).map (fun x => x.1) = fallback src i p f fuel j := by
  intro fuel
  induction fuel with
  | zero => intro j; rfl
  | succ fuel ih =>
    intro j
    rw [fallbackCost, fallback]
    by_cases hj : j > 0
    · rw [if_pos hj, if_pos hj]
      cases charAt src i with
      | none => rfl
      | some a =>
        cases charAt p j with
        | none => rfl
        | some b =>
          simp only [Option.bind_eq_bind, Option.some_bind]
          by_cases hab : a ≠ b
          · rw [if_pos hab, if_pos hab]
            cases f.read (j - 1) with
            | none => rfl
            | some j' =>
              simp only [Option.some_bind]
              rw [← ih j']
              cases fallbackCost src i p f fuel j' <;> rfl
          · rw [if_neg hab, if_neg hab]
            rfl
    · rw [if_neg hj, if_neg hj]
      rfl

theorem fallbackCost_bound (src : CStr) (i : Nat) (p : CStr) (f : IntArray)
    (hb : ∀ t v, f.read t = some v → v ≤ t) :
    ∀ fuel j r k x, fallbackCost src i p f fuel j = some (r, k, x) → r + k ≤ j := by
  intro fuel
  induction fuel with
  | zero =>
    intro j r k x h
    simp [fallbackCost] at h
  | succ fuel ih =>
    intro j r k x h
    rw [fallbackCost] at h
    by_cases hj : j > 0
    · rw [if_pos hj] at h
      cases ha : charAt src i with
      | none => simp [ha] at h
      | some a =>
        cases hpb : charAt p j with
        | none => simp [ha, hpb] at h
        | some b =>
          simp only [ha, hpb, Option.bind_eq_bind, Option.some_bind] at h
          by_cases hab : a ≠ b
          · rw [if_pos hab] at h
            cases hr : f.read (j - 1) with
            | none => simp [hr] at h
            | some j' =>
              simp only [hr, Option.some_bind] at h
              cases hrec : fallbackCost src i p f fuel j' with
              | none => simp [hrec] at h
              | some w =>
                obtain ⟨r', k', x'⟩ := w
                simp only [hrec, Option.some_bind, pure, Option.some.injEq, Prod.mk.injEq] at h
                obtain ⟨h1, h2, _⟩ := h
                have := ih j' r' k' x' hrec
                have := hb (j - 1) j' hr
                omega
          · rw [if_neg hab] at h
            simp only [pure, Option.some.injEq, Prod.mk.injEq] at h
            omega
    · rw [if_neg hj] at h
      simp only [pure, Option.some.injEq, Prod.mk.injEq] at h
      omega

theorem buildLoopCost_fst (fuel : Nat) (p : CStr) :
    ∀ n i j f, (buildLoopCost fuel p n i j f).map (fun x => x.1) = buildLoop fuel p n i j f := by
  intro n
  induction n with
  | zero => intro i j f; rfl
  | succ n ih =>
    intro i j f
    rw [buildLoopCost, buildLoop, ← fallbackCost_fst]
    cases fallbackCost p i p f fuel j with
    | none => rfl
    | some w =>
      obtain ⟨r, k, x⟩ := w
      simp only [Option.map_some', Option.bind_eq_bind, Option.some_bind]
      cases charAt p i with
      | none => rfl
      | some a =>
        cases charAt p r with
        | none => rfl
        | some b =>
          simp only [Option.some_bind]
          cases IntArray.write f i (if a = b then r + 1 else r) with
          | none => rfl
          | some f' =>
            simp only [Option.some_bind]
            rw [← ih (i + 1) _ f']
            cases buildLoopCost fuel p n (i + 1) (if a = b then r + 1 else r) f' <;> rfl

theorem bounded_write {f f' : IntArray} {i v : Nat} (hb : ∀ t w, f.read t = some w → w ≤ t)
    (hv : v ≤ i) (hw : f.write i v = some f') : ∀ t w, f'.read t = some w → w ≤ t := by
  obtain ⟨_, hri, hrest⟩ := IntArray.write_spec hw
  intro t w ht
  by_cases hti : t = i
  · subst hti
    rw [hri] at ht
    cases ht
    exact hv
  · rw [hrest t hti] at ht
    exact hb t w ht

theorem buildLoopCost_bound (fuel : Nat) (p : CStr) :
    ∀ n i j f f' k, (∀ t w, IntArray.read f t = some w → w ≤ t) → j < i →
      buildLoopCost fuel p n i j f = some (f', k) →
      k ≤ j + n ∧ ∀ t w, IntArray.read f' t = some w → w ≤ t := by
  intro n
  induction n with
  | zero =>
    intro i j f f' k hb _ h
    simp only [buildLoopCost, Option.some.injEq, Prod.mk.injEq] at h
    obtain ⟨h1, h2⟩ := h
    subst h1
    exact ⟨by omega, hb⟩
  | succ n ih =>
    intro i j f f' k hb hji h
    rw [buildLoopCost] at h
    cases hfb : fallbackCost p i p f fuel j with
    | none => simp [hfb] at h
    | some w =>
      obtain ⟨r, k1, x⟩ := w
      have hrk := fallbackCost_bound p i p f hb fuel j r k1 x hfb
      simp only [hfb, Option.bind_eq_bind, Option.some_bind] at h
      cases ha : charAt p i with
      | none => simp [ha] at h
      | some a =>
        cases hpb : charAt p r with
        | none => simp [ha, hpb] at h
        | some b =>
          simp only [ha, hpb, Option.some_bind] at h
          cases hw : IntArray.write f i (if a = b then r + 1 else r) with
          | none => simp [hw] at h
          | some g =>
            simp only [hw, Option.some_bind] at h
            have hj' : (if a = b then r + 1 else r) ≤ i := by
              split <;> omega
            cases hrec : buildLoopCost fuel p n (i + 1) (if a = b then r + 1 else r) g with
            | none => simp [hrec] at h
            | some w2 =>
              obtain ⟨g', k2⟩ := w2
              simp only [hrec, Option.some_bind, pure, Option.some.injEq, Prod.mk.injEq] at h
              obtain ⟨h1, h2⟩ := h
              subst h1
              obtain ⟨hk2, hb'⟩ := ih (i + 1) _ g g' k2 (bounded_write hb hj' hw) (by omega) hrec
              refine ⟨?_, hb'⟩
              have : (if a = b then r + 1 else r) ≤ r + 1 := by split <;> omega
              omega

theorem bounded_alloc (n : Nat) : ∀ t w, IntArray.read (IntArray.alloc n) t = some w → w ≤ t := by
  intro t w h
  simp only [IntArray.read, IntArray.alloc, List.get?_eq_getElem?, List.getElem?_replicate] at h
  by_cases ht : t < n <;> simp [ht] at h

theorem buildFailureFunctionCost_fst (fuel : Nat) (p : CStr) (f : IntArray) (m : Nat) :
    (buildFailureFunctionCost fuel p f m).map (fun x => x.1) = buildFailureFunction fuel p f m := by
  rw [buildFailureFunctionCost, buildFailureFunction]
  cases IntArray.write f 0 0 with
  | none => rfl
  | some g =>
    simp only [Option.bind_eq_bind, Option.some_bind]
    exact buildLoopCost_fst fuel p _ _ _ _

theorem buildFailureFunctionCost_bound (fuel : Nat) (p : CStr) (m : Nat) (f' : IntArray) (k : Nat)
    (h : buildFailureFunctionCost fuel p (IntArray.alloc m) m = some (f', k)) :
    k ≤ m - 1 ∧ ∀ t w, IntArray.read f' t = some w → w ≤ t := by
  rw [buildFailureFunctionCost] at h
  cases hw : IntArray.write (IntArray.alloc m) 0 0 with
  | none => simp [hw] at h
  | some g =>
    simp only [hw, Option.bind_eq_bind, Option.some_bind] at h
    have := buildLoopCost_bound fuel p (m - 1) 1 0 g f' k
      (bounded_write (bounded_alloc m) (le_refl _) hw) (by omega) h
    exact ⟨by omega, this.2⟩

theorem searchLoopCost_fst (fuel : Nat) (text p : CStr) (f : IntArray) (m : Nat) :
    ∀ n i j c, (searchLoopCost fuel text p f m n i j c).map (fun x => x.1) =
      searchLoop fuel text p f m n i j c := by
  intro n
  induction n with
  | zero => intro i j c; rfl
  | succ n ih =>
    intro i j c
    rw [searchLoopCost, searchLoop, ← fallbackCost_fst]
    cases fallbackCost text i p f fuel j with
    | none => rfl
    | some w =>
      obtain ⟨r, k, x⟩ := w
      simp only [Option.map_some', Option.bind_eq_bind, Option.some_bind]
      cases charAt text i with
      | none => rfl
      | some a =>
        cases charAt p r with
        | none => rfl
        | some b =>
          simp only [Option.some_bind]
          by_cases hm : (if a = b then r + 1 else r) = m
          · rw [if_pos hm, if_pos hm]
            cases IntArray.read f ((if a = b then r + 1 else r) - 1) with
            | none => rfl
            | some j' =>
              simp only [Option.some_bind]
              rw [← ih (i + 1) j' (c + 1)]
              cases searchLoopCost fuel text p f m n (i + 1) j' (c + 1) <;> rfl
          · rw [if_neg hm, if_neg hm, ← ih (i + 1) _ c]
            cases searchLoopCost fuel text p f m n (i + 1) (if a = b then r + 1 else r) c <;> rfl

theorem pairwise_replicate_append (x i : Nat) (rest : List Nat)
    (hs : rest.Pairwise (fun a b => a ≤ b)) (hge : ∀ y ∈ rest, i + 1 ≤ y) :
    (List.replicate x i ++ rest).Pairwise (fun a b => a ≤ b) := by
  rw [List.pairwise_append]
  refine ⟨?_, hs, ?_⟩
  · rw [List.pairwise_replicate]
    exact Or.inr (le_refl _)
  · intro a ha b hb
    have := (List.mem_replicate.1 ha).2
    have := hge b hb
    omega

theorem searchLoopCost_bound (fuel : Nat) (text p : CStr) (f : IntArray) (m : Nat)
    (hb : ∀ t w, f.read t = some w → w ≤ t) :
    ∀ n i j c c' k reads, searchLoopCost fuel text p f m n i j c = some (c', k, reads) →
      k ≤ j + n ∧ reads.Pairwise (fun a b => a ≤ b) ∧ ∀ y ∈ reads, i ≤ y ∧ y < i + n := by
  intro n
  induction n with
  | zero =>
    intro i j c c' k reads h
    simp only [searchLoopCost, Option.some.injEq, Prod.mk.injEq] at h
    obtain ⟨_, h2, h3⟩ := h
    subst h2 h3
    exact ⟨by omega, List.Pairwise.nil, by simp⟩
  | succ n ih =>
    intro i j c c' k reads h
    rw [searchLoopCost] at h
    cases hfb : fallbackCost text i p f fuel j with
    | none => simp [hfb] at h
    | some w =>
      obtain ⟨r, k1, x⟩ := w
      have hrk := fallbackCost_bound text i p f hb fuel j r k1 x hfb
      simp only [hfb, Option.bind_eq_bind, Option.some_bind] at h
      cases ha : charAt text i with
      | none => simp [ha] at h
      | some a =>
        cases hpb : charAt p r with
        | none => simp [ha, hpb] at h
        | some b =>
          simp only [ha, hpb, Option.some_bind] at h
          have hj' : (if a = b then r + 1 else r) ≤ r + 1 := by split <;> omega
          have hfin : ∀ (j2 : Nat) (c2 : Int) (w2 : Int × Nat × List Nat), j2 ≤ r + 1 →
              searchLoopCost fuel text p f m n (i + 1) j2 c2 = some w2 →
              k = k1 + w2.2.1 → reads = List.replicate (x + 1) i ++ w2.2.2 →
              k ≤ j + (n + 1) ∧ reads.Pairwise (fun a b => a ≤ b) ∧
                ∀ y ∈ reads, i ≤ y ∧ y < i + (n + 1) := by
            intro j2 c2 w2 hj2 hrec hk hreads
            obtain ⟨c3, k2, reads2⟩ := w2
            obtain ⟨hk2, hs2, hm2⟩ := ih (i + 1) j2 c2 c3 k2 reads2 hrec
            subst hk hreads
            refine ⟨by simp only; omega, ?_, ?_⟩
            · exact pairwise_replicate_append _ _ _ hs2 (fun y hy => (hm2 y hy).1)
            · intro y hy
              rcases List.mem_append.1 hy with hy | hy
              · have := (List.mem_replicate.1 hy).2
                omega
              · have := hm2 y hy
                omega
          by_cases hm : (if a = b then r + 1 else r) = m
          · rw [if_pos hm] at h
            cases hr : IntArray.read f ((if a = b then r + 1 else r) - 1) with
            | none => simp [hr] at h
            | some j' =>
              simp only [hr, Option.some_bind] at h
              have hjb := hb _ j' hr
              cases hrec : searchLoopCost fuel text p f m n (i + 1) j' (c + 1) with
              | none => simp [hrec] at h
              | some w2 =>
                simp only [hrec, Option.some_bind, pure, Option.some.injEq, Prod.mk.injEq] at h
                exact hfin j' (c + 1) w2 (by omega) hrec h.2.1.symm h.2.2.symm
          · rw [if_neg hm] at h
            cases hrec : searchLoopCost fuel text p f m n (i + 1) (if a = b then r + 1 else r) c with
            | none => simp [hrec] at h
            | some w2 =>
              simp only [hrec, Option.some_bind, pure, Option.some.injEq, Prod.mk.injEq] at h
              exact hfin _ c w2 hj' hrec h.2.1.symm h.2.2.symm

theorem searchCost_fst (fuel : Nat) (text p : CStr) :
    (searchCost fuel text p).map (fun x => x.1) = search fuel text p := by
  rw [searchCost, search]
  simp only [strlen]
  by_cases h0 : p.length = 0
  · rw [if_pos h0, if_pos h0]
    rfl
  · rw [if_neg h0, if_neg h0]
    by_cases hlt : p.length > text.length
    · rw [if_pos hlt, if_pos hlt]
      rfl
    · rw [if_neg hlt, if_neg hlt, ← buildFailureFunctionCost_fst]
      cases buildFailureFunctionCost fuel p (IntArray.alloc p.length) p.length with
      | none => rfl
      | some w =>
        simp only [Option.map_some', Option.bind_eq_bind, Option.some_bind]
        rw [← searchLoopCost_fst]
        cases searchLoopCost fuel text p w.1 p.length text.length 0 0 0 <;> rfl

theorem searchCost_bound (fuel : Nat) (text p : CStr) (c : Int) (k : Nat) (reads : List Nat)
    (h : searchCost fuel text p = some (c, k, reads)) :
    k ≤ p.length + text.length ∧ reads.Pairwise (fun a b => a ≤ b) ∧
      ∀ y ∈ reads, y < text.length := by
  rw [searchCost] at h
  simp only [strlen] at h
  by_cases h0 : p.length = 0
  · rw [if_pos h0] at h
    simp only [Option.some.injEq, Prod.mk.injEq] at h
    obtain ⟨_, h2, h3⟩ := h
    subst h2 h3
    exact ⟨by omega, List.Pairwise.nil, by simp⟩
  · rw [if_neg h0] at h
    by_cases hlt : p.length > text.length
    · rw [if_pos hlt] at h
      simp only [Option.some.injEq, Prod.mk.injEq] at h
      obtain ⟨_, h2, h3⟩ := h
      subst h2 h3
      exact ⟨by omega, List.Pairwise.nil, by simp⟩
    · rw [if_neg hlt] at h
      cases hbuild : buildFailureFunctionCost fuel p (IntArray.alloc p.length) p.length with
      | none => simp [hbuild] at h
      | some w =>
        obtain ⟨f, k1⟩ := w
        obtain ⟨hk1, hbf⟩ := buildFailureFunctionCost_bound fuel p p.length f k1 hbuild
        simp only [hbuild, Option.bind_eq_bind, Option.some_bind] at h
        cases hscan : searchLoopCost fuel text p f p.length text.length 0 0 0 with
        | none => simp [hscan] at h
        | some w2 =>
          obtain ⟨c2, k2, reads2⟩ := w2
          obtain ⟨hk2, hs, hmem⟩ :=
            searchLoopCost_bound fuel text p f p.length hbf text.length 0 0 0 c2 k2 reads2 hscan
          simp only [hscan, Option.some_bind, pure, Option.some.injEq, Prod.mk.injEq] at h
          obtain ⟨_, h2, h3⟩ := h
          subst h2 h3
          refine ⟨by omega, hs, fun y hy => ?_⟩
          have := hmem y hy
          omega

/-- C20: one call of `KMP::search` (fuel no smaller than the pattern's length)
returns, and over the call the body of the inner fallback loops, that of
`buildFailureFunction` and that of the text scan taken together, runs at most
`|pattern| + |text|` times; the two outer loops run `|pattern| - 1` and `|text|`
times by their form. The indices at which the scan reads the text, taken in the
order of the reads, never decrease, and all lie inside the text. -/
theorem search_linear_cost (fuel : Nat) (text pattern : CStr) (hfuel : pattern.length ≤ fuel) :
    ∃ count iterations reads,
      searchCost fuel text pattern = some (count, iterations, reads) ∧
      search fuel text pattern = some count ∧
      iterations ≤ pattern.length + text.length ∧
      reads.Pairwise (fun a b => a ≤ b) ∧
      ∀ y ∈ reads, y < text.length := by
  have hret : ∃ c, search fuel text pattern = some c := by
    by_cases hp : pattern = []
    · subst hp
      exact ⟨0, by simp [search, strlen]⟩
    · exact ⟨_, search_spec fuel text pattern hp hfuel⟩
  obtain ⟨c, hc⟩ := hret
  have hfst := searchCost_fst fuel text pattern
  rw [hc] at hfst
  cases hcost : searchCost fuel text pattern with
  | none => simp [hcost] at hfst
  | some w =>
    obtain ⟨c', k, reads⟩ := w
    simp only [hcost, Option.map_some', Option.some.injEq] at hfst
    subst hfst
    obtain ⟨h1, h2, h3⟩ := searchCost_bound fuel text pattern c' k reads hcost
    exact ⟨c', k, reads, rfl, hc, h1, h2, h3⟩

/-- On the text "aabaabaaab" and the pattern "aabaaa" the inner loops run 3
times in all, and the scan reads the text at non-decreasing indices. -/
theorem search_linear_cost_witness :
    ([97, 97, 98, 97, 97, 97] : CStr).length ≤ 6 ∧
      (∃ count iterations reads,
        searchCost 6 [97, 97, 98, 97, 97, 98, 97, 97, 97, 98] [97, 97, 98, 97, 97, 97] =
          some (count, iterations, reads) ∧
        search 6 [97, 97, 98, 97, 97, 98, 97, 97, 97, 98] [97, 97, 98, 97, 97, 97] =
          some count ∧
        iterations ≤ 6 + 10 ∧
        reads.Pairwise (fun a b => a ≤ b) ∧
        ∀ y ∈ reads, y < 10) ∧
      (searchCost 6 [97, 97, 98, 97, 97, 98, 97, 97, 97, 98] [97, 97, 98, 97, 97, 97]).map
        (fun x => (x.1, x.2.1)) = some (1, 3) :=
  ⟨by decide,
    search_linear_cost 6 [97, 97, 98, 97, 97, 98, 97, 97, 97, 98] [97, 97, 98, 97, 97, 97]
      (by decide),
    by decide⟩

/-! ## The failure table, the hash, the frame of `insert` -/

/-- C21: for every non-empty pattern of length `m`, `buildFailureFunction` (fuel
no smaller than `m`, a fresh buffer of `m` cells) returns a buffer of `m`
written cells with `failure[0] = 0` and, for every `i < m`, `failure[i]` the
largest `k ≤ i` (a proper prefix length of `pattern[0..i]`) such that the
prefix of length `k` of `pattern[0..i]` is also a suffix of `pattern[0..i]`. -/
theorem buildFailureFunction_longest_border (fuel : Nat) (pattern : CStr) (hp : pattern ≠ [])
    (hfuel : pattern.length ≤ fuel) :
    ∃ failure,
      buildFailureFunction fuel pattern (IntArray.alloc pattern.length) pattern.length =
        some failure ∧
      List.length failure = pattern.length ∧
      IntArray.read failure 0 = some 0 ∧
      ∀ i, i < pattern.length → ∃ v, IntArray.read failure i = some v ∧
        v ≤ i ∧
        (pattern.take (i + 1)).take v <+: pattern.take (i + 1) ∧
        (pattern.take (i + 1)).take v <:+ pattern.take (i + 1) ∧
        ∀ k, k ≤ i → (pattern.take (i + 1)).take k <:+ pattern.take (i + 1) → k ≤ v := by
  obtain ⟨f, hf, hlen, hok⟩ := buildFailureFunction_spec pattern fuel hp hfuel
  have htt : ∀ i k, k ≤ i → (pattern.take (i + 1)).take k = pattern.take k := by
    intro i k hk
    rw [List.take_take, Nat.min_eq_left (by omega)]
  have hall : ∀ i, i < pattern.length → ∃ v, IntArray.read f i = some v ∧
      v ≤ i ∧
      (pattern.take (i + 1)).take v <+: pattern.take (i + 1) ∧
      (pattern.take (i + 1)).take v <:+ pattern.take (i + 1) ∧
      ∀ k, k ≤ i → (pattern.take (i + 1)).take k <:+ pattern.take (i + 1) → k ≤ v := by
    intro i hi
    obtain ⟨v, hv, ⟨hvi, hvb⟩, hmax⟩ := hok i hi
    refine ⟨v, hv, hvi, List.take_prefix _ _, ?_, ?_⟩
    · rw [htt i v hvi]
      exact hvb.2
    · intro k hk hsuf
      rw [htt i k hk] at hsuf
      exact hmax k ⟨hk, by omega, hsuf⟩
  refine ⟨f, hf, hlen, ?_, hall⟩
  obtain ⟨v, hv, hv0, _⟩ := hall 0 (List.length_pos.2 hp)
  have : v = 0 := by omega
  rw [hv, this]

/-- The pattern "abab": the table is 0, 0, 1, 2. -/
theorem buildFailureFunction_longest_border_witness :
    ([97, 98, 97, 98] : CStr) ≠ [] ∧
      buildFailureFunction 4 [97, 98, 97, 98] (IntArray.alloc 4) 4 =
        some [some 0, some 0, some 1, some 2] ∧
      ∃ failure,
        buildFailureFunction 4 [97, 98, 97, 98] (IntArray.alloc 4) 4 = some failure ∧
        IntArray.read failure 0 = some 0 :=
  ⟨by decide, by decide, by
    obtain ⟨f, h1, _, h3, _⟩ :=
      buildFailureFunction_longest_border 4 [97, 98, 97, 98] (by decide) (by decide)
    exact ⟨f, h1, h3⟩⟩

theorem hashLoop_eq_foldl (key : CStr) (hb : ∀ c ∈ key, 1 ≤ c ∧ c ≤ 127) :
    ∀ h, hashLoop h key = key.foldl (fun h c => (33 * h + c.toNat) % 2 ^ 64) h := by
  induction key with
  | nil => intro h; rfl
  | cons c rest ih =>
    intro h
    have hc := hb c (List.mem_cons_self _ _)
    have hmod : (c % 2 ^ 64).toNat = c.toNat := by
      rw [Int.emod_eq_of_lt (by omega) (by norm_num; omega)]
    rw [hashLoop, List.foldl_cons, hmod, ih (fun x hx => hb x (List.mem_cons_of_mem _ hx))]
    congr 1
    norm_num
    omega

/-- C23: for every key made of bytes 1..127, `hashFunction(key)` is `h mod 101`
where `h` starts at 5381 and becomes `(33 * h + c) mod 2^64` for each byte `c`
in order; the bucket index returned lies in 0..100. -/
theorem hashFunction_is_djb2_mod_101 (key : CStr) (hb : ∀ c ∈ key, 1 ≤ c ∧ c ≤ 127) :
    hashFunction key = djb2 key % 101 ∧ hashFunction key ≤ 100 := by
  refine ⟨?_, ?_⟩
  · rw [hashFunction, djb2, hashLoop_eq_foldl key hb]
    rfl
  · have := hashFunction_lt key
    simp only [TABLE_SIZE] at this
    omega

/-- The key "a": `(33 * 5381 + 97) mod 101 = 11`. -/
theorem hashFunction_is_djb2_mod_101_witness :
    (∀ c ∈ ([97] : CStr), 1 ≤ c ∧ c ≤ 127) ∧ hashFunction [97] = djb2 [97] % 101 ∧
      hashFunction [97] = 11 :=
  ⟨by decide, (hashFunction_is_djb2_mod_101 [97] (by decide)).1, by decide⟩

theorem KMP_fallback_eq (src : CStr) (i : Nat) (p : CStr) (f : IntArray) :
    ∀ fuel j, KMP_fallback src i p f fuel j = fallback src i p f fuel j := by
  intro fuel
  induction fuel with
  | zero => intro j; rfl
  | succ fuel ih =>
    intro j
    rw [KMP_fallback, fallback]
    simp only [ih]

theorem KMP_buildLoop_eq (fuel : Nat) (p : CStr) :
    ∀ n i j f, KMP_buildLoop fuel p n i j f = buildLoop fuel p n i j f := by
  intro n
  induction n with
  | zero => intro i j f; rfl
  | succ n ih =>
    intro i j f
    rw [KMP_buildLoop, buildLoop]
    simp only [ih, KMP_fallback_eq]

theorem KMP_buildFailureFunction_eq (fuel : Nat) (p : CStr) (f : IntArray) (m : Nat) :
    KMP_buildFailureFunction fuel p f m = buildFailureFunction fuel p f m := by
  rw [KMP_buildFailureFunction, buildFailureFunction]
  simp only [KMP_buildLoop_eq]

theorem KMP_searchLoop_eq (fuel : Nat) (text p : CStr) (f : IntArray) (m : Nat) :
    ∀ n i j c, KMP_searchLoop fuel text p f m n i j c = searchLoop fuel text p f m n i j c := by
  intro n
  induction n with
  | zero => intro i j c; rfl
  | succ n ih =>
    intro i j c
    rw [KMP_searchLoop, searchLoop]
    simp only [ih, KMP_fallback_eq]

theorem KMP_search_eq (fuel : Nat) (text p : CStr) :
    KMP_search fuel text p = search fuel text p := by
  rw [KMP_search, search]
  simp only [KMP_buildFailureFunction_eq, KMP_searchLoop_eq]
  by_cases h0 : strlen p = 0
  · rw [if_pos (Or.inl h0), if_pos h0]
  · by_cases hlt : strlen p > strlen text
    · rw [if_pos (Or.inr hlt), if_neg h0, if_pos hlt]
    · rw [if_neg (by rintro (h | h); exact h0 h; exact hlt h), if_neg h0, if_neg hlt]

theorem KMP_searchCaseInsensitive_eq (fuel : Nat) (text p : CStr) :
    KMP_searchCaseInsensitive fuel text p = searchCaseInsensitive fuel text p := by
  rw [KMP_searchCaseInsensitive, searchCaseInsensitive]
  simp only [KMP_search_eq]
  by_cases h0 : strlen p = 0
  · rw [if_pos (Or.inl h0), if_pos h0]
  · by_cases hlt : strlen p > strlen text
    · rw [if_pos (Or.inr hlt), if_neg h0, if_pos hlt]
    · rw [if_neg (by rintro (h | h); exact h0 h; exact hlt h), if_neg h0, if_neg hlt]

theorem HashTable_hashLoop_eq (key : CStr) :
    ∀ h, HashTable_hashLoop h key = hashLoop h key := by
  induction key with
  | nil => intro h; rfl
  | cons c rest ih =>
    intro h
    rw [HashTable_hashLoop, hashLoop, ih]

theorem HashTable_hashFunction_eq (key : CStr) : HashTable_hashFunction key = hashFunction key := by
  rw [HashTable_hashFunction, hashFunction, HashTable_hashLoop_eq]

theorem HashTable_insertWalk_eq (key : CStr) (c : List HashNode) :
    HashTable_insertWalk key c = bumpChain key c := by
  induction c with
  | nil => rfl
  | cons n rest ih => rw [HashTable_insertWalk, bumpChain, ih]

theorem HashTable_insert_eq (t : HashTable) (key : CStr) :
    HashTable_insert t key = t.insert key := by
  unfold HashTable_insert HashTable.insert
  simp only [HashTable_hashFunction_eq, HashTable_insertWalk_eq]

theorem LogAnalyzer_isErrorLevel_ne_zero (level : CStr) :
    LogAnalyzer_isErrorLevel level ≠ 0 ↔ isErrorLevel level = true := by
  rw [isErrorLevel_iff]
  unfold LogAnalyzer_isErrorLevel
  simp only [strcmp_eq_zero_iff]
  by_cases h : level = ERROR_UPPER ∨ level = ERROR_LOWER
  · rw [if_pos h]
    exact iff_of_true (by decide) h
  · rw [if_neg h]
    exact iff_of_false (by decide) h

theorem LogAnalyzer_addLog_eq (a : LogAnalyzer) (ts level msg : CStr) :
    LogAnalyzer_addLog a ts level msg = a.addLog ts level msg := by
  unfold LogAnalyzer_addLog LogAnalyzer.addLog
  by_cases h : isErrorLevel level = true
  · rw [if_pos ((LogAnalyzer_isErrorLevel_ne_zero level).2 h), if_pos h, HashTable_insert_eq]
    rfl
  · rw [if_neg (fun h' => h ((LogAnalyzer_isErrorLevel_ne_zero level).1 h')), if_neg h]
    rfl

theorem LogAnalyzer_run_eq (ops : List AnalyzerOp) : LogAnalyzer_run ops = LogAnalyzer.run ops := by
  unfold LogAnalyzer_run LogAnalyzer.run
  have happ : LogAnalyzer_apply = LogAnalyzer.apply := by
    funext a op
    cases op with
    | addLog ts level msg => exact LogAnalyzer_addLog_eq a ts level msg
    | clearAll => rfl
  rw [happ]
  rfl

theorem LogAnalyzer_searchKeywordLoop_eq (fuel : Nat) (keyword : CStr) (flag : Int) (cs : Bool)
    (hflag : flag ≠ 0 ↔ cs = true) (l : List LogEntry) :
    ∀ acc, LogAnalyzer_searchKeywordLoop fuel keyword flag l acc =
      searchKeywordLoop fuel keyword cs l acc := by
  induction l with
  | nil => intro acc; rfl
  | cons r rest ih =>
    intro acc
    rw [LogAnalyzer_searchKeywordLoop, searchKeywordLoop]
    simp only [ih, KMP_search_eq, KMP_searchCaseInsensitive_eq]
    by_cases h : cs = true
    · rw [if_pos (hflag.2 h), if_pos h]
    · rw [if_neg (fun h' => h (hflag.1 h')), if_neg h]

theorem LogAnalyzer_searchKeyword_eq (fuel : Nat) (a : LogAnalyzer) (keyword : Option CStr)
    (flag : Int) (cs : Bool) (hflag : flag ≠ 0 ↔ cs = true) :
    LogAnalyzer_searchKeyword fuel a keyword flag = a.searchKeyword fuel keyword cs := by
  unfold LogAnalyzer_searchKeyword LogAnalyzer.searchKeyword
  cases keyword with
  | none => rfl
  | some kw =>
    simp only [LogAnalyzer_searchKeywordLoop_eq fuel kw flag cs hflag, LogList.getHead]

/-- C25: for every sequence of `addLog` and `clearAll` calls, the C
implementation run from `LogAnalyzer_create()` and the C++ `LogAnalyzer` run
from its constructor give the same `getTotalLogs` and the same `getErrorCount`,
and the same `searchKeyword` result for every keyword (null included), every
fuel and every case flag (the C `int` flag being non-zero exactly when the C++
`bool` is true); with fuel no smaller than the keyword's length that result is
a returned value. -/
theorem c_implementation_agrees (ops : List AnalyzerOp) :
    LogAnalyzer_getTotalLogs (LogAnalyzer_run ops) = (LogAnalyzer.run ops).getTotalLogs ∧
    LogAnalyzer_getErrorCount (LogAnalyzer_run ops) = (LogAnalyzer.run ops).getErrorCount ∧
    (∀ (fuel : Nat) (keyword : Option CStr) (flag : Int) (cs : Bool), (flag ≠ 0 ↔ cs = true) →
      LogAnalyzer_searchKeyword fuel (LogAnalyzer_run ops) keyword flag =
        (LogAnalyzer.run ops).searchKeyword fuel keyword cs) ∧
    (∀ (fuel : Nat) (keyword : Option CStr) (flag : Int), (keyword.getD []).length ≤ fuel →
      ∃ n, LogAnalyzer_searchKeyword fuel (LogAnalyzer_run ops) keyword flag = some n) := by
  rw [LogAnalyzer_run_eq]
  refine ⟨rfl, rfl, ?_, ?_⟩
  · intro fuel keyword flag cs hflag
    exact LogAnalyzer_searchKeyword_eq fuel _ keyword flag cs hflag
  · intro fuel keyword flag hfuel
    rw [LogAnalyzer_searchKeyword_eq fuel _ keyword flag (decide (flag ≠ 0)) (by simp)]
    cases keyword with
    | none => exact ⟨0, rfl⟩
    | some kw =>
      by_cases hk : kw = []
      · subst hk
        exact ⟨0, rfl⟩
      · exact ⟨_, searchKeyword_total fuel _ kw _ hk (by simpa using hfuel)⟩

/-- One "ERROR" record "aaa", a `clearAll`, then the records "aaa" ("error")
and "b" ("INFO"): both implementations report 2 logs, 1 distinct error, and 2
occurrences of "aa". -/
theorem c_implementation_agrees_witness :
    LogAnalyzer_getTotalLogs (LogAnalyzer_run [.addLog [] ERROR_UPPER STR_AAA, .clearAll,
        .addLog [] ERROR_LOWER STR_AAA, .addLog [] STR_INFO [98]]) = 2 ∧
      LogAnalyzer_getErrorCount (LogAnalyzer_run [.addLog [] ERROR_UPPER STR_AAA, .clearAll,
        .addLog [] ERROR_LOWER STR_AAA, .addLog [] STR_INFO [98]]) = 1 ∧
      LogAnalyzer_searchKeyword 2 (LogAnalyzer_run [.addLog [] ERROR_UPPER STR_AAA, .clearAll,
        .addLog [] ERROR_LOWER STR_AAA, .addLog [] STR_INFO [98]]) (some STR_AA) 1 = some 2 :=
  ⟨(c_implementation_agrees _).1.trans (by decide),
    (c_implementation_agrees _).2.1.trans (by decide),
    ((c_implementation_agrees _).2.2.1 2 (some STR_AA) 1 true (by decide)).trans (by decide)⟩

theorem foldl_addLog_head (rows : List LogEntry) :
    ∀ a : LogAnalyzer,
      (rows.foldl (fun a r => a.addLog r.timestamp r.log_level r.message) a).logList.head =
        rows.reverse ++ a.logList.head := by
  induction rows with
  | nil => intro a; rfl
  | cons r rest ih =>
    intro a
    rw [List.foldl_cons, ih, addLog_logList]
    cases r
    simp [LogList.addEntry]

theorem foldl_LogAnalyzer_addLog_head (rows : List LogEntry) :
    ∀ a : LogAnalyzer,
      (rows.foldl (fun a r => LogAnalyzer_addLog a r.timestamp r.log_level r.message)
        a).logList.head = rows.reverse ++ a.logList.head := by
  intro a
  have : (fun (a : LogAnalyzer) (r : LogEntry) =>
      LogAnalyzer_addLog a r.timestamp r.log_level r.message) =
      (fun a r => a.addLog r.timestamp r.log_level r.message) := by
    funext a r
    exact LogAnalyzer_addLog_eq a _ _ _
  rw [this]
  exact foldl_addLog_head rows a

/-- C26, which the C code breaks: from every prior state the store after
`LogAnalyzer::loadSampleData` holds the fifteen records of the C++ calls (last
added first) and the store after `LogAnalyzer_loadSampleData` the fifteen of the
C calls; the two sequences agree in fourteen records, but the message of the
ninth is "Disk space below 10%" in the C++ code and "Disk space below 10%%",
with two percent signs, in the C code, so the two stores differ. -/
theorem loadSampleData_ninth_message_differs :
    (∀ a : LogAnalyzer, (a.loadSampleData).logList.getHead = sampleCalls.reverse) ∧
    (∀ a : LogAnalyzer,
      (LogAnalyzer_loadSampleData a).logList.getHead = LogAnalyzer_sampleCalls.reverse) ∧
    sampleCalls.length = 15 ∧ LogAnalyzer_sampleCalls.length = 15 ∧
    (sampleCalls.get? 8).map LogEntry.message =
      some [68, 105, 115, 107, 32, 115, 112, 97, 99, 101, 32, 98, 101, 108, 111, 119, 32, 49, 48, 37] ∧
    (LogAnalyzer_sampleCalls.get? 8).map LogEntry.message =
      some [68, 105, 115, 107, 32, 115, 112, 97, 99, 101, 32, 98, 101, 108, 111, 119, 32, 49, 48, 37, 37] ∧
    sampleCalls.eraseIdx 8 = LogAnalyzer_sampleCalls.eraseIdx 8 ∧
    (LogAnalyzer_loadSampleData LogAnalyzer_create).logList.getHead.map LogEntry.message ≠
      (LogAnalyzer.empty.loadSampleData).logList.getHead.map LogEntry.message := by
  have h1 : ∀ a : LogAnalyzer, (a.loadSampleData).logList.getHead = sampleCalls.reverse := by
    intro a
    rw [LogList.getHead, LogAnalyzer.loadSampleData, foldl_addLog_head]
    exact List.append_nil _
  have h2 : ∀ a : LogAnalyzer,
      (LogAnalyzer_loadSampleData a).logList.getHead = LogAnalyzer_sampleCalls.reverse := by
    intro a
    rw [LogList.getHead, LogAnalyzer_loadSampleData, foldl_LogAnalyzer_addLog_head]
    exact List.append_nil _
  refine ⟨h1, h2, by decide, by decide, by decide, by decide, by decide, ?_⟩
  rw [h1, h2]
  decide

/-! ## The matcher stays inside its arrays -/

theorem fallbackTrace_fst (sa : Access) (src : CStr) (i : Nat) (p : CStr) (f : IntArray) :
    ∀ fuel j, (fallbackTrace sa src i p f fuel j).map (fun x => x.1) =
      fallback src i p f fuel j := by
  intro fuel
  induction fuel with
  | zero => intro j; rfl
  | succ fuel ih =>
    intro j
    rw [fallbackTrace, fallback]
    by_cases hj : j > 0
    · rw [if_pos hj, if_pos hj]
      cases charAt src i with
      | none => rfl
      | some a =>
        cases charAt p j with
        | none => rfl
        | some b =>
          simp only [Option.bind_eq_bind, Option.some_bind]
          by_cases hab : a ≠ b
          · rw [if_pos hab, if_pos hab]
            cases f.read (j - 1) with
            | none => rfl
            | some j' =>
              simp only [Option.some_bind]
              rw [← ih j']
              cases fallbackTrace sa src i p f fuel j' <;> rfl
          · rw [if_neg hab, if_neg hab]
            rfl
    · rw [if_neg hj, if_neg hj]
      rfl

theorem fallbackTrace_inRange (sa : Access) (src : CStr) (i : Nat) (p : CStr) (f : IntArray)
    (n m : Nat) (hsa : sa.inRange n m) (hb : ∀ t v, f.read t = some v → v ≤ t) :
    ∀ fuel j r tr, j < m → fallbackTrace sa src i p f fuel j = some (r, tr) →
      r ≤ j ∧ ∀ a ∈ tr, a.inRange n m := by
  intro fuel
  induction fuel with
  | zero =>
    intro j r tr _ h
    simp [fallbackTrace] at h
  | succ fuel ih =>
    intro j r tr hjm h
    rw [fallbackTrace] at h
    by_cases hj : j > 0
    · rw [if_pos hj] at h
      cases ha : charAt src i with
      | none => simp [ha] at h
      | some a =>
        cases hpb : charAt p j with
        | none => simp [ha, hpb] at h
        | some b =>
          simp only [ha, hpb, Option.bind_eq_bind, Option.some_bind] at h
          by_cases hab : a ≠ b
          · rw [if_pos hab] at h
            cases hr : f.read (j - 1) with
            | none => simp [hr] at h
            | some j' =>
              simp only [hr, Option.some_bind] at h
              have hj' := hb (j - 1) j' hr
              cases hrec : fallbackTrace sa src i p f fuel j' with
              | none => simp [hrec] at h
              | some w =>
                obtain ⟨r', tr'⟩ := w
                simp only [hrec, Option.some_bind, pure, Option.some.injEq, Prod.mk.injEq] at h
                obtain ⟨h1, h2⟩ := h
                obtain ⟨hr', htr'⟩ := ih j' r' tr' (by omega) hrec
                subst h1 h2
                refine ⟨by omega, ?_⟩
                intro x hx
                simp only [List.cons_append, List.nil_append, List.mem_cons] at hx
                rcases hx with rfl | rfl | rfl | hx
                · exact hsa
                · exact hjm
                · show j - 1 < m
                  omega
                · exact htr' x hx
          · rw [if_neg hab] at h
            simp only [pure, Option.some.injEq, Prod.mk.injEq] at h
            obtain ⟨h1, h2⟩ := h
            subst h1 h2
            refine ⟨le_refl _, ?_⟩
            intro x hx
            simp only [List.mem_cons, List.mem_singleton, List.not_mem_nil, or_false] at hx
            rcases hx with rfl | rfl
            · exact hsa
            · exact hjm
    · rw [if_neg hj] at h
      simp only [pure, Option.some.injEq, Prod.mk.injEq] at h
      obtain ⟨h1, h2⟩ := h
      subst h1 h2
      exact ⟨le_refl _, by simp⟩

theorem buildLoopTrace_fst (fuel : Nat) (p : CStr) :
    ∀ n i j f, (buildLoopTrace fuel p n i j f).map (fun x => x.1) = buildLoop fuel p n i j f := by
  intro n
  induction n with
  | zero => intro i j f; rfl
  | succ n ih =>
    intro i j f
    rw [buildLoopTrace, buildLoop, ← fallbackTrace_fst (Access.pattern i)]
    cases fallbackTrace (Access.pattern i) p i p f fuel j with
    | none => rfl
    | some w =>
      obtain ⟨r, tr⟩ := w
      simp only [Option.map_some', Option.bind_eq_bind, Option.some_bind]
      cases charAt p i with
      | none => rfl
      | some a =>
        cases charAt p r with
        | none => rfl
        | some b =>
          simp only [Option.some_bind]
          cases IntArray.write f i (if a = b then r + 1 else r) with
          | none => rfl
          | some f' =>
            simp only [Option.some_bind]
            rw [← ih (i + 1) _ f']
            cases buildLoopTrace fuel p n (i + 1) (if a = b then r + 1 else r) f' <;> rfl

theorem buildLoopTrace_inRange (fuel : Nat) (p : CStr) (tn m : Nat) :
    ∀ n i j f f' tr, (∀ t w, IntArray.read f t = some w → w ≤ t) → j < i → i + n = m →
      buildLoopTrace fuel p n i j f = some (f', tr) →
      (∀ a ∈ tr, a.inRange tn m) ∧ ∀ t w, IntArray.read f' t = some w → w ≤ t := by
  intro n
  induction n with
  | zero =>
    intro i j f f' tr hb _ _ h
    simp only [buildLoopTrace, Option.some.injEq, Prod.mk.injEq] at h
    obtain ⟨h1, h2⟩ := h
    subst h1 h2
    exact ⟨by simp, hb⟩
  | succ n ih =>
    intro i j f f' tr hb hji him h
    rw [buildLoopTrace] at h
    cases hfb : fallbackTrace (Access.pattern i) p i p f fuel j with
    | none => simp [hfb] at h
    | some w =>
      obtain ⟨r, tr1⟩ := w
      obtain ⟨hrj, htr1⟩ := fallbackTrace_inRange (Access.pattern i) p i p f tn m
        (show i < m by omega) hb fuel j r tr1 (by omega) hfb
      simp only [hfb, Option.bind_eq_bind, Option.some_bind] at h
      cases ha : charAt p i with
      | none => simp [ha] at h
      | some a =>
        cases hpb : charAt p r with
        | none => simp [ha, hpb] at h
        | some b =>
          simp only [ha, hpb, Option.some_bind] at h
          have hj' : (if a = b then r + 1 else r) ≤ i := by split <;> omega
          cases hw : IntArray.write f i (if a = b then r + 1 else r) with
          | none => simp [hw] at h
          | some g =>
            simp only [hw, Option.some_bind] at h
            cases hrec : buildLoopTrace fuel p n (i + 1) (if a = b then r + 1 else r) g with
            | none => simp [hrec] at h
            | some w2 =>
              obtain ⟨g', tr2⟩ := w2
              simp only [hrec, Option.some_bind, pure, Option.some.injEq, Prod.mk.injEq] at h
              obtain ⟨h1, h2⟩ := h
              subst h1 h2
              obtain ⟨htr2, hb'⟩ := ih (i + 1) _ g g' tr2 (bounded_write hb hj' hw) (by omega)
                (by omega) hrec
              refine ⟨?_, hb'⟩
              intro x hx
              simp only [List.append_assoc, List.cons_append, List.nil_append, List.mem_append,
                List.mem_cons] at hx
              rcases hx with hx | rfl | rfl | rfl | hx
              · exact htr1 x hx
              · show i < m
                omega
              · show r < m
                omega
              · show i < m
                omega
              · exact htr2 x hx

theorem buildFailureFunctionTrace_fst (fuel : Nat) (p : CStr) (f : IntArray) (m : Nat) :
    (buildFailureFunctionTrace fuel p f m).map (fun x => x.1) =
      buildFailureFunction fuel p f m := by
  rw [buildFailureFunctionTrace, buildFailureFunction]
  cases IntArray.write f 0 0 with
  | none => rfl
  | some g =>
    simp only [Option.bind_eq_bind, Option.some_bind]
    rw [← buildLoopTrace_fst]
    cases buildLoopTrace fuel p (m - 1) 1 0 g <;> rfl

theorem buildFailureFunctionTrace_inRange (fuel : Nat) (p : CStr) (tn m : Nat) (hm : 0 < m)
    (f' : IntArray) (tr : List Access)
    (h : buildFailureFunctionTrace fuel p (IntArray.alloc m) m = some (f', tr)) :
    (∀ a ∈ tr, a.inRange tn m) ∧ ∀ t w, IntArray.read f' t = some w → w ≤ t := by
  rw [buildFailureFunctionTrace] at h
  cases hw : IntArray.write (IntArray.alloc m) 0 0 with
  | none => simp [hw] at h
  | some g =>
    simp only [hw, Option.bind_eq_bind, Option.some_bind] at h
    cases hrec : buildLoopTrace fuel p (m - 1) 1 0 g with
    | none => simp [hrec] at h
    | some w2 =>
      obtain ⟨g', tr2⟩ := w2
      simp only [hrec, Option.some_bind, pure, Option.some.injEq, Prod.mk.injEq] at h
      obtain ⟨h1, h2⟩ := h
      subst h1 h2
      obtain ⟨htr2, hb'⟩ := buildLoopTrace_inRange fuel p tn m (m - 1) 1 0 g g' tr2
        (bounded_write (bounded_alloc m) (le_refl _) hw) (by omega) (by omega) hrec
      refine ⟨?_, hb'⟩
      intro x hx
      rcases List.mem_cons.1 hx with rfl | hx
      · exact hm
      · exact htr2 x hx

theorem searchLoopTrace_fst (fuel : Nat) (text p : CStr) (f : IntArray) (m : Nat) :
    ∀ n i j c, (searchLoopTrace fuel text p f m n i j c).map (fun x => x.1) =
      searchLoop fuel text p f m n i j c := by
  intro n
  induction n with
  | zero => intro i j c; rfl
  | succ n ih =>
    intro i j c
    rw [searchLoopTrace, searchLoop, ← fallbackTrace_fst (Access.text i)]
    cases fallbackTrace (Access.text i) text i p f fuel j with
    | none => rfl
    | some w =>
      obtain ⟨r, tr⟩ := w
      simp only [Option.map_some', Option.bind_eq_bind, Option.some_bind]
      cases charAt text i with
      | none => rfl
      | some a =>
        cases charAt p r with
        | none => rfl
        | some b =>
          simp only [Option.some_bind]
          by_cases hm : (if a = b then r + 1 else r) = m
          · rw [if_pos hm, if_pos hm]
            cases IntArray.read f ((if a = b then r + 1 else r) - 1) with
            | none => rfl
            | some j' =>
              simp only [Option.some_bind]
              rw [← ih (i + 1) j' (c + 1)]
              cases searchLoopTrace fuel text p f m n (i + 1) j' (c + 1) <;> rfl
          · rw [if_neg hm, if_neg hm, ← ih (i + 1) _ c]
            cases searchLoopTrace fuel text p f m n (i + 1) (if a = b then r + 1 else r) c <;> rfl

theorem searchLoopTrace_inRange (fuel : Nat) (text p : CStr) (f : IntArray) (tn m : Nat)
    (hb : ∀ t w, f.read t = some w → w ≤ t) :
    ∀ n i j c c' tr, j < m → i + n = tn →
      searchLoopTrace fuel text p f m n i j c = some (c', tr) →
      ∀ a ∈ tr, a.inRange tn m := by
  intro n
  induction n with
  | zero =>
    intro i j c c' tr _ _ h
    simp only [searchLoopTrace, Option.some.injEq, Prod.mk.injEq] at h
    obtain ⟨_, h2⟩ := h
    subst h2
    simp
  | succ n ih =>
    intro i j c c' tr hjm hin h
    rw [searchLoopTrace] at h
    cases hfb : fallbackTrace (Access.text i) text i p f fuel j with
    | none => simp [hfb] at h
    | some w =>
      obtain ⟨r, tr1⟩ := w
      obtain ⟨hrj, htr1⟩ := fallbackTrace_inRange (Access.text i) text i p f tn m
        (show i < tn by omega) hb fuel j r tr1 hjm hfb
      simp only [hfb, Option.bind_eq_bind, Option.some_bind] at h
      cases ha : charAt text i with
      | none => simp [ha] at h
      | some a =>
        cases hpb : charAt p r with
        | none => simp [ha, hpb] at h
        | some b =>
          simp only [ha, hpb, Option.some_bind] at h
          have hj' : (if a = b then r + 1 else r) ≤ r + 1 := by split <;> omega
          by_cases hm : (if a = b then r + 1 else r) = m
          · rw [if_pos hm] at h
            cases hr : IntArray.read f ((if a = b then r + 1 else r) - 1) with
            | none => simp [hr] at h
            | some j' =>
              simp only [hr, Option.some_bind] at h
              have hjb := hb _ j' hr
              cases hrec : searchLoopTrace fuel text p f m n (i + 1) j' (c + 1) with
              | none => simp [hrec] at h
              | some w2 =>
                obtain ⟨c2, tr2⟩ := w2
                simp only [hrec, Option.some_bind, pure, Option.some.injEq, Prod.mk.injEq] at h
                obtain ⟨_, h2⟩ := h
                subst h2
                have htr2 := ih (i + 1) j' (c + 1) c2 tr2 (by omega) (by omega) hrec
                intro x hx
                simp only [List.append_assoc, List.cons_append, List.nil_append,
                  List.mem_append, List.mem_cons] at hx
                rcases hx with hx | rfl | rfl | rfl | hx
                · exact htr1 x hx
                · show i < tn
                  omega
                · show r < m
                  omega
                · show (if a = b then r + 1 else r) - 1 < m
                  omega
                · exact htr2 x hx
          · rw [if_neg hm] at h
            cases hrec : searchLoopTrace fuel text p f m n (i + 1)
                (if a = b then r + 1 else r) c with
            | none => simp [hrec] at h
            | some w2 =>
              obtain ⟨c2, tr2⟩ := w2
              simp only [hrec, Option.some_bind, pure, Option.some.injEq, Prod.mk.injEq] at h
              obtain ⟨_, h2⟩ := h
              subst h2
              have htr2 := ih (i + 1) _ c c2 tr2 (by omega) (by omega) hrec
              intro x hx
              simp only [List.append_assoc, List.cons_append, List.nil_append,
                List.mem_append, List.mem_cons] at hx
              rcases hx with hx | rfl | rfl | hx
              · exact htr1 x hx
              · show i < tn
                omega
              · show r < m
                omega
              · exact htr2 x hx

theorem searchTrace_fst (fuel : Nat) (text p : CStr) :
    (searchTrace fuel text p).map (fun x => x.1) = search fuel text p := by
  rw [searchTrace, search]
  simp only [strlen]
  by_cases h0 : p.length = 0
  · rw [if_pos h0, if_pos h0]
    rfl
  · rw [if_neg h0, if_neg h0]
    by_cases hlt : p.length > text.length
    · rw [if_pos hlt, if_pos hlt]
      rfl
    · rw [if_neg hlt, if_neg hlt, ← buildFailureFunctionTrace_fst]
      cases buildFailureFunctionTrace fuel p (IntArray.alloc p.length) p.length with
      | none => rfl
      | some w =>
        simp only [Option.map_some', Option.bind_eq_bind, Option.some_bind]
        rw [← searchLoopTrace_fst]
        cases searchLoopTrace fuel text p w.1 p.length text.length 0 0 0 <;> rfl

theorem searchTrace_inRange (fuel : Nat) (text p : CStr) (c : Int) (tr : List Access)
    (h : searchTrace fuel text p = some (c, tr)) :
    ∀ a ∈ tr, a.inRange text.length p.length := by
  rw [searchTrace] at h
  simp only [strlen] at h
  by_cases h0 : p.length = 0
  · rw [if_pos h0] at h
    simp only [Option.some.injEq, Prod.mk.injEq] at h
    obtain ⟨_, h2⟩ := h
    subst h2
    simp
  · rw [if_neg h0] at h
    by_cases hlt : p.length > text.length
    · rw [if_pos hlt] at h
      simp only [Option.some.injEq, Prod.mk.injEq] at h
      obtain ⟨_, h2⟩ := h
      subst h2
      simp
    · rw [if_neg hlt] at h
      cases hbuild : buildFailureFunctionTrace fuel p (IntArray.alloc p.length) p.length with
      | none => simp [hbuild] at h
      | some w =>
        obtain ⟨f, tr1⟩ := w
        obtain ⟨htr1, hbf⟩ := buildFailureFunctionTrace_inRange fuel p text.length p.length
          (by omega) f tr1 hbuild
        simp only [hbuild, Option.bind_eq_bind, Option.some_bind] at h
        cases hscan : searchLoopTrace fuel text p f p.length text.length 0 0 0 with
        | none => simp [hscan] at h
        | some w2 =>
          obtain ⟨c2, tr2⟩ := w2
          have htr2 := searchLoopTrace_inRange fuel text p f text.length p.length hbf
            text.length 0 0 0 c2 tr2 (by omega) (by omega) hscan
          simp only [hscan, Option.some_bind, pure, Option.some.injEq, Prod.mk.injEq] at h
          obtain ⟨_, h2⟩ := h
          subst h2
          intro x hx
          rcases List.mem_append.1 hx with hx | hx
          · exact htr1 x hx
          · exact htr2 x hx

/-- C22: for every text and every non-empty pattern of length `m` (`m ≤ |text|`
or not), `KMP::search` (fuel no smaller than `m`) returns, and every array access it
makes is in range: each read of `text[i]` has `i < |text|`, each read of
`pattern[j]` has `j < m`, each read or write of `failure[k]` has `k < m`. The
table it builds has `failure[i] ≤ i` in every cell, so that each fallback
`j = failure[j - 1]` makes `j` smaller. -/
theorem search_stays_in_range (fuel : Nat) (text pattern : CStr) (hp : pattern ≠ [])
    (hfuel : pattern.length ≤ fuel) :
    (∃ count accesses,
      searchTrace fuel text pattern = some (count, accesses) ∧
      search fuel text pattern = some count ∧
      ∀ a ∈ accesses, a.inRange text.length pattern.length) ∧
    (∃ failure,
      buildFailureFunction fuel pattern (IntArray.alloc pattern.length) pattern.length =
        some failure ∧
      ∀ i, i < pattern.length → ∃ v, IntArray.read failure i = some v ∧ v ≤ i) := by
  refine ⟨?_, ?_⟩
  · have hc := search_spec fuel text pattern hp hfuel
    have hfst := searchTrace_fst fuel text pattern
    rw [hc] at hfst
    cases htr : searchTrace fuel text pattern with
    | none => simp [htr] at hfst
    | some w =>
      obtain ⟨c', tr⟩ := w
      simp only [htr, Option.map_some', Option.some.injEq] at hfst
      subst hfst
      exact ⟨_, tr, rfl, hc, searchTrace_inRange fuel text pattern _ tr htr⟩
  · obtain ⟨f, hf, _, hok⟩ := buildFailureFunction_spec pattern fuel hp hfuel
    refine ⟨f, hf, fun i hi => ?_⟩
    obtain ⟨v, hv, ⟨hvi, _⟩, _⟩ := hok i hi
    exact ⟨v, hv, hvi⟩

/-- The text "abacabab" and the pattern "abab": the call returns 1 and all its
accesses are in range. -/
theorem search_stays_in_range_witness :
    ([97, 98, 97, 98] : CStr) ≠ [] ∧
      (∃ count accesses,
        searchTrace 4 [97, 98, 97, 99, 97, 98, 97, 98] [97, 98, 97, 98] =
          some (count, accesses) ∧
        search 4 [97, 98, 97, 99, 97, 98, 97, 98] [97, 98, 97, 98] = some count ∧
        ∀ a ∈ accesses, a.inRange 8 4) ∧
      search 4 [97, 98, 97, 99, 97, 98, 97, 98] [97, 98, 97, 98] = some 1 :=
  ⟨by decide,
    (search_stays_in_range 4 [97, 98, 97, 99, 97, 98, 97, 98] [97, 98, 97, 98] (by decide)
      (by decide)).1,
    by decide⟩

/-! ## The positions of the occurrences -/

theorem wrapInt_of_range {x : Int} (h1 : -2147483648 ≤ x) (h2 : x ≤ 2147483647) :
    wrapInt x = x := by
  unfold wrapInt
  omega

theorem wrapInt_range (x : Int) : -2147483648 ≤ wrapInt x ∧ wrapInt x ≤ 2147483647 := by
  unfold wrapInt
  omega

theorem wrapInt_wrapInt_add (a b : Int) : wrapInt (wrapInt a + b) = wrapInt (a + b) := by
  unfold wrapInt
  omega

theorem wrapInt_succ {x : Int} (h : wrapInt x < 2147483647) :
    wrapInt (x + 1) = wrapInt x + 1 := by
  unfold wrapInt at *
  omega

theorem wrapInt_natCast {n : Nat} (h : n < 2147483648) : wrapInt (n : Int) = (n : Int) :=
  wrapInt_of_range (by omega) (by omega)

/-! ### The table with `int` counters is the table above, reduced -/

theorem HashTable.ext_fields {s t : HashTable} (hb : s.buckets = t.buckets)
    (ht : s.totalEntries = t.totalEntries) : s = t := by
  cases s
  cases t
  cases hb
  cases ht
  rfl

theorem bumpChain_wrapNode (key : CStr) (c : List HashNode) :
    Int32.bumpChain key (c.map wrapNode) = (bumpChain key c).map (fun c' => c'.map wrapNode) := by
  induction c with
  | nil => rfl
  | cons n rest ih =>
    simp only [List.map_cons, Int32.bumpChain, bumpChain, wrapNode]
    by_cases h : strcmp n.key key = 0
    · rw [if_pos h, if_pos h]
      simp only [Option.map_some', List.map_cons, wrapNode, wrapInt_wrapInt_add]
    · rw [if_neg h, if_neg h]
      have ih' := ih
      simp only [wrapNode] at ih'
      rw [ih']
      cases bumpChain key rest <;> rfl

theorem chainCount_wrapNode (key : CStr) (c : List HashNode) :
    chainCount key (c.map wrapNode) = wrapInt (chainCount key c) := by
  induction c with
  | nil => rfl
  | cons n rest ih =>
    simp only [List.map_cons, chainCount, wrapNode]
    by_cases h : strcmp n.key key = 0
    · rw [if_pos h, if_pos h]
    · rw [if_neg h, if_neg h]
      exact ih

theorem getD_map_chain (b : List (List HashNode)) (i : Nat) :
    (b.map (fun chain => chain.map wrapNode)).getD i [] = (b.getD i []).map wrapNode := by
  rw [List.getD_eq_getElem?_getD, List.getD_eq_getElem?_getD, List.getElem?_map]
  cases b[i]? <;> rfl

theorem getCount_wrapTable (t : HashTable) (key : CStr) :
    (wrapTable t).getCount key = wrapInt (t.getCount key) := by
  unfold HashTable.getCount wrapTable
  simp only
  rw [getD_map_chain, chainCount_wrapNode]

theorem allNodes_wrapTable (t : HashTable) :
    (wrapTable t).allNodes = t.allNodes.map wrapNode := by
  unfold HashTable.allNodes wrapTable
  simp only
  rw [List.map_flatten]

theorem keys_wrapTable (t : HashTable) :
    (wrapTable t).allNodes.map HashNode.key = t.allNodes.map HashNode.key := by
  rw [allNodes_wrapTable, List.map_map]
  rfl

theorem int32_insert_of_none (t : HashTable) (key : CStr)
    (h : Int32.bumpChain key (t.buckets.getD (hashFunction key) []) = none) :
    (Int32.HashTable.insert t key).buckets =
        t.buckets.set (hashFunction key) (⟨key, 1⟩ :: t.buckets.getD (hashFunction key) []) ∧
      (Int32.HashTable.insert t key).totalEntries = wrapInt (t.totalEntries + 1) := by
  simp only [Int32.HashTable.insert, h, and_self]

theorem int32_insert_of_some (t : HashTable) (key : CStr) (c : List HashNode)
    (h : Int32.bumpChain key (t.buckets.getD (hashFunction key) []) = some c) :
    (Int32.HashTable.insert t key).buckets = t.buckets.set (hashFunction key) c ∧
      (Int32.HashTable.insert t key).totalEntries = t.totalEntries := by
  simp only [Int32.HashTable.insert, h, and_self]

theorem insert_wrapTable (t : HashTable) (key : CStr) :
    Int32.HashTable.insert (wrapTable t) key = wrapTable (t.insert key) := by
  have hg : (wrapTable t).buckets.getD (hashFunction key) [] =
      (t.buckets.getD (hashFunction key) []).map wrapNode := getD_map_chain _ _
  have hb := bumpChain_wrapNode key (t.buckets.getD (hashFunction key) [])
  rw [← hg] at hb
  cases hc : bumpChain key (t.buckets.getD (hashFunction key) []) with
  | none =>
    rw [hc] at hb
    obtain ⟨h1, h2⟩ := int32_insert_of_none (wrapTable t) key hb
    obtain ⟨h3, h4⟩ := insert_of_none t key hc
    apply HashTable.ext_fields
    · rw [h1, hg]
      simp only [wrapTable, h3, List.map_set, List.map_cons]
      rfl
    · rw [h2]
      simp only [wrapTable, h4, wrapInt_wrapInt_add]
  | some c =>
    rw [hc] at hb
    obtain ⟨h1, h2⟩ := int32_insert_of_some (wrapTable t) key _ hb
    obtain ⟨h3, h4⟩ := insert_of_some t key c hc
    apply HashTable.ext_fields
    · rw [h1]
      simp only [wrapTable, h3, List.map_set]
    · rw [h2]
      simp only [wrapTable, h4]

theorem wrapTable_empty : wrapTable HashTable.empty = HashTable.empty := by
  apply HashTable.ext_fields
  · simp [wrapTable, HashTable.empty]
  · rfl

theorem wrapTable_clear (t : HashTable) : (wrapTable t).clear = wrapTable t.clear := by
  apply HashTable.ext_fields
  · simp [wrapTable, HashTable.clear]
  · rfl

theorem apply_wrapTable (t : HashTable) (op : TableOp) :
    Int32.HashTable.apply (wrapTable t) op = wrapTable (t.apply op) := by
  cases op with
  | insert key => exact insert_wrapTable t key
  | clear => exact wrapTable_clear t

theorem foldl_apply_wrapTable (ops : List TableOp) :
    ∀ t : HashTable, ops.foldl Int32.HashTable.apply (wrapTable t) =
      wrapTable (ops.foldl HashTable.apply t) := by
  induction ops with
  | nil => intro t; rfl
  | cons op rest ih =>
    intro t
    rw [List.foldl_cons, List.foldl_cons, apply_wrapTable, ih]

theorem run_eq_wrapTable (ops : List TableOp) :
    Int32.HashTable.run ops = wrapTable (HashTable.run ops) := by
  unfold Int32.HashTable.run HashTable.run
  rw [← foldl_apply_wrapTable, wrapTable_empty]

theorem getCount_run_int32 (ops : List TableOp) (key : CStr) :
    (Int32.HashTable.run ops).getCount key =
      wrapInt (((keysSinceClear ops).count key : Nat) : Int) := by
  rw [run_eq_wrapTable, getCount_wrapTable, getCount_run]

theorem allNodes_run_int32 (ops : List TableOp) :
    (Int32.HashTable.run ops).allNodes = (HashTable.run ops).allNodes.map wrapNode := by
  rw [run_eq_wrapTable, allNodes_wrapTable]

theorem keysSinceClear_replicate_insert (n : Nat) (key : CStr) :
    keysSinceClear (List.replicate n (TableOp.insert key)) = List.replicate n key := by
  induction n with
  | zero => rfl
  | succ n ih => rw [List.replicate_succ', keysSinceClear_snoc_insert, ih, ← List.replicate_succ']

theorem count_replicate_key (n : Nat) (key : CStr) : (List.replicate n key).count key = n := by
  induction n with
  | zero => rfl
  | succ n ih => rw [List.replicate_succ, List.count_cons_self, ih]

theorem node_count_run (ops : List TableOp) (n : HashNode)
    (hn : n ∈ (HashTable.run ops).allNodes) :
    n.count = (((keysSinceClear ops).count n.key : Nat) : Int) ∧ 1 ≤ n.count := by
  refine ⟨?_, (inv_run ops).2.2.1 n hn⟩
  rw [← getCount_of_mem _ (inv_run ops) n hn, getCount_run]

theorem insert_run_int32 (ops : List TableOp) (key : CStr) :
    Int32.HashTable.insert (Int32.HashTable.run ops) key =
      wrapTable ((HashTable.run ops).insert key) := by
  rw [run_eq_wrapTable, insert_wrapTable]

/-! ## The hash table with `int` counters: the contracts -/

/-- C3, as amended: in every table reached from construction by `insert` and
`clear`, with the `int count` of the source, `getCount(key)` is the number of
`insert(key)` calls with that exact string since construction or the last
`clear()`, provided that number is below `2^31`; the other keys, in the same
bucket or not, do not enter. So it is 0 for a key not inserted since then. -/
theorem getCount_eq_insert_calls_below_int_max (ops : List TableOp) (key : CStr)
    (hb : (keysSinceClear ops).count key < 2147483648) :
    (Int32.HashTable.run ops).getCount key = ((keysSinceClear ops).count key : Nat) ∧
    (key ∉ keysSinceClear ops → (Int32.HashTable.run ops).getCount key = 0) := by
  have h := getCount_run_int32 ops key
  rw [wrapInt_natCast hb] at h
  refine ⟨h, fun hk => ?_⟩
  rw [h, List.count_eq_zero_of_not_mem hk]
  rfl

/-- The one-character keys of codes 1 and 102 fall into the same bucket; after
the first is inserted twice and the second once, their counts are 2 and 1, and
the key of code 2, never inserted, has count 0. -/
theorem getCount_eq_insert_calls_below_int_max_witness :
    hashFunction [1] = hashFunction [102] ∧
      (keysSinceClear [.insert [1], .insert [102], .insert [1]]).count [1] < 2147483648 ∧
      (Int32.HashTable.run [.insert [1], .insert [102], .insert [1]]).getCount [1] =
        ((keysSinceClear [.insert [1], .insert [102], .insert [1]]).count [1] : Nat) ∧
      (Int32.HashTable.run [.insert [1], .insert [102], .insert [1]]).getCount [1] = 2 ∧
      (Int32.HashTable.run [.insert [1], .insert [102], .insert [1]]).getCount [102] = 1 ∧
      (Int32.HashTable.run [.insert [1], .insert [102], .insert [1]]).getCount [2] = 0 :=
  ⟨by decide, by decide,
    (getCount_eq_insert_calls_below_int_max [.insert [1], .insert [102], .insert [1]] [1]
      (by decide)).1,
    by decide, by decide,
    (getCount_eq_insert_calls_below_int_max [.insert [1], .insert [102], .insert [1]] [2]
      (by decide)).2 (by decide)⟩

/-- C3 as stated fails: after `2^31` calls `insert("a")` on a new table the
number of calls is 2147483648 and `getCount("a")` is -2147483648. -/
theorem getCount_after_2147483648_inserts :
    (keysSinceClear (List.replicate 2147483648 (TableOp.insert [97]))).count [97] =
        2147483648 ∧
      (Int32.HashTable.run (List.replicate 2147483648 (TableOp.insert [97]))).getCount [97] =
        -2147483648 ∧
      (Int32.HashTable.run (List.replicate 2147483648 (TableOp.insert [97]))).getCount [97] ≠
        (((keysSinceClear (List.replicate 2147483648 (TableOp.insert [97]))).count [97] : Nat) :
          Int) := by
  have hc : (keysSinceClear (List.replicate 2147483648 (TableOp.insert [97]))).count [97] =
      2147483648 := by
    rw [keysSinceClear_replicate_insert, count_replicate_key]
  have hg : (Int32.HashTable.run
      (List.replicate 2147483648 (TableOp.insert [97]))).getCount [97] = -2147483648 := by
    rw [getCount_run_int32, hc]
    decide
  refine ⟨hc, hg, ?_⟩
  rw [hg, hc]
  decide

theorem wrapNode_bumpNode (key : CStr) (n : HashNode)
    (h : n.key = key → wrapInt n.count < 2147483647) :
    wrapNode (bumpNode key n) = bumpNode key (wrapNode n) := by
  unfold bumpNode wrapNode
  by_cases hk : n.key = key
  · simp only [if_pos hk]
    rw [wrapInt_succ (h hk)]
  · simp only [if_neg hk]

theorem key_wrapNode_bumpNode (key : CStr) (n : HashNode) :
    (wrapNode (bumpNode key n)).key = n.key := by
  unfold bumpNode wrapNode
  by_cases hk : n.key = key
  · simp only [if_pos hk]
  · simp only [if_neg hk]

/-- C4, as amended: on every table a `HashTable` object can hold (one reached
from construction by `insert` and `clear`), with the `int count` of the source,
`insert(key)` returns and does one of two things. Either a node with that exact
key exists: then no node is created and the keys stay as they are, and,
provided the old count of the key is below `INT_MAX`, the nodes stay the same
but for that node, whose count becomes the old count plus 1. Or no node holds
the key: then the nodes are the old ones and one new node `(key, 1)`. -/
theorem insert_bumps_below_int_max_or_creates (ops : List TableOp) (key : CStr) :
    (key ∈ (Int32.HashTable.run ops).allNodes.map HashNode.key ∧
      (Int32.HashTable.insert (Int32.HashTable.run ops) key).allNodes.map HashNode.key =
        (Int32.HashTable.run ops).allNodes.map HashNode.key ∧
      ((Int32.HashTable.run ops).getCount key < INT_MAX →
        (Int32.HashTable.insert (Int32.HashTable.run ops) key).allNodes =
          (Int32.HashTable.run ops).allNodes.map (bumpNode key) ∧
        (Int32.HashTable.insert (Int32.HashTable.run ops) key).getCount key =
          (Int32.HashTable.run ops).getCount key + 1)) ∨
    (key ∉ (Int32.HashTable.run ops).allNodes.map HashNode.key ∧
      List.Perm (Int32.HashTable.insert (Int32.HashTable.run ops) key).allNodes
        (⟨key, 1⟩ :: (Int32.HashTable.run ops).allNodes) ∧
      (Int32.HashTable.insert (Int32.HashTable.run ops) key).getCount key = 1) := by
  rw [insert_run_int32, allNodes_wrapTable, getCount_wrapTable, allNodes_run_int32,
    getCount_run_int32, ← getCount_run]
  have hkeys : ((HashTable.run ops).allNodes.map wrapNode).map HashNode.key =
      (HashTable.run ops).allNodes.map HashNode.key := by
    rw [List.map_map]
    rfl
  rw [hkeys]
  rcases insert_on_inv (HashTable.run ops) key (inv_run ops) with
    ⟨hin, hnodes, _, hcnt⟩ | ⟨hnot, hperm, _, hcnt⟩
  · left
    refine ⟨hin, ?_, ?_⟩
    · rw [hnodes, List.map_map, List.map_map]
      apply List.map_congr_left
      intro n _
      exact key_wrapNode_bumpNode key n
    · intro hlt
      have hlt' : wrapInt ((HashTable.run ops).getCount key) < 2147483647 := hlt
      refine ⟨?_, ?_⟩
      · rw [hnodes, List.map_map, List.map_map]
        apply List.map_congr_left
        intro n hn
        apply wrapNode_bumpNode
        intro hk
        rw [← getCount_of_mem _ (inv_run ops) n hn, hk]
        exact hlt'
      · rw [hcnt, wrapInt_succ hlt']
  · right
    refine ⟨hnot, ?_, ?_⟩
    · exact hperm.map wrapNode
    · rw [hcnt]
      rfl

/-- C4 as stated fails: on the table reached by `2^31 - 1` calls `insert("a")`
a node with the key "a" exists and its count is 2147483647; after one more
`insert("a")` the count is -2147483648, not the old count plus 1. -/
theorem insert_at_int_max_count :
    [97] ∈ (Int32.HashTable.run
        (List.replicate 2147483647 (TableOp.insert [97]))).allNodes.map HashNode.key ∧
      (Int32.HashTable.run (List.replicate 2147483647 (TableOp.insert [97]))).getCount [97] =
        2147483647 ∧
      (Int32.HashTable.insert (Int32.HashTable.run
        (List.replicate 2147483647 (TableOp.insert [97]))) [97]).getCount [97] = -2147483648 ∧
      (Int32.HashTable.insert (Int32.HashTable.run
        (List.replicate 2147483647 (TableOp.insert [97]))) [97]).getCount [97] ≠
        (Int32.HashTable.run (List.replicate 2147483647 (TableOp.insert [97]))).getCount [97]
          + 1 := by
  have hc : (keysSinceClear (List.replicate 2147483647 (TableOp.insert [97]))).count [97] =
      2147483647 := by
    rw [keysSinceClear_replicate_insert, count_replicate_key]
  have hold : (Int32.HashTable.run
      (List.replicate 2147483647 (TableOp.insert [97]))).getCount [97] = 2147483647 := by
    rw [getCount_run_int32, hc]
    decide
  have hnew : (Int32.HashTable.insert (Int32.HashTable.run
      (List.replicate 2147483647 (TableOp.insert [97]))) [97]).getCount [97] =
      -2147483648 := by
    rw [insert_run_int32, getCount_wrapTable, getCount_insert, if_pos rfl, getCount_run, hc]
    decide
  refine ⟨?_, hold, hnew, ?_⟩
  · rw [run_eq_wrapTable, keys_wrapTable, mem_keys_run, keysSinceClear_replicate_insert,
      List.mem_replicate]
    exact ⟨by decide, rfl⟩
  · rw [hnew, hold]
    decide

/-- C6, as amended: in every table reached from construction by `insert` and
`clear`, with the `int count` of the source, the keys of the chain nodes, taken
over all buckets, are pairwise distinct; and the count of a node whose key was
inserted fewer than `2^31` times since the last `clear` is the number of those
inserts, so at least 1. -/
theorem nodes_distinct_keys_counts_below_int_max (ops : List TableOp) :
    ((Int32.HashTable.run ops).allNodes.map HashNode.key).Nodup ∧
    ∀ n ∈ (Int32.HashTable.run ops).allNodes,
      (keysSinceClear ops).count n.key < 2147483648 →
        1 ≤ n.count ∧ n.count = (((keysSinceClear ops).count n.key : Nat) : Int) := by
  refine ⟨?_, ?_⟩
  · rw [run_eq_wrapTable, keys_wrapTable]
    exact (inv_run ops).2.1
  · intro n hn hlt
    rw [allNodes_run_int32, List.mem_map] at hn
    obtain ⟨m, hm, rfl⟩ := hn
    obtain ⟨hcount, hpos⟩ := node_count_run ops m hm
    have hkey : (wrapNode m).key = m.key := rfl
    rw [hkey] at hlt ⊢
    have hval : (wrapNode m).count = m.count := by
      show wrapInt m.count = m.count
      rw [hcount]
      exact wrapInt_natCast hlt
    rw [hval]
    exact ⟨hpos, hcount⟩

/-- C6 as stated fails: after `2^31` calls `insert("a")` on a new table the
node that holds "a" has the count -2147483648, which is below 1. -/
theorem node_count_after_2147483648_inserts :
    ∃ n ∈ (Int32.HashTable.run (List.replicate 2147483648 (TableOp.insert [97]))).allNodes,
      n.key = [97] ∧ n.count = -2147483648 ∧ ¬ 1 ≤ n.count := by
  have hc : (keysSinceClear (List.replicate 2147483648 (TableOp.insert [97]))).count [97] =
      2147483648 := by
    rw [keysSinceClear_replicate_insert, count_replicate_key]
  have hmem : [97] ∈ (HashTable.run
      (List.replicate 2147483648 (TableOp.insert [97]))).allNodes.map HashNode.key := by
    rw [mem_keys_run, keysSinceClear_replicate_insert, List.mem_replicate]
    exact ⟨by decide, rfl⟩
  obtain ⟨m, hm, hkey⟩ := List.mem_map.1 hmem
  have hcount := (node_count_run _ m hm).1
  rw [hkey, hc] at hcount
  have hval : (wrapNode m).count = -2147483648 := by
    show wrapInt m.count = -2147483648
    rw [hcount]
    decide
  refine ⟨wrapNode m, ?_, hkey, hval, ?_⟩
  · rw [allNodes_run_int32]
    exact List.mem_map_of_mem _ hm
  · rw [hval]
    decide

/-! ## The analyser with `int` counters -/

theorem addLog_wrapAnalyzer (a : LogAnalyzer) (ts level msg : CStr) :
    Int32.LogAnalyzer.addLog (wrapAnalyzer a) ts level msg =
      wrapAnalyzer (a.addLog ts level msg) := by
  unfold Int32.LogAnalyzer.addLog LogAnalyzer.addLog
  by_cases h : isErrorLevel level = true
  · rw [if_pos h, if_pos h]
    simp only [wrapAnalyzer, Int32.LogList.addEntry, LogList.addEntry, wrapInt_wrapInt_add,
      insert_wrapTable]
  · rw [if_neg h, if_neg h]
    simp only [wrapAnalyzer, Int32.LogList.addEntry, LogList.addEntry, wrapInt_wrapInt_add]

theorem clearAll_wrapAnalyzer (a : LogAnalyzer) :
    (wrapAnalyzer a).clearAll = wrapAnalyzer a.clearAll := by
  unfold LogAnalyzer.clearAll wrapAnalyzer
  simp only [wrapTable_clear]
  rfl

theorem wrapAnalyzer_empty : wrapAnalyzer LogAnalyzer.empty = LogAnalyzer.empty := by
  unfold wrapAnalyzer LogAnalyzer.empty
  simp only [wrapTable_empty]
  rfl

theorem foldl_apply_wrapAnalyzer (ops : List AnalyzerOp) :
    ∀ a : LogAnalyzer, ops.foldl Int32.LogAnalyzer.apply (wrapAnalyzer a) =
      wrapAnalyzer (ops.foldl LogAnalyzer.apply a) := by
  induction ops with
  | nil => intro a; rfl
  | cons op rest ih =>
    intro a
    rw [List.foldl_cons, List.foldl_cons, ← ih]
    cases op with
    | addLog ts level msg =>
      rw [Int32.LogAnalyzer.apply, LogAnalyzer.apply, addLog_wrapAnalyzer]
    | clearAll =>
      rw [Int32.LogAnalyzer.apply, LogAnalyzer.apply, clearAll_wrapAnalyzer]

theorem analyzer_run_eq_wrapAnalyzer (ops : List AnalyzerOp) :
    Int32.LogAnalyzer.run ops = wrapAnalyzer (LogAnalyzer.run ops) := by
  unfold Int32.LogAnalyzer.run LogAnalyzer.run
  rw [← foldl_apply_wrapAnalyzer, wrapAnalyzer_empty]

theorem tableOpsOf_replicate_error (n : Nat) (ts msg : CStr) :
    tableOpsOf (List.replicate n (AnalyzerOp.addLog ts ERROR_UPPER msg)) =
      List.replicate n (TableOp.insert msg) := by
  induction n with
  | zero => rfl
  | succ n ih =>
    rw [List.replicate_succ', tableOpsOf_snoc, ih, List.replicate_succ' n (TableOp.insert msg)]
    rfl

theorem errorTable_run_int32 (ops : List AnalyzerOp) :
    (Int32.LogAnalyzer.run ops).errorTable = wrapTable (HashTable.run (tableOpsOf ops)) := by
  rw [analyzer_run_eq_wrapAnalyzer, ← errorTable_run]
  rfl

theorem errorTable_addLog_int32 (ops : List AnalyzerOp) (ts level msg : CStr)
    (hl : level = ERROR_UPPER ∨ level = ERROR_LOWER) :
    (Int32.LogAnalyzer.addLog (Int32.LogAnalyzer.run ops) ts level msg).errorTable =
      wrapTable ((HashTable.run (tableOpsOf ops)).insert msg) := by
  rw [analyzer_run_eq_wrapAnalyzer, addLog_wrapAnalyzer, ← errorTable_run]
  show wrapTable ((LogAnalyzer.run ops).addLog ts level msg).errorTable = _
  rw [addLog_errorTable, if_pos hl]

/-- C12, as amended: on every analyser reached from construction by `addLog`
and `clearAll`, with the `int` counters of the source, an `addLog` call whose
level is "ERROR" or "error" raises `getErrorCount()` by 1 when its message was
not inserted into the error table since the last clear and `getErrorCount()` is
below `INT_MAX`; when the message was already inserted, `getErrorCount()` stays,
and the count of the message in the table grows by 1 provided it is below
`INT_MAX`. -/
theorem addLog_error_count_below_int_max (ops : List AnalyzerOp) (ts level msg : CStr)
    (hl : level = ERROR_UPPER ∨ level = ERROR_LOWER) :
    (msg ∉ errorMessagesSinceClear ops →
      (Int32.LogAnalyzer.run ops).getErrorCount < INT_MAX →
      (Int32.LogAnalyzer.addLog (Int32.LogAnalyzer.run ops) ts level msg).getErrorCount =
        (Int32.LogAnalyzer.run ops).getErrorCount + 1) ∧
    (msg ∈ errorMessagesSinceClear ops →
      (Int32.LogAnalyzer.addLog (Int32.LogAnalyzer.run ops) ts level msg).getErrorCount =
        (Int32.LogAnalyzer.run ops).getErrorCount ∧
      ((Int32.LogAnalyzer.run ops).errorTable.getCount msg < INT_MAX →
        (Int32.LogAnalyzer.addLog (Int32.LogAnalyzer.run ops) ts level msg).errorTable.getCount
            msg =
          (Int32.LogAnalyzer.run ops).errorTable.getCount msg + 1)) := by
  simp only [LogAnalyzer.getErrorCount, HashTable.getTotalEntries,
    errorTable_addLog_int32 ops ts level msg hl, errorTable_run_int32, getCount_wrapTable]
  have hkeys : msg ∈ (HashTable.run (tableOpsOf ops)).allNodes.map HashNode.key ↔
      msg ∈ errorMessagesSinceClear ops := by
    rw [mem_keys_run, keysSinceClear_tableOpsOf]
  rcases insert_on_inv (HashTable.run (tableOpsOf ops)) msg (inv_run _) with
    ⟨hin, _, htot, hcnt⟩ | ⟨hnot, _, htot, _⟩
  · refine ⟨fun h => absurd (hkeys.1 hin) h, fun _ => ⟨?_, ?_⟩⟩
    · show wrapInt ((HashTable.run (tableOpsOf ops)).insert msg).getTotalEntries =
        wrapInt (HashTable.run (tableOpsOf ops)).getTotalEntries
      rw [htot]
    · intro hlt
      rw [hcnt]
      exact wrapInt_succ hlt
  · refine ⟨fun _ hlt => ?_, fun h => absurd (hkeys.2 h) hnot⟩
    show wrapInt ((HashTable.run (tableOpsOf ops)).insert msg).getTotalEntries =
      wrapInt (HashTable.run (tableOpsOf ops)).getTotalEntries + 1
    rw [htot]
    exact wrapInt_succ hlt

/-- After one "ERROR" record with message "a": an "error" record with the new
message "b" raises the error count from 1 to 2, and an "ERROR" record with the
message "a" again leaves it at 1 and raises the count of "a" from 1 to 2. -/
theorem addLog_error_count_below_int_max_witness :
    (Int32.LogAnalyzer.addLog (Int32.LogAnalyzer.run [.addLog [] ERROR_UPPER [97]]) []
        ERROR_LOWER [98]).getErrorCount =
        (Int32.LogAnalyzer.run [.addLog [] ERROR_UPPER [97]]).getErrorCount + 1 ∧
      (Int32.LogAnalyzer.run [.addLog [] ERROR_UPPER [97]]).getErrorCount = 1 ∧
      (Int32.LogAnalyzer.addLog (Int32.LogAnalyzer.run [.addLog [] ERROR_UPPER [97]]) []
        ERROR_UPPER [97]).getErrorCount =
        (Int32.LogAnalyzer.run [.addLog [] ERROR_UPPER [97]]).getErrorCount ∧
      (Int32.LogAnalyzer.addLog (Int32.LogAnalyzer.run [.addLog [] ERROR_UPPER [97]]) []
        ERROR_UPPER [97]).errorTable.getCount [97] =
        (Int32.LogAnalyzer.run [.addLog [] ERROR_UPPER [97]]).errorTable.getCount [97] + 1 ∧
      (Int32.LogAnalyzer.run [.addLog [] ERROR_UPPER [97]]).errorTable.getCount [97] = 1 :=
  ⟨(addLog_error_count_below_int_max [.addLog [] ERROR_UPPER [97]] [] ERROR_LOWER [98]
      (Or.inr rfl)).1 (by decide) (by decide),
    by decide,
    ((addLog_error_count_below_int_max [.addLog [] ERROR_UPPER [97]] [] ERROR_UPPER [97]
      (Or.inl rfl)).2 (by decide)).1,
    ((addLog_error_count_below_int_max [.addLog [] ERROR_UPPER [97]] [] ERROR_UPPER [97]
      (Or.inl rfl)).2 (by decide)).2 (by decide),
    by decide⟩

/-- C12 as stated fails: after `2^31 - 1` calls `addLog` with the level "ERROR"
and the message "a", the message was inserted and its count is 2147483647; one
more such call leaves the count at -2147483648, not at the old count plus 1. -/
theorem addLog_at_int_max_count :
    [97] ∈ errorMessagesSinceClear
        (List.replicate 2147483647 (AnalyzerOp.addLog [] ERROR_UPPER [97])) ∧
      (Int32.LogAnalyzer.run (List.replicate 2147483647
        (AnalyzerOp.addLog [] ERROR_UPPER [97]))).errorTable.getCount [97] = 2147483647 ∧
      (Int32.LogAnalyzer.addLog (Int32.LogAnalyzer.run (List.replicate 2147483647
        (AnalyzerOp.addLog [] ERROR_UPPER [97]))) [] ERROR_UPPER [97]).errorTable.getCount [97] =
        -2147483648 ∧
      (Int32.LogAnalyzer.addLog (Int32.LogAnalyzer.run (List.replicate 2147483647
        (AnalyzerOp.addLog [] ERROR_UPPER [97]))) [] ERROR_UPPER [97]).errorTable.getCount [97] ≠
        (Int32.LogAnalyzer.run (List.replicate 2147483647
          (AnalyzerOp.addLog [] ERROR_UPPER [97]))).errorTable.getCount [97] + 1 := by
  have hc : (keysSinceClear (List.replicate 2147483647 (TableOp.insert [97]))).count [97] =
      2147483647 := by
    rw [keysSinceClear_replicate_insert, count_replicate_key]
  have hold : (Int32.LogAnalyzer.run (List.replicate 2147483647
      (AnalyzerOp.addLog [] ERROR_UPPER [97]))).errorTable.getCount [97] = 2147483647 := by
    rw [errorTable_run_int32, getCount_wrapTable, tableOpsOf_replicate_error, getCount_run, hc]
    decide
  have hnew : (Int32.LogAnalyzer.addLog (Int32.LogAnalyzer.run (List.replicate 2147483647
      (AnalyzerOp.addLog [] ERROR_UPPER [97]))) [] ERROR_UPPER [97]).errorTable.getCount [97] =
      -2147483648 := by
    rw [errorTable_addLog_int32 _ _ _ _ (Or.inl rfl), getCount_wrapTable,
      tableOpsOf_replicate_error, getCount_insert, if_pos rfl, getCount_run, hc]
    decide
  refine ⟨?_, hold, hnew, ?_⟩
  · rw [← keysSinceClear_tableOpsOf, tableOpsOf_replicate_error,
      keysSinceClear_replicate_insert, List.mem_replicate]
    exact ⟨by decide, rfl⟩
  · rw [hnew, hold]
    decide

/-! ## The matcher with `int` lengths -/

theorem int32_search_eq (fuel : Nat) (text pattern : CStr) (ht : text.length < 2147483648)
    (hp : pattern.length < 2147483648) :
    Int32.search fuel text pattern = search fuel text pattern := by
  unfold Int32.search search
  simp only [strlen, wrapInt_natCast ht, wrapInt_natCast hp]
  by_cases h0 : pattern.length = 0
  · rw [if_pos (by omega), if_pos h0]
  · rw [if_neg (by omega), if_neg h0]
    by_cases h1 : pattern.length > text.length
    · rw [if_pos (by omega), if_pos h1]
    · rw [if_neg (by omega), if_neg h1, if_neg (by omega), Int.toNat_ofNat, Int.toNat_ofNat]

theorem int32_searchCaseInsensitive_eq (fuel : Nat) (text pattern : CStr)
    (ht : text.length < 2147483647) (hp : pattern.length < 2147483648) :
    Int32.searchCaseInsensitive fuel text pattern = searchCaseInsensitive fuel text pattern := by
  unfold Int32.searchCaseInsensitive searchCaseInsensitive
  simp only [strlen, wrapInt_natCast (by omega : text.length < 2147483648), wrapInt_natCast hp]
  by_cases h0 : pattern.length = 0
  · rw [if_pos (by omega), if_pos h0]
  · rw [if_neg (by omega), if_neg h0]
    by_cases h1 : pattern.length > text.length
    · rw [if_pos (by omega), if_pos h1]
    · have ht1 : wrapInt ((text.length : Int) + 1) = (text.length : Int) + 1 :=
        wrapInt_of_range (by omega) (by omega)
      have hp1 : wrapInt ((pattern.length : Int) + 1) = (pattern.length : Int) + 1 :=
        wrapInt_of_range (by omega) (by omega)
      rw [if_neg (by omega), if_neg h1, ht1, hp1, if_neg (by omega), if_neg (by omega),
        if_neg (by omega), if_neg (by omega), Int.toNat_ofNat, Int.toNat_ofNat,
        List.take_length, List.take_length]
      exact int32_search_eq fuel _ _ (by rw [List.length_map]; omega)
        (by rw [List.length_map]; exact hp)

theorem occurrences_replicate (n : Nat) (a : Int) :
    occurrences (List.replicate n a) [a] = n := by
  induction n with
  | zero => exact occurrences_nil [a] (by simp)
  | succ n ih =>
    rw [List.replicate_succ', occurrences_snoc _ _ _ (by simp), ih,
      if_pos (List.suffix_append _ _)]

/-- C1, as amended: for every text and every non-empty pattern, both shorter
than `2^31` bytes so that their lengths fit the `int` variables of the source,
`KMP::search`, run with fuel no smaller than the pattern's length, returns the
number of start indices `i` with `i + |pattern| ≤ |text|` at which
`text[i .. i + |pattern|)` equals the pattern. Every matching index counts
once, whether or not the occurrences overlap. -/
theorem search_eq_occurrences_below_int_max (fuel : Nat) (text pattern : CStr)
    (hp : pattern ≠ []) (hfuel : pattern.length ≤ fuel) (htl : text.length < 2147483648)
    (hpl : pattern.length < 2147483648) :
    Int32.search fuel text pattern = some ((occurrences text pattern : Nat) : Int) := by
  rw [int32_search_eq fuel text pattern htl hpl]
  exact search_spec fuel text pattern hp hfuel

/-- The pattern "aa" stands twice in "aaa", at the overlapping indices 0 and 1,
and `KMP::search` returns that number. -/
theorem search_eq_occurrences_below_int_max_witness :
    ([97, 97] : CStr) ≠ [] ∧ ([97, 97] : CStr).length ≤ 2 ∧
      ([97, 97, 97] : CStr).length < 2147483648 ∧ ([97, 97] : CStr).length < 2147483648 ∧
      Int32.search 2 [97, 97, 97] [97, 97] =
        some ((occurrences [97, 97, 97] [97, 97] : Nat) : Int) ∧
      occurrences [97, 97, 97] [97, 97] = 2 :=
  ⟨by decide, by decide, by decide, by decide,
    search_eq_occurrences_below_int_max 2 [97, 97, 97] [97, 97] (by decide) (by decide)
      (by decide) (by decide),
    by decide⟩

/-- C1 as stated fails: in the text of `2^31 + 1` bytes "a" the pattern "a"
stands at 2147483649 indices, and `KMP::search` returns 0, because `textLen`
holds -2147483647 and the pattern counts as longer than the text. -/
theorem search_text_of_2147483649_bytes :
    ([97] : CStr) ≠ [] ∧
      occurrences (List.replicate 2147483649 97) [97] = 2147483649 ∧
      Int32.search 1 (List.replicate 2147483649 97) [97] = some 0 := by
  refine ⟨by decide, occurrences_replicate _ _, ?_⟩
  unfold Int32.search
  simp only [strlen, List.length_replicate, List.length_singleton]
  decide

theorem searchLoop_ge (fuel : Nat) (text pattern : CStr) (failure : IntArray) (patternLen : Nat) :
    ∀ n i j count r, searchLoop fuel text pattern failure patternLen n i j count = some r →
      count ≤ r := by
  intro n
  induction n with
  | zero =>
    intro i j count r h
    simp only [searchLoop, Option.some.injEq] at h
    omega
  | succ n ih =>
    intro i j count r h
    simp only [searchLoop, Option.bind_eq_bind, Option.bind_eq_some] at h
    obtain ⟨j1, _, a, _, b, _, h⟩ := h
    by_cases hm : (if a = b then j1 + 1 else j1) = patternLen
    · rw [if_pos hm] at h
      obtain ⟨j2, _, h⟩ := Option.bind_eq_some.1 h
      have := ih _ _ _ _ h
      omega
    · rw [if_neg hm] at h
      exact ih _ _ _ _ h

theorem int32_search_nonneg (fuel : Nat) (text pattern : CStr) (c : Int)
    (h : Int32.search fuel text pattern = some c) : 0 ≤ c := by
  unfold Int32.search at h
  simp only at h
  split at h
  · cases h
    exact le_refl _
  · split at h
    · cases h
      exact le_refl _
    · split at h
      · cases h
      · simp only [Option.bind_eq_bind, Option.bind_eq_some] at h
        obtain ⟨f, _, h⟩ := h
        exact searchLoop_ge _ _ _ _ _ _ _ _ _ _ h

/-- C2, as amended: `KMP::search` returns 0 when the pattern is empty; when the
pattern is shorter than `2^31` bytes and longer than the text; and, for a text
and a pattern both shorter than `2^31` bytes and fuel no smaller than the
pattern's length, when the pattern stands at no index of the text. For such a
text, pattern and fuel it returns a value; and every value it returns, on any
input, is at least 0. -/
theorem search_zero_cases_below_int_max (fuel : Nat) (text pattern : CStr) :
    (pattern = [] → Int32.search fuel text pattern = some 0) ∧
    (pattern.length < 2147483648 → text.length < pattern.length →
      Int32.search fuel text pattern = some 0) ∧
    (text.length < 2147483648 → pattern.length < 2147483648 → pattern.length ≤ fuel →
      (∀ i, ¬ occursAt text pattern i) → Int32.search fuel text pattern = some 0) ∧
    (text.length < 2147483648 → pattern.length < 2147483648 → pattern.length ≤ fuel →
      ∃ n, Int32.search fuel text pattern = some n ∧ 0 ≤ n) ∧
    (∀ n, Int32.search fuel text pattern = some n → 0 ≤ n) := by
  have hempty : pattern = [] → Int32.search fuel text pattern = some 0 := by
    intro h
    subst h
    unfold Int32.search
    simp only [strlen, List.length_nil]
    rw [if_pos (by decide)]
  have hspec : text.length < 2147483648 → pattern.length < 2147483648 → pattern.length ≤ fuel →
      pattern ≠ [] →
      Int32.search fuel text pattern = some ((occurrences text pattern : Nat) : Int) := by
    intro ht hp hfuel hne
    rw [int32_search_eq fuel text pattern ht hp]
    exact search_spec fuel text pattern hne hfuel
  refine ⟨hempty, ?_, ?_, ?_, int32_search_nonneg fuel text pattern⟩
  · intro hp hlt
    rw [int32_search_eq fuel text pattern (by omega) hp]
    unfold search
    simp only [strlen]
    by_cases h0 : pattern.length = 0
    · rw [if_pos h0]
    · rw [if_neg h0, if_pos hlt]
  · intro ht hp hfuel hno
    by_cases hne : pattern = []
    · exact hempty hne
    · rw [hspec ht hp hfuel hne]
      have : occurrences text pattern = 0 := by
        unfold occurrences
        rw [List.length_eq_zero, List.filter_eq_nil_iff]
        intro i _
        simpa using hno i
      rw [this]
      rfl
  · intro ht hp hfuel
    by_cases hne : pattern = []
    · exact ⟨0, hempty hne, le_refl _⟩
    · exact ⟨_, hspec ht hp hfuel hne, Int.ofNat_nonneg _⟩

/-- The four cases of C2 on the text "a": the empty pattern, the longer pattern
"ab", the absent pattern "b", and the present pattern "a". -/
theorem search_zero_cases_below_int_max_witness :
    Int32.search 0 [97] [] = some 0 ∧ Int32.search 0 [97] [97, 98] = some 0 ∧
      Int32.search 1 [97] [98] = some 0 ∧ ∃ n, Int32.search 1 [97] [97] = some n ∧ 0 ≤ n :=
  ⟨(search_zero_cases_below_int_max 0 [97] []).1 rfl,
    (search_zero_cases_below_int_max 0 [97] [97, 98]).2.1 (by decide) (by decide),
    (search_zero_cases_below_int_max 1 [97] [98]).2.2.1 (by decide) (by decide) (by decide) (by
      intro i h
      have h1 := h.1
      have h2 := h.2
      have hi : i = 0 := by
        simp only [List.length_cons, List.length_nil] at h1
        omega
      subst hi
      revert h2
      decide),
    (search_zero_cases_below_int_max 1 [97] [97]).2.2.2.1 (by decide) (by decide) (by decide)⟩

/-- C2 as stated fails: the pattern of `2^31` bytes "a" is longer than the text
"a", and `KMP::search` does not return 0: `patternLen` holds -2147483648, both
early returns are passed, and `new int[patternLen]` throws, whatever the
fuel. -/
theorem search_pattern_of_2147483648_bytes :
    ([97] : CStr).length < (List.replicate 2147483648 (97 : Int)).length ∧
      Int32.search 2147483648 [97] (List.replicate 2147483648 97) = none ∧
      Int32.search 2147483648 [97] (List.replicate 2147483648 97) ≠ some 0 := by
  have h : Int32.search 2147483648 [97] (List.replicate 2147483648 97) = none := by
    unfold Int32.search
    simp only [strlen, List.length_replicate, List.length_singleton]
    decide
  refine ⟨?_, h, ?_⟩
  · rw [List.length_replicate]
    decide
  · rw [h]
    exact fun e => Option.noConfusion e

theorem int32_searchCaseInsensitive_nonneg (fuel : Nat) (text pattern : CStr) (c : Int)
    (h : Int32.searchCaseInsensitive fuel text pattern = some c) : 0 ≤ c := by
  unfold Int32.searchCaseInsensitive at h
  simp only at h
  split at h
  · cases h
    exact le_refl _
  · split at h
    · cases h
      exact le_refl _
    · split at h
      · cases h
      · split at h
        · cases h
        · split at h
          · cases h
          · split at h
            · cases h
            · exact int32_search_nonneg _ _ _ _ h

theorem int32_matchCount_nonneg (fuel : Nat) (cs : Bool) (message keyword : CStr) (c : Int)
    (h : Int32.matchCount fuel cs message keyword = some c) : 0 ≤ c := by
  unfold Int32.matchCount at h
  cases cs with
  | true =>
    simp only [if_true] at h
    exact int32_search_nonneg _ _ _ _ h
  | false =>
    simp only [Bool.false_eq_true, if_false] at h
    exact int32_searchCaseInsensitive_nonneg _ _ _ _ h

/-! ## `searchKeyword` with the `int` sum -/

theorem int32_matchCount_eq (fuel : Nat) (cs : Bool) (message keyword : CStr)
    (hm : message.length < 2147483647) (hk : keyword.length < 2147483648) :
    Int32.matchCount fuel cs message keyword = matchCount fuel cs message keyword := by
  unfold Int32.matchCount matchCount
  cases cs with
  | true =>
    simp only [if_true]
    exact int32_search_eq fuel _ _ (by omega) hk
  | false =>
    simp only [Bool.false_eq_true, if_false]
    exact int32_searchCaseInsensitive_eq fuel _ _ hm hk

theorem int32_searchKeywordLoop_step (fuel : Nat) (keyword : CStr) (cs : Bool) (r : LogEntry)
    (rest : List LogEntry) (acc : Int) :
    Int32.searchKeywordLoop fuel keyword cs (r :: rest) acc =
      (Int32.matchCount fuel cs r.message keyword).bind (fun count =>
        Int32.searchKeywordLoop fuel keyword cs rest (wrapInt (acc + count))) := by
  rw [Int32.searchKeywordLoop]
  cases cs with
  | true => simp only [Int32.matchCount, if_true, Option.bind_eq_bind]
  | false => simp only [Int32.matchCount, Bool.false_eq_true, if_false, Option.bind_eq_bind]

theorem int32_searchKeywordLoop_sum (fuel : Nat) (keyword : CStr) (cs : Bool) :
    ∀ (l : List LogEntry) (counts : List Int) (acc : Int),
      List.Forall₂ (fun r c => Int32.matchCount fuel cs r.message keyword = some c) l counts →
      wrapInt acc = acc →
      Int32.searchKeywordLoop fuel keyword cs l acc = some (wrapInt (acc + counts.sum)) := by
  intro l counts acc h
  induction h generalizing acc with
  | nil =>
    intro hacc
    rw [Int32.searchKeywordLoop, List.sum_nil, add_zero, hacc]
  | cons hc _ ih =>
    intro _
    rw [int32_searchKeywordLoop_step, hc, Option.some_bind,
      ih _ (wrapInt_of_range (wrapInt_range _).1 (wrapInt_range _).2), wrapInt_wrapInt_add,
      List.sum_cons, add_assoc]

theorem forall₂_matchCount_sum_nonneg (fuel : Nat) (keyword : CStr) (cs : Bool) :
    ∀ (l : List LogEntry) (counts : List Int),
      List.Forall₂ (fun r c => Int32.matchCount fuel cs r.message keyword = some c) l counts →
      0 ≤ counts.sum := by
  intro l counts h
  induction h with
  | nil => exact le_refl _
  | cons hc _ ih =>
    rw [List.sum_cons]
    have := int32_matchCount_nonneg _ _ _ _ _ hc
    omega

theorem int32_searchKeywordLoop_messages (fuel : Nat) (keyword : CStr) (cs : Bool) :
    ∀ (l l' : List LogEntry), l.map LogEntry.message = l'.map LogEntry.message →
      ∀ acc, Int32.searchKeywordLoop fuel keyword cs l acc =
        Int32.searchKeywordLoop fuel keyword cs l' acc := by
  intro l
  induction l with
  | nil =>
    intro l' h acc
    cases l' with
    | nil => rfl
    | cons r rest => cases h
  | cons r rest ih =>
    intro l' h acc
    cases l' with
    | nil => cases h
    | cons r' rest' =>
      rw [List.map_cons, List.map_cons, List.cons.injEq] at h
      rw [int32_searchKeywordLoop_step, int32_searchKeywordLoop_step, h.1]
      cases Int32.matchCount fuel cs r'.message keyword with
      | none => rfl
      | some c => exact ih rest' h.2 _

/-- C10, as amended: for every store and every non-empty keyword, with the
`int` lengths and the `int matchCount` of the source: when the matcher
(`KMP::search` when `caseSensitive`, `KMP::searchCaseInsensitive` otherwise)
returns a count on the message of every record of the store and the sum of
these counts is at most `INT_MAX`, `searchKeyword` returns that sum. With fuel
no smaller than the keyword's length, a keyword shorter than `2^31` bytes and
messages shorter than `2^31 - 1` bytes, every matcher call returns, with the
number of occurrences in the message. The timestamps and the levels do not
enter: two stores with the same messages, record by record, give the same
result. -/
theorem searchKeyword_eq_sum_below_int_max (fuel : Nat) (a : LogAnalyzer) (keyword : CStr)
    (cs : Bool) (hk : keyword ≠ []) :
    (∀ counts : List Int,
      List.Forall₂ (fun r c => Int32.matchCount fuel cs r.message keyword = some c)
        a.logList.getHead counts →
      counts.sum ≤ INT_MAX →
      Int32.LogAnalyzer.searchKeyword fuel a (some keyword) cs = some counts.sum) ∧
    (keyword.length ≤ fuel → keyword.length < 2147483648 →
      (∀ r ∈ a.logList.getHead, r.message.length < 2147483647) →
      List.Forall₂ (fun r c => Int32.matchCount fuel cs r.message keyword = some c)
        a.logList.getHead
        (a.logList.getHead.map (fun r =>
          (((if cs then occurrences r.message keyword
            else occurrences (r.message.map tolower) (keyword.map tolower)) : Nat) : Int)))) ∧
    (∀ b : LogAnalyzer,
      b.logList.getHead.map LogEntry.message = a.logList.getHead.map LogEntry.message →
      Int32.LogAnalyzer.searchKeyword fuel b (some keyword) cs =
        Int32.LogAnalyzer.searchKeyword fuel a (some keyword) cs) := by
  have hlen : ¬ strlen keyword = 0 := by
    simpa [strlen] using hk
  refine ⟨?_, ?_, ?_⟩
  · intro counts hcounts hsum
    have hnn := forall₂_matchCount_sum_nonneg fuel keyword cs _ _ hcounts
    have hmax : counts.sum ≤ 2147483647 := hsum
    simp only [Int32.LogAnalyzer.searchKeyword, if_neg hlen]
    rw [int32_searchKeywordLoop_sum fuel keyword cs _ counts 0 hcounts (by decide), zero_add,
      wrapInt_of_range (by omega) hmax]
  · intro hfuel hkl hml
    rw [List.forall₂_map_right_iff, List.forall₂_same]
    intro r hr
    rw [int32_matchCount_eq fuel cs _ _ (hml r hr) hkl]
    exact matchCount_spec fuel cs r.message keyword hk hfuel
  · intro b hb
    simp only [Int32.LogAnalyzer.searchKeyword, if_neg hlen]
    exact int32_searchKeywordLoop_messages fuel keyword cs _ _ hb 0

/-- On the store with the one record whose timestamp and level are "aa" and
whose message is "aaa", the keyword "aa" is found twice: in the message only. -/
theorem searchKeyword_eq_sum_below_int_max_witness :
    ([97, 97] : CStr) ≠ [] ∧
      Int32.matchCount 2 true [97, 97, 97] [97, 97] = some 2 ∧
      Int32.LogAnalyzer.searchKeyword 2
        (Int32.LogAnalyzer.run [.addLog [97, 97] [97, 97] [97, 97, 97]])
        (some [97, 97]) true = some 2 :=
  ⟨by decide, by decide,
    (searchKeyword_eq_sum_below_int_max 2
      (Int32.LogAnalyzer.run [.addLog [97, 97] [97, 97] [97, 97, 97]]) [97, 97] true
      (by decide)).1 [2] (List.Forall₂.cons (by decide) List.Forall₂.nil) (by decide)⟩

/-- C10 as stated fails: the store holds two records whose message is `2^30`
bytes "a"; for the keyword "a" the matcher returns 1073741824 on each message,
the sum of the two counts is 2147483648, and `searchKeyword` returns
-2147483648. -/
theorem searchKeyword_sum_of_2147483648 :
    List.Forall₂ (fun r c => Int32.matchCount 1 true r.message [97] = some c)
        (Int32.LogAnalyzer.run [.addLog [] [] (List.replicate 1073741824 97),
          .addLog [] [] (List.replicate 1073741824 97)]).logList.getHead
        [1073741824, 1073741824] ∧
      ([1073741824, 1073741824] : List Int).sum = 2147483648 ∧
      Int32.LogAnalyzer.searchKeyword 1
        (Int32.LogAnalyzer.run [.addLog [] [] (List.replicate 1073741824 97),
          .addLog [] [] (List.replicate 1073741824 97)]) (some [97]) true =
        some (-2147483648) := by
  have hm : Int32.matchCount 1 true (List.replicate 1073741824 97) [97] =
      some 1073741824 := by
    unfold Int32.matchCount
    rw [if_pos rfl, int32_search_eq 1 _ _ (by rw [List.length_replicate]; decide) (by decide),
      search_spec 1 _ _ (by decide) (by decide), occurrences_replicate]
    rfl
  have hhead : (Int32.LogAnalyzer.run [.addLog [] [] (List.replicate 1073741824 97),
      .addLog [] [] (List.replicate 1073741824 97)]).logList.getHead =
      [⟨[], [], List.replicate 1073741824 97⟩, ⟨[], [], List.replicate 1073741824 97⟩] := rfl
  have hall : List.Forall₂ (fun r c => Int32.matchCount 1 true r.message [97] = some c)
      (Int32.LogAnalyzer.run [.addLog [] [] (List.replicate 1073741824 97),
        .addLog [] [] (List.replicate 1073741824 97)]).logList.getHead
      [1073741824, 1073741824] := by
    rw [hhead]
    exact List.Forall₂.cons hm (List.Forall₂.cons hm List.Forall₂.nil)
  refine ⟨hall, by decide, ?_⟩
  have hlen : ¬ strlen ([97] : CStr) = 0 := by decide
  simp only [Int32.LogAnalyzer.searchKeyword, if_neg hlen]
  rw [int32_searchKeywordLoop_sum 1 [97] true _ _ 0 hall (by decide)]
  decide

/-! ## `displayLogsWithKeyword`: the whole output -/

end LogAnalyser
